import Mathlib

/-!
# ipt-loadbalancer: chain manager, rule compiler and service monitor

A shallow embedding of `pkg/iptables/iptables.go`, `pkg/servicemonitor/monitor.go`,
`pkg/healthcheck/registry.go` and the parts of `pkg/config/config.go` they use,
followed by theorems about the embedded functions.

Conventions of the embedding:
* Go `string` is `String`, Go `int` is `Int` (no arithmetic is done on ports or
  configured weights, they are only converted and printed).
* Go `float64` is `Float64` below: NaN, the two infinities and the finite values
  (sign bit and magnitude); every arithmetic operation computes the exact rational
  result and rounds it to the nearest binary64 value, ties to even.
* Go `map[string][]NATTarget` is a partial function `String → Option (List NATTarget)`;
  a loop over the map takes the order in which the keys are visited as an argument.
* The probe goroutines of a tick are a step relation on the variables they share: every read
  and every write of `changed`, `up` and `down` is a step of its own, and the order of the
  steps of all goroutines, the schedule, is an argument.
-/

namespace IptLoadbalancer

/-! ## float64 -/

/-- A value of Go's `float64`: NaN, plus or minus infinity, or a finite value given by its
sign bit and its magnitude (so that the two zeros are different values). -/
inductive Float64 where
  | nan : Float64
  | inf (neg : Bool) : Float64
  | fin (neg : Bool) (mag : ℚ) : Float64
  deriving DecidableEq

namespace Float64

/-- Floor of the base-2 logarithm of a natural number `n ≤ fuel` (`0` for `n = 0`), by repeated
halving. -/
def log2Fuel (fuel n : ℕ) : ℕ :=
  match fuel with
  | 0 => 0
  | f + 1 => if 2 ≤ n then log2Fuel f (n / 2) + 1 else 0

/-- Floor of the base-2 logarithm of a natural number (`0` for `0`). -/
def natLog2 (n : ℕ) : ℕ := log2Fuel n n

/-- Floor of the base-2 logarithm of a positive rational. -/
def ilog2 (q : ℚ) : ℤ :=
  let a : ℤ := (natLog2 q.num.natAbs : ℤ) - (natLog2 q.den : ℤ)
  if (2 : ℚ) ^ a ≤ q then a else a - 1

/-- Nearest natural number to a non-negative rational, ties to the even one. -/
def roundHalfEven (q : ℚ) : ℕ :=
  let n := q.num.natAbs
  let d := q.den
  let f := n / d
  let r := n % d
  if 2 * r < d then f else if d < 2 * r then f + 1 else if f % 2 = 0 then f else f + 1

/-- Nearest magnitude with a 53-bit significand and an exponent of at least -1074 to a
non-negative rational, ties to even; the exponent is not bounded above here. -/
def roundMag (q : ℚ) : ℚ :=
  if q = 0 then 0
  else
    let qe : ℤ := max (ilog2 q - 52) (-1074)
    (roundHalfEven (q / (2 : ℚ) ^ qe) : ℚ) * (2 : ℚ) ^ qe

/-- The binary64 value nearest to the magnitude `q` with sign bit `neg`; magnitudes that
round to `2^1024` or more overflow to infinity. -/
def ofMag (neg : Bool) (q : ℚ) : Float64 :=
  let r := roundMag q
  if (2 : ℚ) ^ (1024 : ℕ) ≤ r then inf neg else fin neg r

/-- The signed rational value of a sign bit and a magnitude. -/
def signed (neg : Bool) (mag : ℚ) : ℚ := if neg then -mag else mag

/-- The binary64 value nearest to a non-zero signed rational. -/
def ofSigned (x : ℚ) : Float64 :=
  if x < 0 then ofMag true (-x) else ofMag false x

/-- Go's conversion `float64(n)` of an integer. -/
def ofInt (n : ℤ) : Float64 :=
  if n < 0 then ofMag true ((-n : ℤ) : ℚ) else ofMag false (n : ℚ)

/-- The constant `0.0`. -/
def zero : Float64 := fin false 0

/-- Unary minus: flips the sign bit. -/
def neg : Float64 → Float64
  | nan => nan
  | inf s => inf (!s)
  | fin s a => fin (!s) a

/-- Go's `x + y` on `float64`. An exact sum of zero is `+0` unless both operands are `-0`. -/
def add : Float64 → Float64 → Float64
  | nan, _ => nan
  | _, nan => nan
  | inf s, inf t => if s = t then inf s else nan
  | inf s, fin _ _ => inf s
  | fin _ _, inf t => inf t
  | fin s a, fin t b =>
    let x := signed s a + signed t b
    if x = 0 then fin (s && t) 0 else ofSigned x

/-- Go's `x - y` on `float64`. -/
def sub (x y : Float64) : Float64 := add x (neg y)

/-- Go's `x / y` on `float64`: `0/0` and `Inf/Inf` are NaN, a non-zero value divided by a zero
is an infinity, and the sign bit of every other result is the exclusive or of the operands'. -/
def div : Float64 → Float64 → Float64
  | nan, _ => nan
  | _, nan => nan
  | inf _, inf _ => nan
  | inf s, fin t _ => inf (xor s t)
  | fin s _, inf t => fin (xor s t) 0
  | fin s a, fin t b =>
    if b = 0 then (if a = 0 then nan else inf (xor s t))
    else ofMag (xor s t) (a / b)

end Float64

/-! ## printing -/

/-- Go's `strconv.Itoa`. -/
def Itoa (n : ℤ) : String :=
  match n with
  | Int.ofNat m => Nat.repr m
  | Int.negSucc m => "-" ++ Nat.repr (m + 1)

/-- The decimal digit character of `d % 10`. -/
def digitChar (d : ℕ) : Char := Char.ofNat (48 + d % 10)

/-- The last `prec` decimal digits of `n`, most significant first. -/
def fracDigits (prec n : ℕ) : List Char :=
  match prec with
  | 0 => []
  | p + 1 => digitChar (n / 10 ^ p) :: fracDigits p n

/-- Go's `strconv.FormatFloat(f, 'f', prec, 64)` (the bit size 64 is the constant
`probBitsize`): the exact value of `f` rounded to `prec` fractional digits, ties to even; the
integer part has at least one digit and the fraction has exactly `prec` digits. -/
def FormatFloat (f : Float64) (prec : ℕ) : String :=
  match f with
  | Float64.nan => "NaN"
  | Float64.inf false => "+Inf"
  | Float64.inf true => "-Inf"
  | Float64.fin neg mag =>
    let k := Float64.roundHalfEven (mag * (10 : ℚ) ^ prec)
    let intPart := Nat.repr (k / 10 ^ prec)
    let body := if prec = 0 then intPart else intPart ++ "." ++ String.mk (fracDigits prec k)
    if neg then "-" ++ body else body

/-! ## pkg/iptables -/

/-- The constant `probPrecision`. -/
def probPrecision : ℕ := 3

/-- `NATTarget` contains the configuration for a DNAT jump target with random distribution
and given probability. -/
structure NATTarget where
  Addr : String
  BindAddr : String
  BindPort : ℤ
  LocalAddr : String
  Port : ℤ
  Proto : String
  Weight : Float64
  deriving DecidableEq

/-- The type `chainType` with its two constants. -/
inductive chainType where
  | chainTypeDNAT : chainType
  | chainTypeSNAT : chainType
  deriving DecidableEq

/-- A rule is an argument vector. -/
abbrev Rule := List String

/-- The chain manager `Client`: the managed chain prefix and the service map. The embedded
backend handle is the separate `IPTables` state below; the lock has no sequential content. -/
structure Client where
  managedChain : String
  services : String → Option (List NATTarget)

/-- The Go expression `c.services[service]`: the stored list, or the nil slice for a missing key. -/
def Client.get (c : Client) (service : String) : List NATTarget :=
  (c.services service).getD []

/-- The Go statement `c.services[service] = l`. -/
def Client.set (c : Client) (service : String) (l : List NATTarget) : Client :=
  { c with services := fun s => if s = service then some l else c.services s }

/-- The first loop of `buildServiceTable`: `weightLeft += nt.Weight` over the targets. -/
def sumWeights (ts : List NATTarget) (weightLeft : Float64) : Float64 :=
  match ts with
  | [] => weightLeft
  | nt :: rest => sumWeights rest (weightLeft.add nt.Weight)

/-- The rule appended for one target by the second loop of `buildServiceTable`. -/
def targetRule (cType : chainType) (nt : NATTarget) (weightLeft : Float64) : Rule :=
  match cType with
  | chainType.chainTypeDNAT =>
    ["-m", "statistic",
     "--mode", "random",
     "--probability", FormatFloat (nt.Weight.div weightLeft) probPrecision,
     "-p", nt.Proto,
     "-d", nt.BindAddr,
     "--dport", Itoa nt.BindPort,
     "-j", "DNAT",
     "--to-destination", nt.Addr ++ ":" ++ Itoa nt.Port]
  | chainType.chainTypeSNAT =>
    ["-p", nt.Proto,
     "-d", nt.Addr,
     "--dport", Itoa nt.Port,
     "-j", "SNAT",
     "--to-source", nt.LocalAddr]

/-- The second loop of `buildServiceTable`: append one rule per target, then
`weightLeft -= nt.Weight`. -/
def appendRules (cType : chainType) (ts : List NATTarget) (weightLeft : Float64)
    (rules : List Rule) : List Rule :=
  match ts with
  | [] => rules
  | nt :: rest =>
    appendRules cType rest (weightLeft.sub nt.Weight) (rules ++ [targetRule cType nt weightLeft])

/-- `Client.buildServiceTable`. -/
def Client.buildServiceTable (c : Client) (service : String) (cType : chainType) : List Rule :=
  let weightLeft := sumWeights (c.get service) Float64.zero
  let rules := appendRules cType (c.get service) weightLeft []
  rules ++ [["-j", "RETURN"]]

/-- Go's `strings.Join(parts, sep)`. -/
def Join (parts : List String) (sep : String) : String :=
  match parts with
  | [] => ""
  | [a] => a
  | a :: b :: rest => a ++ sep ++ Join (b :: rest) sep

/-- Go's `unicode.ToUpper` on one rune, as far as `tableName` can observe it: the ASCII
letters `a`..`z` and the two other runes whose upper case is an ASCII letter (U+0131 dotless i,
U+017F long s) are mapped to their upper case. Every other rune is kept: its upper case is
itself or another rune outside ASCII, and `disallowedChars` replaces both in the same way. -/
def toUpperRune (ch : Char) : Char :=
  if 'a' ≤ ch ∧ ch ≤ 'z' then Char.ofNat (ch.toNat - 32)
  else if ch = Char.ofNat 0x131 then 'I'
  else if ch = Char.ofNat 0x17F then 'S'
  else ch

/-- Go's `strings.ToUpper`. -/
def ToUpper (s : String) : String := String.mk (s.data.map toUpperRune)

/-- The character class `A-Z0-9_` that `disallowedChars` negates. -/
def allowedChar (ch : Char) : Bool :=
  ('A' ≤ ch && ch ≤ 'Z') || ('0' ≤ ch && ch ≤ '9') || ch == '_'

/-- The call `disallowedChars.ReplaceAllString(s, repl)` for the pattern `[^A-Z0-9_]`: every
character outside the class is one match and is replaced by `repl`. -/
def disallowedChars_ReplaceAllString (s repl : String) : String :=
  match s with
  | ⟨cs⟩ => String.join (cs.map fun ch => if allowedChar ch then String.singleton ch else repl)

/-- The loop of `tableName`: `parts = append(parts, ...)` for every component. -/
def tableNameParts (components parts : List String) : List String :=
  match components with
  | [] => parts
  | c :: rest =>
    tableNameParts rest (parts ++ [disallowedChars_ReplaceAllString (ToUpper c) "_"])

/-- `Client.tableName` (it does not use its receiver). -/
def tableName (components : List String) : String :=
  Join (tableNameParts components []) "_"

/-- The chain name as the specification words it: the components, each upper-cased and with
every character outside `[A-Z0-9_]` replaced by `_`, joined with `_`. -/
def tableNameSpec (components : List String) : String :=
  String.intercalate "_"
    (components.map fun c => (ToUpper c).map fun ch => if allowedChar ch then ch else '_')

/-- Modelled from the spec: the structural hash `hashstructure.Hash(n, hashstructure.FormatV2, nil)`
of the external library `mitchellh/hashstructure`, which is not part of the repository. The
specification says of `NATTarget` that "Equality is structural over all fields; two NATTargets
are the same entry iff every field matches", so the hash is modelled as an injective code of the
seven fields: the record itself. -/
def hashstructure_Hash (n : NATTarget) : NATTarget := n

/-- `NATTarget.equals`: the two hashes are compared. -/
def NATTarget.equals (n c : NATTarget) : Bool :=
  let nh := hashstructure_Hash n
  let ch := hashstructure_Hash c
  decide (nh = ch)

/-- The loop of `RegisterServiceTarget`: `found = found || et.equals(t)` over the list. -/
def registerFound (l : List NATTarget) (t : NATTarget) (found : Bool) : Bool :=
  match l with
  | [] => found
  | et :: rest => registerFound rest t (found || et.equals t)

/-- `Client.RegisterServiceTarget` adds a new routing target to the given service. Returns the
new state of the client and the returned boolean. -/
def Client.RegisterServiceTarget (c : Client) (service : String) (t : NATTarget) :
    Client × Bool :=
  let found := registerFound (c.get service) t false
  if !found then (c.set service (c.get service ++ [t]), true)
  else (c, false)

/-- The loop of `UnregisterServiceTarget`: `tmp = append(tmp, et)` for the entries that are
not equal to `t`. -/
def unregisterKeep (l : List NATTarget) (t : NATTarget) (tmp : List NATTarget) :
    List NATTarget :=
  match l with
  | [] => tmp
  | et :: rest => unregisterKeep rest t (if !et.equals t then tmp ++ [et] else tmp)

/-- `Client.UnregisterServiceTarget` removes a routing target from the given service. Returns
the new state of the client and the returned boolean. -/
def Client.UnregisterServiceTarget (c : Client) (service : String) (t : NATTarget) :
    Client × Bool :=
  let tmp := unregisterKeep (c.get service) t []
  if tmp.length = (c.get service).length then (c, false)
  else (c.set service tmp, true)

/-- Go `error` values of the embedded functions. -/
inductive Error where
  /-- An error returned by a call of the NAT backend. -/
  | backend : Error
  /-- The error `fmt.Errorf(msg + ": %w", err)`. -/
  | wrap (msg : String) (err : Error) : Error
  /-- The error `fmt.Errorf("creating chain %q: %w", chain, err)`. -/
  | creatingChain (chain : String) (err : Error) : Error
  /-- The error `fmt.Errorf("checker %q not found", name)`. -/
  | checkerNotFound (name : String) : Error
  deriving DecidableEq

/-- Modelled from the spec: the NAT backend adapter of section 4.1 (the embedded
`*coreosIptables.IPTables` of the external library `coreos/go-iptables`), restricted to the `nat`
table. `chains` maps the name of every existing chain to its rules in order. `failures` decides
for the coming backend calls, in order, whether the kernel refuses the call (`true`); a call
beyond the end of the list is not refused. -/
structure IPTables where
  chains : String → Option (List Rule)
  failures : List Bool

/-- Whether the next backend call is refused, and the backend with that decision consumed. -/
def IPTables.nextCall (ipt : IPTables) : Bool × IPTables :=
  match ipt.failures with
  | [] => (false, ipt)
  | f :: rest => (f, { ipt with failures := rest })

/-- Replace the contents of one chain. -/
def IPTables.setChain (ipt : IPTables) (chain : String) (rules : List Rule) : IPTables :=
  { ipt with chains := fun n => if n = chain then some rules else ipt.chains n }

/-- Modelled from the spec: `ChainExists(chain)` "Returns whether chain exists; failure ⇒
backend unavailable". -/
def IPTables.ChainExists (ipt : IPTables) (chain : String) : IPTables × Except Error Bool :=
  match ipt.nextCall with
  | (true, ipt1) => (ipt1, Except.error Error.backend)
  | (false, ipt1) => (ipt1, Except.ok (ipt1.chains chain).isSome)

/-- Modelled from the spec: `NewChain(chain)` "Creates empty chain; fails if it already
exists". -/
def IPTables.NewChain (ipt : IPTables) (chain : String) : IPTables × Option Error :=
  match ipt.nextCall with
  | (true, ipt1) => (ipt1, some Error.backend)
  | (false, ipt1) =>
    match ipt1.chains chain with
    | some _ => (ipt1, some Error.backend)
    | none => (ipt1.setChain chain [], none)

/-- Modelled from the spec: `ClearChain(chain)` "Removes all rules from an existing chain;
preserves chain itself". -/
def IPTables.ClearChain (ipt : IPTables) (chain : String) : IPTables × Option Error :=
  match ipt.nextCall with
  | (true, ipt1) => (ipt1, some Error.backend)
  | (false, ipt1) =>
    match ipt1.chains chain with
    | some _ => (ipt1.setChain chain [], none)
    | none => (ipt1, some Error.backend)

/-- Modelled from the spec: `Append(chain, rule)` "Appends one rule (an ordered argument
vector)"; it fails on a chain that does not exist. -/
def IPTables.Append (ipt : IPTables) (chain : String) (rule : Rule) : IPTables × Option Error :=
  match ipt.nextCall with
  | (true, ipt1) => (ipt1, some Error.backend)
  | (false, ipt1) =>
    match ipt1.chains chain with
    | some rules => (ipt1.setChain chain (rules ++ [rule]), none)
    | none => (ipt1, some Error.backend)

/-- Modelled from the spec: `InsertUnique(chain, pos, rule)` "Inserts `rule` at `pos` iff no
rule equal to it already exists anywhere in `chain`; idempotent"; positions count from 1. -/
def IPTables.InsertUnique (ipt : IPTables) (chain : String) (pos : ℕ) (rule : Rule) :
    IPTables × Option Error :=
  match ipt.nextCall with
  | (true, ipt1) => (ipt1, some Error.backend)
  | (false, ipt1) =>
    match ipt1.chains chain with
    | none => (ipt1, some Error.backend)
    | some rules =>
      if rule ∈ rules then (ipt1, none)
      else (ipt1.setChain chain (rules.take (pos - 1) ++ [rule] ++ rules.drop (pos - 1)), none)

/-- The loop of `ensureChainWithRules`: `Append` every rule, stop at the first error. -/
def appendAll (ipt : IPTables) (chain : String) (rules : List Rule) : IPTables × Option Error :=
  match rules with
  | [] => (ipt, none)
  | rule :: rest =>
    match ipt.Append chain rule with
    | (ipt1, some err) => (ipt1, some (Error.wrap "adding rule to chain" err))
    | (ipt1, none) => appendAll ipt1 chain rest

/-- `Client.ensureChainWithRules`: the backend after the call and the returned error. -/
def ensureChainWithRules (ipt : IPTables) (chain : String) (rules : List Rule) :
    IPTables × Option Error :=
  match ipt.ChainExists chain with
  | (ipt1, Except.error err) => (ipt1, some (Error.wrap "checking for chain existence" err))
  | (ipt1, Except.ok chainExists) =>
    if chainExists then
      match ipt1.ClearChain chain with
      | (ipt2, some err) => (ipt2, some (Error.wrap "clearing existing chain" err))
      | (ipt2, none) => appendAll ipt2 chain rules
    else
      match ipt1.NewChain chain with
      | (ipt2, some err) => (ipt2, some (Error.wrap "creating tmp-chain" err))
      | (ipt2, none) => appendAll ipt2 chain rules

/-- The inner loop of `EnsureManagedChains` over the two-entry map literal from chain name to
chain type, given as the list of its entries in the order in which they are visited. -/
def ensureServiceChains (c : Client) (ipt : IPTables) (s : String)
    (entries : List (String × chainType)) : IPTables × Option Error :=
  match entries with
  | [] => (ipt, none)
  | (chain, cType) :: rest =>
    match ensureChainWithRules ipt chain (c.buildServiceTable s cType) with
    | (ipt1, some err) => (ipt1, some (Error.creatingChain chain err))
    | (ipt1, none) => ensureServiceChains c ipt1 s rest

/-- The entries of the map literal in `EnsureManagedChains` for service `s`, in the order in
which the inner `range` visits them: the DNAT chain first iff `dnatFirst`. The two keys always
differ (see `tableName_DNAT_ne_SNAT`), so the map has exactly these two entries. -/
def chainEntries (c : Client) (s : String) (dnatFirst : Bool) : List (String × chainType) :=
  let d := (tableName [c.managedChain, s, "DNAT"], chainType.chainTypeDNAT)
  let n := (tableName [c.managedChain, s, "SNAT"], chainType.chainTypeSNAT)
  if dnatFirst then [d, n] else [n, d]

/-- The outer loop of `EnsureManagedChains`. `order` lists the keys of `c.services` in the
order in which `range` visits them, each with the order of the inner loop. Returns the backend,
the error that stopped the loop if any, and the collected `dnat` and `snat` jump rules. -/
def ensureServices (c : Client) (ipt : IPTables) (order : List (String × Bool))
    (dnat snat : List Rule) : IPTables × Option Error × List Rule × List Rule :=
  match order with
  | [] => (ipt, none, dnat, snat)
  | (s, dnatFirst) :: rest =>
    match ensureServiceChains c ipt s (chainEntries c s dnatFirst) with
    | (ipt1, some err) => (ipt1, some err, dnat, snat)
    | (ipt1, none) =>
      ensureServices c ipt1 rest
        (dnat ++ [["-j", tableName [c.managedChain, s, "DNAT"]]])
        (snat ++ [["-j", tableName [c.managedChain, s, "SNAT"]]])

/-- `Client.EnsureManagedChains` creates the managed chain referring to the service chains.
Go does not fix the order in which `range` visits the keys of a map, so that order is the
argument `order`; see `Client.rangeOrder`. -/
def Client.EnsureManagedChains (c : Client) (ipt : IPTables) (order : List (String × Bool)) :
    IPTables × Option Error :=
  match ensureServices c ipt order [] [] with
  | (ipt1, some err, _, _) => (ipt1, some err)
  | (ipt1, none, dnat0, snat0) =>
    let dnat := dnat0 ++ [["-j", "RETURN"]]
    let snat := snat0 ++ [["-j", "RETURN"]]
    match ensureChainWithRules ipt1 (tableName [c.managedChain, "DNAT"]) dnat with
    | (ipt2, some err) => (ipt2, some (Error.wrap "creating managed DNAT chain" err))
    | (ipt2, none) =>
      match ensureChainWithRules ipt2 (tableName [c.managedChain, "SNAT"]) snat with
      | (ipt3, some err) => (ipt3, some (Error.wrap "creating managed SNAT chain" err))
      | (ipt3, none) => (ipt3, none)

/-- `Client.EnableMangedRoutingChains` inserts a jump to the given managed chains at position 1
of the PREROUTING and POSTROUTING chains if it does not already exist in the chain. -/
def Client.EnableMangedRoutingChains (c : Client) (ipt : IPTables) : IPTables × Option Error :=
  match ipt.InsertUnique "PREROUTING" 1 ["-j", tableName [c.managedChain, "DNAT"]] with
  | (ipt1, some err) => (ipt1, some (Error.wrap "ensuring DNAT jump to managed chain" err))
  | (ipt1, none) =>
    match ipt1.InsertUnique "POSTROUTING" 1 ["-j", tableName [c.managedChain, "SNAT"]] with
    | (ipt2, some err) => (ipt2, some (Error.wrap "ensuring SNAT jump to managed chain" err))
    | (ipt2, none) => (ipt2, none)

/-- A possible order of `for s := range c.services`: every key of the map exactly once. -/
def Client.rangeOrder (c : Client) (order : List (String × Bool)) : Prop :=
  (order.map Prod.fst).Nodup ∧ ∀ s, s ∈ order.map Prod.fst ↔ (c.services s).isSome = true

/-- `iptables.New`: a client without services. -/
def New (managedChain : String) : Client :=
  { managedChain := managedChain, services := fun _ => none }

/-! ## pkg/healthcheck -/

/-- The implementations of the `Checker` interface in the repository: the packages
`healthcheck/http`, `healthcheck/tcp` and `healthcheck/smtp` each define a `Check` type. -/
inductive Checker where
  | http : Checker
  | tcp : Checker
  | smtp : Checker
  deriving DecidableEq

/-- `healthcheck.ByName`: the Checker for the given name, or `none` (Go `nil`) if that name is
not registered. -/
def ByName (name : String) : Option Checker :=
  if name = "http" then some Checker.http
  else if name = "tcp" then some Checker.tcp
  else none

/-! ## pkg/config -/

/-- `config.Target` represents a load-balancing target to route the traffic to in case it is
deemed alive. -/
structure Target where
  Addr : String
  LocalAddr : String
  Port : ℤ
  Weight : ℤ
  deriving DecidableEq

/-- `config.ServiceHealthCheck`; the interval and the settings bag do not enter the embedding. -/
structure ServiceHealthCheck where
  type : String
  deriving DecidableEq

/-- `config.Service` represents a single service to be exposed. -/
structure Service where
  Name : String
  HealthCheck : ServiceHealthCheck
  BindAddr : String
  BindPort : ℤ
  Proto : String
  Targets : List Target
  deriving DecidableEq

/-- `Service.Protocol` evaluates the Proto and returns tcp if empty. -/
def Service.Protocol (s : Service) : String :=
  if s.Proto = "" then "tcp" else s.Proto

/-- `Target.String`. -/
def Target.String (t : Target) : String := t.Addr ++ ":" ++ Itoa t.Port

/-! ## pkg/servicemonitor -/

/-- `Monitor` contains the monitoring logic and state; the chain manager and its backend are
passed to the functions as `MonitorState`. -/
structure Monitor where
  svc : Service

/-- What a monitor acts on: the shared chain manager `m.ipt` and its NAT backend. -/
structure MonitorState where
  client : Client
  ipt : IPTables

/-- The `NATTarget` that a probe of `updateRoutingTargets` builds for the target `t`. -/
def Monitor.natTarget (m : Monitor) (t : Target) : NATTarget :=
  { Addr := t.Addr
    BindAddr := m.svc.BindAddr
    BindPort := m.svc.BindPort
    LocalAddr := t.LocalAddr
    Port := t.Port
    Weight := Float64.ofInt t.Weight
    Proto := m.svc.Protocol }

/-- The variables shared by the probes of one tick, plus a record of the calls made:
`calls` holds the value returned by every `RegisterServiceTarget` / `UnregisterServiceTarget`
call of the tick in the order of the calls. -/
structure ProbeState where
  client : Client
  changed : Bool
  down : List String
  up : List String
  calls : List Bool

/-- Where one probe goroutine of `updateRoutingTargets` stands. The goroutines share
`changed`, `up` and `down` without synchronisation, so a goroutine reads and writes them in
separate steps between which the other goroutines may run:
`start`, nothing done yet; `loaded c`, `changed` has been read as `c`; `evaluated v`, the
right-hand side `changed || call()` has the value `v`; `stored`, `changed` has been written;
`listLoaded l`, the slice `down` (or `up`) has been read as `l`; `done`, the appended slice has
been written and the goroutine has returned. -/
inductive ProbePC where
  | start : ProbePC
  | loaded (c : Bool) : ProbePC
  | evaluated (v : Bool) : ProbePC
  | stored : ProbePC
  | listLoaded (l : List String) : ProbePC
  | done : ProbePC
  deriving DecidableEq

/-- One step of the probe goroutine for target `t`, whose check returned no error iff `ok`.
The statement `changed = changed || m.ipt.UnregisterServiceTarget(...)` (or
`RegisterServiceTarget` for a target that is up) reads `changed`, calls the chain manager only
if the value read is false (Go's `||` does not evaluate its right operand otherwise; the call
itself is atomic, the chain manager holds its lock), and then writes `changed`; the statement
`down = append(down, t.String())` (or `up`) reads the slice and then writes it. -/
def Monitor.probeStep (m : Monitor) (sh : ProbeState) (t : Target) (ok : Bool) (pc : ProbePC) :
    ProbeState × ProbePC :=
  match pc with
  | ProbePC.start => (sh, ProbePC.loaded sh.changed)
  | ProbePC.loaded c =>
    if c then (sh, ProbePC.evaluated true)
    else
      let tgt := m.natTarget t
      let r :=
        if ok then sh.client.RegisterServiceTarget m.svc.Name tgt
        else sh.client.UnregisterServiceTarget m.svc.Name tgt
      ({ sh with client := r.1, calls := sh.calls ++ [r.2] }, ProbePC.evaluated r.2)
  | ProbePC.evaluated v => ({ sh with changed := v }, ProbePC.stored)
  | ProbePC.stored => (sh, ProbePC.listLoaded (if ok then sh.up else sh.down))
  | ProbePC.listLoaded l =>
    (if ok then { sh with up := l ++ [t.String] } else { sh with down := l ++ [t.String] },
     ProbePC.done)
  | ProbePC.done => (sh, ProbePC.done)

/-- The shared variables of a tick and where each of its probe goroutines stands. -/
structure TickState where
  shared : ProbeState
  pcs : List ProbePC

/-- The goroutine with index `i` takes its next step; `probes` lists the target and the
outcome of the check of every goroutine. An index without a goroutine changes nothing. -/
def Monitor.stepGoroutine (m : Monitor) (probes : List (Target × Bool)) (ts : TickState)
    (i : ℕ) : TickState :=
  match probes[i]?, ts.pcs[i]? with
  | some (t, ok), some pc =>
    let r := m.probeStep ts.shared t ok pc
    { shared := r.1, pcs := ts.pcs.set i r.2 }
  | _, _ => ts

/-- The goroutines take their steps in the order given by the schedule `sched`. -/
def Monitor.runSchedule (m : Monitor) (probes : List (Target × Bool)) (ts : TickState)
    (sched : List ℕ) : TickState :=
  match sched with
  | [] => ts
  | i :: rest => m.runSchedule probes (m.stepGoroutine probes ts i) rest

/-- The schedule in which the goroutines `0 .. n-1` run one after the other, each for the five
steps that take it from `start` to `done`. -/
def sequentialSchedule (n : ℕ) : List ℕ :=
  match n with
  | 0 => []
  | k + 1 => sequentialSchedule k ++ List.replicate 5 k

/-- The probe goroutines of one tick from `go func()` to `wg.Wait()`: they take their steps as
the schedule `sched` says, and those that have not returned when the schedule ends then run to
their end one after the other, so that every schedule stands for a complete run and every
interleaving of the goroutines' steps is the run of some schedule. -/
def Monitor.runGoroutines (m : Monitor) (probes : List (Target × Bool)) (sh : ProbeState)
    (sched : List ℕ) : ProbeState :=
  (m.runSchedule probes { shared := sh, pcs := probes.map fun _ => ProbePC.start }
    (sched ++ sequentialSchedule probes.length)).shared

/-- The goroutines that the loop `for i := range m.svc.Targets` starts for the targets from
index `i` on: one per target, with the outcome of its check (`checks j` iff the check of the
target with index `j` returned no error). -/
def probesFrom (checks : ℕ → Bool) (i : ℕ) (targets : List Target) : List (Target × Bool) :=
  match targets with
  | [] => []
  | t :: rest => (t, checks i) :: probesFrom checks (i + 1) rest

/-- The level of the status log of a tick. -/
inductive LogLevel where
  | debug : LogLevel
  | warn : LogLevel
  | error : LogLevel
  deriving DecidableEq

/-- The `switch` of `updateRoutingTargets` that selects the level of the "targets up" log. -/
def statusLevel (up down : List String) : LogLevel :=
  if up.length = up.length + down.length then LogLevel.debug
  else if up.length > 0 then LogLevel.warn
  else LogLevel.error

/-- The result of one tick: the state left behind, the returned error, and a record of what
the tick did (the values returned by the chain manager calls, how often
`EnsureManagedChains` was invoked, the level of the status log). -/
structure TickResult where
  state : MonitorState
  err : Option Error
  calls : List Bool
  ensureCalls : ℕ
  level : LogLevel

/-- `Monitor.updateRoutingTargets`. `checks` gives the outcome of the health check of every
configured target by index, `sched` the order in which the probe goroutines take their steps,
and `order` the order in which `EnsureManagedChains`, if invoked, visits the keys of the service
map. -/
def Monitor.updateRoutingTargets (m : Monitor) (st : MonitorState) (checks : ℕ → Bool)
    (sched : List ℕ) (order : List (String × Bool)) : TickResult :=
  let ps := m.runGoroutines (probesFrom checks 0 m.svc.Targets)
    { client := st.client, changed := false, down := [], up := [], calls := [] } sched
  let level := statusLevel ps.up ps.down
  if !ps.changed then
    { state := { client := ps.client, ipt := st.ipt }, err := none, calls := ps.calls,
      ensureCalls := 0, level := level }
  else
    match ps.client.EnsureManagedChains st.ipt order with
    | (ipt1, some err) =>
      { state := { client := ps.client, ipt := ipt1 },
        err := some (Error.wrap "updating chains" err), calls := ps.calls,
        ensureCalls := 1, level := level }
    | (ipt1, none) =>
      { state := { client := ps.client, ipt := ipt1 }, err := none, calls := ps.calls,
        ensureCalls := 1, level := level }

/-- The input of one iteration of `Monitor.Run`: the outcomes of the health checks, the
schedule of the probe goroutines, and the map order for `EnsureManagedChains`. -/
structure TickInput where
  checks : ℕ → Bool
  sched : List ℕ
  order : List (String × Bool)

/-- `Monitor.Run`, the monitoring loop, run for the iterations whose inputs are given. The loop
itself never ends without an error: the result is the state reached and the error returned, or
`none` if the loop is still running after these iterations. -/
def Monitor.Run (m : Monitor) (st : MonitorState) (ticks : List TickInput) :
    MonitorState × Option Error :=
  match ticks with
  | [] => (st, none)
  | tick :: rest =>
    match ByName m.svc.HealthCheck.type with
    | none => (st, some (Error.checkerNotFound m.svc.HealthCheck.type))
    | some _ =>
      let r := m.updateRoutingTargets st tick.checks tick.sched tick.order
      match r.err with
      | some err => (r.state, some (Error.wrap "updating healthy targets" err))
      | none => m.Run r.state rest

/-! ## main -/

/-- The start of `main` up to the point where the monitors are spawned: create the client,
call `EnsureManagedChains` once (the service map is empty, so `range` visits no key) and, if
`enableManagedChain` is set, `EnableMangedRoutingChains`. An error is fatal for the process. -/
def mainStart (managedChain : String) (enableManagedChain : Bool) (ipt : IPTables) :
    MonitorState × Option Error :=
  let c := New managedChain
  match c.EnsureManagedChains ipt [] with
  | (ipt1, some err) => ({ client := c, ipt := ipt1 }, some (Error.wrap "creating managed chain" err))
  | (ipt1, none) =>
    if enableManagedChain then
      match c.EnableMangedRoutingChains ipt1 with
      | (ipt2, some err) => ({ client := c, ipt := ipt2 }, some (Error.wrap "enabling routing" err))
      | (ipt2, none) => ({ client := c, ipt := ipt2 }, none)
    else ({ client := c, ipt := ipt1 }, none)

/-! ## sample data (scenario S1 of the specification) -/

/-- Target A of scenario S1. -/
def sampleTargetA : Target := { Addr := "192.168.1.10", LocalAddr := "", Port := 8080, Weight := 1 }

/-- Target B of scenario S1. -/
def sampleTargetB : Target := { Addr := "192.168.1.11", LocalAddr := "", Port := 8080, Weight := 3 }

/-- The service "web" of scenario S1 with a health check of the given type. -/
def sampleService (checkType : String) : Service :=
  { Name := "web", HealthCheck := { type := checkType }, BindAddr := "10.0.0.1", BindPort := 80,
    Proto := "", Targets := [sampleTargetA, sampleTargetB] }

/-- The monitor of the sample service. -/
def sampleMonitor (checkType : String) : Monitor := { svc := sampleService checkType }

/-- The `NATTarget` of target A of the sample service. -/
def sampleNatA : NATTarget := (sampleMonitor "tcp").natTarget sampleTargetA

/-- The `NATTarget` of target B of the sample service. -/
def sampleNatB : NATTarget := (sampleMonitor "tcp").natTarget sampleTargetB

/-- A backend without chains in which no call is refused. -/
def emptyBackend : IPTables := { chains := fun _ => none, failures := [] }

/-- A backend in which the chain `M_WEB_DNAT` exists with two rules, the chain `OTHER` with one,
and no call is refused. -/
def usedBackend : IPTables :=
  { chains := fun n =>
      if n = "M_WEB_DNAT" then some [["-j", "ACCEPT"], ["-j", "RETURN"]]
      else if n = "OTHER" then some [["-j", "DROP"]]
      else none
    failures := [] }

/-- A backend left behind by an earlier run: the top-level chains and the chains of the service
"web" exist with old rules, and no call is refused. -/
def staleBackend : IPTables :=
  { chains := fun n =>
      if n = "M_DNAT" then some [["-j", "M_WEB_DNAT"], ["-j", "M_OLD_DNAT"], ["-j", "RETURN"]]
      else if n = "M_SNAT" then some [["-j", "M_WEB_SNAT"], ["-j", "RETURN"]]
      else if n = "M_WEB_DNAT" then some [["-j", "ACCEPT"], ["-j", "RETURN"]]
      else if n = "M_WEB_SNAT" then some [["-j", "RETURN"]]
      else none
    failures := [] }

/-- The `NATTarget` of the sample service for a target at `addr` with the configured weight `w`. -/
def sampleNat (addr : String) (w : ℤ) : NATTarget :=
  (sampleMonitor "tcp").natTarget { Addr := addr, LocalAddr := "", Port := 8080, Weight := w }

/-- A client whose service "web" has the registered targets `ts`. -/
def sampleClient (ts : List NATTarget) : Client := (New "M").set "web" ts

/-- The monitor of a service "web" whose only configured target is target A. -/
def singleMonitor : Monitor :=
  { svc := { Name := "web", HealthCheck := { type := "tcp" }, BindAddr := "10.0.0.1",
             BindPort := 80, Proto := "", Targets := [sampleTargetA] } }

/-! ## specification-side notions -/

/-- The schedule in which the goroutines with the indices `idx` run one after the other in this
order, each without being interrupted from `start` to `done`. -/
def blockSchedule (idx : List ℕ) : List ℕ :=
  match idx with
  | [] => []
  | i :: rest => List.replicate 5 i ++ blockSchedule rest

/-- Two `NATTarget`s that agree in all seven fields. -/
def sameFields (a b : NATTarget) : Prop :=
  a.Addr = b.Addr ∧ a.BindAddr = b.BindAddr ∧ a.BindPort = b.BindPort ∧
  a.LocalAddr = b.LocalAddr ∧ a.Port = b.Port ∧ a.Proto = b.Proto ∧ a.Weight = b.Weight

instance (a b : NATTarget) : Decidable (sameFields a b) := by
  unfold sameFields
  infer_instance

/-- The decimal notation of `k / 10 ^ prec` with exactly `prec` fractional digits. -/
def decimalFixed (prec k : ℕ) : String :=
  Nat.repr (k / 10 ^ prec) ++ "." ++ String.mk (fracDigits prec k)

/-- The DNAT rule of the specification for the target `t` with the probability text `P`:
`-m statistic --mode random --probability P -p proto -d bindAddr --dport bindPort -j DNAT
--to-destination addr:port`. -/
def dnatRule (t : NATTarget) (P : String) : Rule :=
  ["-m", "statistic", "--mode", "random", "--probability", P,
   "-p", t.Proto, "-d", t.BindAddr, "--dport", Itoa t.BindPort,
   "-j", "DNAT", "--to-destination", t.Addr ++ ":" ++ Itoa t.Port]

/-- The SNAT rule of the specification for the target `t`:
`-p proto -d addr --dport port -j SNAT --to-source localAddr`. -/
def snatRule (t : NATTarget) : Rule :=
  ["-p", t.Proto, "-d", t.Addr, "--dport", Itoa t.Port, "-j", "SNAT", "--to-source", t.LocalAddr]

/-- The probability text of the specification for a target of weight `w` and residual weight
`W`: the quotient `w / W` in binary64, printed with `probPrecision` fractional digits. -/
def residualProbability (w W : ℤ) : String :=
  FormatFloat ((Float64.ofInt w).div (Float64.ofInt W)) probPrecision

/-- The DNAT rules of the specification for the targets `ts` with the weights `ws`: the i-th
rule carries the probability `w_i / W_i`, where the residual weight `W_i` is the sum of the
weights from the i-th on. -/
def dnatRules (ts : List NATTarget) (ws : List ℤ) : List Rule :=
  match ts, ws with
  | t :: ts1, w :: ws1 => dnatRule t (residualProbability w (w :: ws1).sum) :: dnatRules ts1 ws1
  | _, _ => []

/-- The value of `--probability` in a rule of the statistic match, if it is one. -/
def probabilityOf (r : Rule) : Option String :=
  match r with
  | "-m" :: "statistic" :: "--mode" :: "random" :: "--probability" :: p :: _ => some p
  | _ => none

/-- The `--probability` values of a chain in rule order. -/
def emittedProbabilities (rules : List Rule) : List String := rules.filterMap probabilityOf

/-- The probability that one of the rules of a chain matches when the i-th rule matches with
probability `p_i` the packets that its predecessors did not match:
`p₁ + (1 - p₁) p₂ + (1 - p₁) (1 - p₂) p₃ + …`. -/
def sequentialTotal (ps : List ℚ) : ℚ :=
  match ps with
  | [] => 0
  | p :: rest => p + (1 - p) * sequentialTotal rest

/-! ## theorems -/

/-! ### Chain naming -/

theorem tableNameParts_eq (components parts : List String) :
    tableNameParts components parts =
      parts ++ components.map fun c => disallowedChars_ReplaceAllString (ToUpper c) "_" := by
  induction components generalizing parts with
  | nil => simp [tableNameParts]
  | cons c rest ih => simp [tableNameParts, ih]

theorem foldl_append_data (l : List String) (acc : String) :
    (List.foldl (fun r s => r ++ s) acc l).data = acc.data ++ (l.map String.data).flatten := by
  induction l generalizing acc with
  | nil => simp
  | cons a rest ih => simp [ih, String.data_append]

theorem replaceAll_underscore (s : String) :
    disallowedChars_ReplaceAllString s "_" =
      s.map fun ch => if allowedChar ch then ch else '_' := by
  cases s with
  | mk cs =>
    rw [String.map_eq]
    apply String.ext
    simp only [disallowedChars_ReplaceAllString, String.join, foldl_append_data]
    induction cs with
    | nil => rfl
    | cons a rest ih =>
      simp only [List.map_cons, List.flatten_cons] at ih ⊢
      rw [← ih]
      by_cases h : allowedChar a = true <;> simp [h, String.singleton]

theorem intercalate_go_eq (acc sep : String) (l : List String) :
    String.intercalate.go acc sep l = acc ++ String.join (l.map fun a => sep ++ a) := by
  induction l generalizing acc with
  | nil => simp [String.intercalate.go, String.join]
  | cons a rest ih =>
    simp only [String.intercalate.go, ih, List.map_cons]
    apply String.ext
    simp [String.join, foldl_append_data, String.data_append]

theorem Join_eq_intercalate (parts : List String) (sep : String) :
    Join parts sep = String.intercalate sep parts := by
  induction parts with
  | nil => rfl
  | cons a rest ih =>
    cases rest with
    | nil => simp [Join, String.intercalate, String.intercalate.go]
    | cons b rest2 =>
      rw [Join, ih]
      simp only [String.intercalate, String.intercalate.go, intercalate_go_eq]
      apply String.ext
      simp [String.data_append]

theorem Join_chars (P : Char → Prop) (sep : String) (hsep : ∀ ch ∈ sep.data, P ch)
    (parts : List String) (hparts : ∀ p ∈ parts, ∀ ch ∈ p.data, P ch) :
    ∀ ch ∈ (Join parts sep).data, P ch := by
  induction parts with
  | nil => intro ch h; simp [Join] at h
  | cons a rest ih =>
    cases rest with
    | nil => simpa [Join] using hparts
    | cons b rest2 =>
      intro ch h
      rw [Join] at h
      simp only [String.data_append, List.mem_append] at h
      rcases h with (h | h) | h
      · exact hparts a (by simp) ch h
      · exact hsep ch h
      · exact ih (fun p hp => hparts p (by simp [hp])) ch h

/-- C6 (chain naming, P2): for every list of components, `tableName` returns the components
joined with `_` after each component is upper-cased and every character of it outside
`[A-Z0-9_]` is replaced by `_`, so the name contains only characters of `[A-Z0-9_]`; and
`tableName("mb-lb", "web.1", "DNAT")` is `MB_LB_WEB_1_DNAT`. -/
theorem tableName_upper_joined :
    (∀ components : List String,
      tableName components = tableNameSpec components ∧
      ∀ ch ∈ (tableName components).data, allowedChar ch = true) ∧
    tableName ["mb-lb", "web.1", "DNAT"] = "MB_LB_WEB_1_DNAT" := by
  refine ⟨fun components => ⟨?_, ?_⟩, by decide⟩
  · simp only [tableName, tableNameSpec, tableNameParts_eq, List.nil_append,
      Join_eq_intercalate, replaceAll_underscore]
  · rw [tableName, tableNameParts_eq]
    apply Join_chars (fun ch => allowedChar ch = true)
    · intro ch h
      have : ch = '_' := by simpa using h
      subst this
      decide
    · intro p hp ch hch
      simp only [List.nil_append, List.mem_map] at hp
      obtain ⟨c, -, rfl⟩ := hp
      rw [replaceAll_underscore, String.map_eq] at hch
      simp only [List.mem_map] at hch
      obtain ⟨x, -, rfl⟩ := hch
      by_cases h : allowedChar x = true
      · simp [h]
      · rw [if_neg h]
        decide


/-! ### Register and unregister -/

theorem sameFields_iff (a b : NATTarget) : sameFields a b ↔ a = b := by
  constructor
  · rintro ⟨h1, h2, h3, h4, h5, h6, h7⟩
    cases a; cases b; simp_all
  · rintro rfl
    exact ⟨rfl, rfl, rfl, rfl, rfl, rfl, rfl⟩

theorem equals_iff (a b : NATTarget) : a.equals b = true ↔ a = b := by
  simp [NATTarget.equals, hashstructure_Hash]

theorem registerFound_eq (l : List NATTarget) (t : NATTarget) (found : Bool) :
    registerFound l t found = (found || decide (t ∈ l)) := by
  induction l generalizing found with
  | nil => simp [registerFound]
  | cons et rest ih =>
    rw [registerFound, ih]
    by_cases h : et = t
    · subst h; simp [equals_iff]
    · have h1 : et.equals t = false := by
        rw [← Bool.not_eq_true, equals_iff]; exact h
      have h2 : ¬ t = et := fun e => h e.symm
      simp [h1, h2]

theorem unregisterKeep_eq (l : List NATTarget) (t : NATTarget) (tmp : List NATTarget) :
    unregisterKeep l t tmp = tmp ++ l.filter (fun et => decide (et ≠ t)) := by
  induction l generalizing tmp with
  | nil => simp [unregisterKeep]
  | cons et rest ih =>
    rw [unregisterKeep, ih]
    by_cases h : et = t
    · subst h
      have : et.equals et = true := (equals_iff _ _).2 rfl
      simp [this]
    · have h1 : et.equals t = false := by
        rw [← Bool.not_eq_true, equals_iff]; exact h
      simp [h1, h]

theorem Client.get_set_same (c : Client) (service : String) (l : List NATTarget) :
    (c.set service l).get service = l := by
  simp [Client.get, Client.set]

theorem Client.get_set_other (c : Client) (service s : String) (l : List NATTarget)
    (h : s ≠ service) : (c.set service l).get s = c.get s := by
  simp [Client.get, Client.set, h]

theorem Client.register_eq (c : Client) (service : String) (t : NATTarget) :
    c.RegisterServiceTarget service t =
      if t ∈ c.get service then (c, false)
      else (c.set service (c.get service ++ [t]), true) := by
  simp only [Client.RegisterServiceTarget, registerFound_eq, Bool.false_or]
  by_cases h : t ∈ c.get service <;> simp [h]

theorem Client.unregister_eq (c : Client) (service : String) (t : NATTarget) :
    c.UnregisterServiceTarget service t =
      if t ∈ c.get service
      then (c.set service ((c.get service).filter fun et => decide (et ≠ t)), true)
      else (c, false) := by
  simp only [Client.UnregisterServiceTarget, unregisterKeep_eq, List.nil_append]
  by_cases h : t ∈ c.get service
  · have hlt : ((c.get service).filter fun et => decide (et ≠ t)).length
        < (c.get service).length := by
      have hsub := List.filter_sublist (c.get service) (p := fun et => decide (et ≠ t))
      rcases Nat.lt_or_ge ((c.get service).filter fun et => decide (et ≠ t)).length
        (c.get service).length with h1 | h1
      · exact h1
      · have heq := hsub.eq_of_length_le h1
        have hmem : t ∈ (c.get service).filter fun et => decide (et ≠ t) := by
          rw [heq]; exact h
        simp at hmem
    simp [h, Nat.ne_of_lt hlt]
  · have hall : ((c.get service).filter fun et => decide (et ≠ t)) = c.get service := by
      rw [List.filter_eq_self]
      intro a ha
      have : a ≠ t := fun e => h (e ▸ ha)
      simpa using this
    simp [h, hall]

/-- C4 (register, P3): if no entry of `services[service]` agrees with `t` in all seven fields,
`RegisterServiceTarget` appends `t` at the end of that list, keeps everything else and returns
true; otherwise it leaves the client unchanged and returns false. Hence a second registration
of the same target directly after the first returns false and leaves the length of the list
unchanged. -/
theorem RegisterServiceTarget_appends_once (c : Client) (service : String) (t : NATTarget) :
    ((∀ et ∈ c.get service, ¬ sameFields et t) →
      (c.RegisterServiceTarget service t).2 = true ∧
      (c.RegisterServiceTarget service t).1.services service = some (c.get service ++ [t]) ∧
      (c.RegisterServiceTarget service t).1.managedChain = c.managedChain ∧
      ∀ s, s ≠ service → (c.RegisterServiceTarget service t).1.services s = c.services s) ∧
    ((∃ et ∈ c.get service, sameFields et t) →
      (c.RegisterServiceTarget service t).2 = false ∧
      (c.RegisterServiceTarget service t).1 = c) ∧
    (((c.RegisterServiceTarget service t).1.RegisterServiceTarget service t).2 = false ∧
      (((c.RegisterServiceTarget service t).1.RegisterServiceTarget service t).1.get
          service).length
        = ((c.RegisterServiceTarget service t).1.get service).length) := by
  have key : ∀ c' : Client, t ∈ c'.get service →
      c'.RegisterServiceTarget service t = (c', false) := by
    intro c' h
    rw [Client.register_eq, if_pos h]
  have hin : t ∈ (c.RegisterServiceTarget service t).1.get service := by
    rw [Client.register_eq]
    by_cases h : t ∈ c.get service
    · simp [h]
    · simp [h, Client.get_set_same]
  refine ⟨?_, ?_, ?_⟩
  · intro hno
    have h : t ∉ c.get service := fun hm => hno t hm ((sameFields_iff t t).2 rfl)
    rw [Client.register_eq, if_neg h]
    refine ⟨rfl, ?_, rfl, ?_⟩
    · simp [Client.set]
    · intro s hs
      simp [Client.set, hs]
  · rintro ⟨et, hmem, hsame⟩
    have h : t ∈ c.get service := by
      rw [(sameFields_iff et t).1 hsame] at hmem
      exact hmem
    rw [key c h]
    exact ⟨rfl, rfl⟩
  · rw [key _ hin]
    exact ⟨rfl, rfl⟩

theorem RegisterServiceTarget_appends_once_witness :
    (((New "M").RegisterServiceTarget "web" sampleNatA).2 = true ∧
      ((New "M").RegisterServiceTarget "web" sampleNatA).1.services "web"
        = some ((New "M").get "web" ++ [sampleNatA]) ∧
      ((New "M").RegisterServiceTarget "web" sampleNatA).1.managedChain = (New "M").managedChain ∧
      ∀ s, s ≠ "web" →
        ((New "M").RegisterServiceTarget "web" sampleNatA).1.services s = (New "M").services s) ∧
    ((((New "M").set "web" [sampleNatA]).RegisterServiceTarget "web" sampleNatA).2 = false ∧
      (((New "M").set "web" [sampleNatA]).RegisterServiceTarget "web" sampleNatA).1
        = (New "M").set "web" [sampleNatA]) :=
  ⟨(RegisterServiceTarget_appends_once (New "M") "web" sampleNatA).1
      (by intro et h; simp [Client.get, New] at h),
   (RegisterServiceTarget_appends_once ((New "M").set "web" [sampleNatA]) "web" sampleNatA).2.1
      ⟨sampleNatA, by simp [Client.get, Client.set], (sameFields_iff _ _).2 rfl⟩⟩

/-- C5 (unregister, P4): `UnregisterServiceTarget` returns true iff `services[service]` holds an
entry that agrees with `t` in all seven fields; when it returns true the new list is the old
one without the entries equal to `t`, the others in their order, so that no equal entry remains
and an unregistration of `t` directly afterwards returns false; when it returns false the
client is unchanged. -/
theorem UnregisterServiceTarget_removes_all (c : Client) (service : String) (t : NATTarget) :
    ((c.UnregisterServiceTarget service t).2 = true ↔ ∃ et ∈ c.get service, sameFields et t) ∧
    ((c.UnregisterServiceTarget service t).2 = true →
      (c.UnregisterServiceTarget service t).1.services service
        = some ((c.get service).filter fun et => decide (¬ sameFields et t)) ∧
      (∀ et ∈ (c.UnregisterServiceTarget service t).1.get service, ¬ sameFields et t) ∧
      ((c.UnregisterServiceTarget service t).1.UnregisterServiceTarget service t).2 = false ∧
      (c.UnregisterServiceTarget service t).1.managedChain = c.managedChain ∧
      ∀ s, s ≠ service → (c.UnregisterServiceTarget service t).1.services s = c.services s) ∧
    ((c.UnregisterServiceTarget service t).2 = false →
      (c.UnregisterServiceTarget service t).1 = c) := by
  have hfilter : ((c.get service).filter fun et => decide (¬ sameFields et t))
      = (c.get service).filter fun et => decide (et ≠ t) := by
    congr 1
    funext et
    simp [sameFields_iff]
  rw [hfilter, Client.unregister_eq]
  by_cases h : t ∈ c.get service
  · rw [if_pos h]
    refine ⟨⟨fun _ => ⟨t, h, (sameFields_iff t t).2 rfl⟩, fun _ => rfl⟩,
      fun _ => ⟨?_, ?_, ?_, rfl, ?_⟩, ?_⟩
    · simp [Client.set]
    · intro et het
      rw [Client.get_set_same] at het
      have := (List.mem_filter.1 het).2
      simpa [sameFields_iff] using this
    · rw [Client.unregister_eq, if_neg]
      rw [Client.get_set_same]
      simp
    · intro s hs
      simp [Client.set, hs]
    · intro hf
      simp at hf
  · rw [if_neg h]
    refine ⟨?_, ?_, fun _ => rfl⟩
    · constructor
      · intro hf
        simp at hf
      · rintro ⟨et, hmem, hsame⟩
        rw [(sameFields_iff et t).1 hsame] at hmem
        exact absurd hmem h
    · intro hf
      simp at hf

theorem UnregisterServiceTarget_removes_all_witness :
    (((New "M").set "web" [sampleNatA, sampleNatB]).UnregisterServiceTarget "web" sampleNatA).2
        = true ∧
    ((((New "M").set "web" [sampleNatA, sampleNatB]).UnregisterServiceTarget "web"
        sampleNatA).1.UnregisterServiceTarget "web" sampleNatA).2 = false ∧
    ((New "M").UnregisterServiceTarget "web" sampleNatA).1 = New "M" := by
  have h1 : (((New "M").set "web" [sampleNatA, sampleNatB]).UnregisterServiceTarget "web"
      sampleNatA).2 = true :=
    (UnregisterServiceTarget_removes_all _ "web" sampleNatA).1.2
      ⟨sampleNatA, by simp [Client.get, Client.set], (sameFields_iff _ _).2 rfl⟩
  have h2 : ((New "M").UnregisterServiceTarget "web" sampleNatA).2 = false := by
    rw [Client.unregister_eq]
    simp [Client.get, New]
  exact ⟨h1,
    ((UnregisterServiceTarget_removes_all _ "web" sampleNatA).2.1 h1).2.2.1,
    (UnregisterServiceTarget_removes_all (New "M") "web" sampleNatA).2.2 h2⟩

/-! ### Check types -/

/-- C10 (recognized check types): `ByName` returns a checker exactly for the names "http" and
"tcp". For "smtp", whose checker the repository implements in `healthcheck/smtp`, it returns
nil, and `Monitor.Run` of a service with that check type fails with "checker not found"
in its first iteration without touching the state. -/
theorem ByName_smtp_not_registered :
    (∀ name, ByName name ≠ none ↔ (name = "http" ∨ name = "tcp")) ∧
    ByName "smtp" = none ∧
    ∀ (st : MonitorState) (tick : TickInput) (rest : List TickInput),
      (sampleMonitor "smtp").Run st (tick :: rest) = (st, some (Error.checkerNotFound "smtp")) := by
  refine ⟨?_, by decide, ?_⟩
  · intro name
    unfold ByName
    by_cases h1 : name = "http"
    · simp [h1]
    · by_cases h2 : name = "tcp"
      · simp [h2]
      · simp [h1, h2]
  · intro st tick rest
    rfl

/-! ### One tick of the monitor -/

/-- C3 (reconciliation of one tick), evaluated where it fails: on a client without services
the probes of A and B both succeed and the goroutine of A runs to its end before that of B.
Registering A returns true and sets `changed`, after which `changed || ...` no longer calls the
chain manager: only one call is made and B is not registered although its probe succeeded. In
the same way, with A and B registered and both probes failing, only A is unregistered and B
stays in the list. -/
theorem updateRoutingTargets_skips_calls_after_change :
    (((sampleMonitor "tcp").updateRoutingTargets { client := New "M", ipt := emptyBackend }
        (fun _ => true) [0, 0, 0, 0, 0, 1, 1, 1, 1, 1] [("web", true)]).state.client.get "web"
      = [sampleNatA]) ∧
    (((sampleMonitor "tcp").updateRoutingTargets { client := New "M", ipt := emptyBackend }
        (fun _ => true) [0, 0, 0, 0, 0, 1, 1, 1, 1, 1] [("web", true)]).calls = [true]) ∧
    (((sampleMonitor "tcp").updateRoutingTargets
        { client := (New "M").set "web" [sampleNatA, sampleNatB], ipt := emptyBackend }
        (fun _ => false) [0, 0, 0, 0, 0, 1, 1, 1, 1, 1] [("web", true)]).state.client.get "web"
      = [sampleNatB]) ∧
    sampleNatA ≠ sampleNatB := by
  decide!

/-- C7 (rebuild trigger, P5), evaluated where it fails: the service "web" has B registered and
the probes of A and B both succeed. The goroutine of B reads `changed` (false), then the
goroutine of A reads `changed`, registers A (the call returns true and the list becomes
`[B, A]`) and writes `changed = true`; then the goroutine of B registers B (the call returns
false) and writes `changed = false`. A call made in the tick has returned true, but
`EnsureManagedChains` is not invoked: the tick returns no error and leaves the old rules in the
backend. When the goroutine of A runs to its end before that of B, the same tick does invoke
`EnsureManagedChains` once. -/
theorem updateRoutingTargets_lost_update_skips_rebuild :
    (sampleMonitor "tcp").svc.Targets = [sampleTargetA, sampleTargetB] ∧
    ((sampleMonitor "tcp").updateRoutingTargets
        { client := (New "M").set "web" [sampleNatB], ipt := staleBackend }
        (fun _ => true) [1, 0, 0, 0, 1, 1] [("web", true)]).calls = [true, false] ∧
    ((sampleMonitor "tcp").updateRoutingTargets
        { client := (New "M").set "web" [sampleNatB], ipt := staleBackend }
        (fun _ => true) [1, 0, 0, 0, 1, 1] [("web", true)]).ensureCalls = 0 ∧
    ((sampleMonitor "tcp").updateRoutingTargets
        { client := (New "M").set "web" [sampleNatB], ipt := staleBackend }
        (fun _ => true) [1, 0, 0, 0, 1, 1] [("web", true)]).err = none ∧
    ((sampleMonitor "tcp").updateRoutingTargets
        { client := (New "M").set "web" [sampleNatB], ipt := staleBackend }
        (fun _ => true) [1, 0, 0, 0, 1, 1] [("web", true)]).state.client.get "web"
      = [sampleNatB, sampleNatA] ∧
    ((sampleMonitor "tcp").updateRoutingTargets
        { client := (New "M").set "web" [sampleNatB], ipt := staleBackend }
        (fun _ => true) [1, 0, 0, 0, 1, 1] [("web", true)]).state.ipt.chains "M_WEB_DNAT"
      = some [["-j", "ACCEPT"], ["-j", "RETURN"]] ∧
    ((sampleMonitor "tcp").updateRoutingTargets
        { client := (New "M").set "web" [sampleNatB], ipt := staleBackend }
        (fun _ => true) [1, 0, 0, 0, 1, 1] [("web", true)]).state.ipt.chains "M_DNAT"
      = some [["-j", "M_WEB_DNAT"], ["-j", "M_OLD_DNAT"], ["-j", "RETURN"]] ∧
    ((sampleMonitor "tcp").updateRoutingTargets
        { client := (New "M").set "web" [sampleNatB], ipt := staleBackend }
        (fun _ => true) [0, 0, 0, 0, 0, 1, 1, 1, 1, 1] [("web", true)]).calls = [true] ∧
    ((sampleMonitor "tcp").updateRoutingTargets
        { client := (New "M").set "web" [sampleNatB], ipt := staleBackend }
        (fun _ => true) [0, 0, 0, 0, 0, 1, 1, 1, 1, 1] [("web", true)]).ensureCalls = 1 := by
  decide!


/-! ### The backend -/

theorem IPTables.nextCall_chains (ipt : IPTables) : ipt.nextCall.2.chains = ipt.chains := by
  unfold IPTables.nextCall
  split <;> rfl

theorem IPTables.setChain_same (ipt : IPTables) (chain : String) (rules : List Rule) :
    (ipt.setChain chain rules).chains chain = some rules := by
  simp [IPTables.setChain]

theorem IPTables.setChain_other (ipt : IPTables) (chain n : String) (rules : List Rule)
    (h : n ≠ chain) : (ipt.setChain chain rules).chains n = ipt.chains n := by
  simp [IPTables.setChain, h]

theorem IPTables.ChainExists_chains (ipt : IPTables) (chain : String) :
    (ipt.ChainExists chain).1.chains = ipt.chains := by
  unfold IPTables.ChainExists
  have h := ipt.nextCall_chains
  rcases hn : ipt.nextCall with ⟨b, ipt1⟩
  rw [hn] at h
  cases b <;> exact h

theorem IPTables.ChainExists_ok (ipt : IPTables) (chain : String) (b : Bool)
    (h : (ipt.ChainExists chain).2 = Except.ok b) : b = (ipt.chains chain).isSome := by
  unfold IPTables.ChainExists at h
  have hc := ipt.nextCall_chains
  rcases hn : ipt.nextCall with ⟨f, ipt1⟩
  rw [hn] at h hc
  cases f
  · simp only [Except.ok.injEq] at h
    rw [← h]
    exact congrArg (fun g => (g chain).isSome) hc
  · simp at h

theorem IPTables.NewChain_other (ipt : IPTables) (chain n : String) (h : n ≠ chain) :
    (ipt.NewChain chain).1.chains n = ipt.chains n := by
  unfold IPTables.NewChain
  have hc := ipt.nextCall_chains
  rcases hn : ipt.nextCall with ⟨f, ipt1⟩
  rw [hn] at hc
  cases f
  · simp only []
    cases ipt1.chains chain with
    | none => simp only []; rw [IPTables.setChain_other _ _ _ _ h]; exact congrFun hc n
    | some rs => exact congrFun hc n
  · exact congrFun hc n

theorem IPTables.NewChain_ok (ipt : IPTables) (chain : String)
    (h : (ipt.NewChain chain).2 = none) : (ipt.NewChain chain).1.chains chain = some [] := by
  unfold IPTables.NewChain at h ⊢
  rcases hn : ipt.nextCall with ⟨f, ipt1⟩
  rw [hn] at h
  cases f
  · simp only [] at h ⊢
    cases hx : ipt1.chains chain with
    | none => simp only []; exact IPTables.setChain_same _ _ _
    | some rs => rw [hx] at h; simp at h
  · simp at h

theorem IPTables.ClearChain_other (ipt : IPTables) (chain n : String) (h : n ≠ chain) :
    (ipt.ClearChain chain).1.chains n = ipt.chains n := by
  unfold IPTables.ClearChain
  have hc := ipt.nextCall_chains
  rcases hn : ipt.nextCall with ⟨f, ipt1⟩
  rw [hn] at hc
  cases f
  · simp only []
    cases ipt1.chains chain with
    | none => exact congrFun hc n
    | some rs => simp only []; rw [IPTables.setChain_other _ _ _ _ h]; exact congrFun hc n
  · exact congrFun hc n

theorem IPTables.ClearChain_ok (ipt : IPTables) (chain : String)
    (h : (ipt.ClearChain chain).2 = none) : (ipt.ClearChain chain).1.chains chain = some [] := by
  unfold IPTables.ClearChain at h ⊢
  rcases hn : ipt.nextCall with ⟨f, ipt1⟩
  rw [hn] at h
  cases f
  · simp only [] at h ⊢
    cases hx : ipt1.chains chain with
    | none => rw [hx] at h; simp at h
    | some rs => simp only []; exact IPTables.setChain_same _ _ _
  · simp at h

theorem IPTables.Append_other (ipt : IPTables) (chain n : String) (rule : Rule) (h : n ≠ chain) :
    (ipt.Append chain rule).1.chains n = ipt.chains n := by
  unfold IPTables.Append
  have hc := ipt.nextCall_chains
  rcases hn : ipt.nextCall with ⟨f, ipt1⟩
  rw [hn] at hc
  cases f
  · simp only []
    cases ipt1.chains chain with
    | none => exact congrFun hc n
    | some rs => simp only []; rw [IPTables.setChain_other _ _ _ _ h]; exact congrFun hc n
  · exact congrFun hc n

theorem IPTables.Append_ok (ipt : IPTables) (chain : String) (rule : Rule) (rs : List Rule)
    (h0 : ipt.chains chain = some rs) (h : (ipt.Append chain rule).2 = none) :
    (ipt.Append chain rule).1.chains chain = some (rs ++ [rule]) := by
  unfold IPTables.Append at h ⊢
  have hc := ipt.nextCall_chains
  rcases hn : ipt.nextCall with ⟨f, ipt1⟩
  rw [hn] at h hc
  have h1 : ipt1.chains chain = some rs := by
    rw [← h0]; exact congrFun hc chain
  cases f
  · simp only [h1]
    exact IPTables.setChain_same _ _ _
  · simp at h

theorem appendAll_other (chain n : String) (h : n ≠ chain) (rules : List Rule) (ipt : IPTables) :
    (appendAll ipt chain rules).1.chains n = ipt.chains n := by
  induction rules generalizing ipt with
  | nil => rfl
  | cons rule rest ih =>
    rw [appendAll]
    have ho := IPTables.Append_other ipt chain n rule h
    rcases ha : ipt.Append chain rule with ⟨ipt1, _ | err⟩
    · rw [ha] at ho
      simp only []
      rw [ih, ho]
    · rw [ha] at ho
      exact ho

theorem appendAll_ok (chain : String) (rules : List Rule) (ipt : IPTables) (rs : List Rule)
    (h0 : ipt.chains chain = some rs) (h : (appendAll ipt chain rules).2 = none) :
    (appendAll ipt chain rules).1.chains chain = some (rs ++ rules) := by
  induction rules generalizing ipt rs with
  | nil => simpa [appendAll] using h0
  | cons rule rest ih =>
    rw [appendAll] at h ⊢
    have hk := IPTables.Append_ok ipt chain rule rs h0
    rcases ha : ipt.Append chain rule with ⟨ipt1, _ | err⟩
    · rw [ha] at h hk
      simp only [] at h ⊢
      rw [ih ipt1 (rs ++ [rule]) (hk rfl) h]
      simp
    · rw [ha] at h
      simp at h

theorem ensureChainWithRules_other (ipt : IPTables) (chain n : String) (rules : List Rule)
    (h : n ≠ chain) : (ensureChainWithRules ipt chain rules).1.chains n = ipt.chains n := by
  unfold ensureChainWithRules
  have hc := ipt.ChainExists_chains chain
  rcases he : ipt.ChainExists chain with ⟨ipt1, err | b⟩
  · rw [he] at hc
    exact congrFun hc n
  · rw [he] at hc
    simp only []
    cases b
    · simp only [Bool.false_eq_true, if_false]
      have hn := IPTables.NewChain_other ipt1 chain n h
      rcases hx : ipt1.NewChain chain with ⟨ipt2, _ | err⟩
      · rw [hx] at hn
        simp only []
        rw [appendAll_other chain n h, hn]
        exact congrFun hc n
      · rw [hx] at hn
        simp only []
        rw [hn]
        exact congrFun hc n
    · simp only [if_true]
      have hn := IPTables.ClearChain_other ipt1 chain n h
      rcases hx : ipt1.ClearChain chain with ⟨ipt2, _ | err⟩
      · rw [hx] at hn
        simp only []
        rw [appendAll_other chain n h, hn]
        exact congrFun hc n
      · rw [hx] at hn
        simp only []
        rw [hn]
        exact congrFun hc n

theorem ensureChainWithRules_ok (ipt : IPTables) (chain : String) (rules : List Rule)
    (h : (ensureChainWithRules ipt chain rules).2 = none) :
    (ensureChainWithRules ipt chain rules).1.chains chain = some rules := by
  unfold ensureChainWithRules at h ⊢
  rcases he : ipt.ChainExists chain with ⟨ipt1, err | b⟩
  · rw [he] at h
    simp at h
  · rw [he] at h
    simp only [] at h ⊢
    cases b
    · simp only [Bool.false_eq_true, if_false] at h ⊢
      have hn := IPTables.NewChain_ok ipt1 chain
      rcases hx : ipt1.NewChain chain with ⟨ipt2, _ | err⟩
      · rw [hx] at h hn
        simp only [] at h ⊢
        rw [appendAll_ok chain rules ipt2 [] (hn rfl) h]
        simp
      · rw [hx] at h
        simp at h
    · simp only [if_true] at h ⊢
      have hn := IPTables.ClearChain_ok ipt1 chain
      rcases hx : ipt1.ClearChain chain with ⟨ipt2, _ | err⟩
      · rw [hx] at h hn
        simp only [] at h ⊢
        rw [appendAll_ok chain rules ipt2 [] (hn rfl) h]
        simp
      · rw [hx] at h
        simp at h


/-! ### Chain names -/

theorem tableName_two (a b : String) :
    tableName [a, b] = disallowedChars_ReplaceAllString (ToUpper a) "_" ++ "_"
      ++ disallowedChars_ReplaceAllString (ToUpper b) "_" := by
  simp [tableName, tableNameParts, Join]

theorem tableName_three (a b k : String) :
    tableName [a, b, k] = disallowedChars_ReplaceAllString (ToUpper a) "_" ++ "_"
      ++ (disallowedChars_ReplaceAllString (ToUpper b) "_" ++ "_"
      ++ disallowedChars_ReplaceAllString (ToUpper k) "_") := by
  simp [tableName, tableNameParts, Join]

theorem clean_DNAT : disallowedChars_ReplaceAllString (ToUpper "DNAT") "_" = "DNAT" := by decide

theorem clean_SNAT : disallowedChars_ReplaceAllString (ToUpper "SNAT") "_" = "SNAT" := by decide

theorem suffix_DNAT_ne_SNAT (x y : String) : x ++ "DNAT" ≠ y ++ "SNAT" := by
  intro h
  have h1 := congrArg (fun s : String => s.data.reverse) h
  simp [String.data_append] at h1

theorem tableName_service_DNAT_ne_SNAT (m s m2 s2 : String) :
    tableName [m, s, "DNAT"] ≠ tableName [m2, s2, "SNAT"] := by
  rw [tableName_three, tableName_three, clean_DNAT, clean_SNAT]
  simp only [← String.append_assoc]
  exact suffix_DNAT_ne_SNAT _ _

theorem tableName_DNAT_ne_SNAT (m s : String) :
    tableName [m, s, "DNAT"] ≠ tableName [m, s, "SNAT"] :=
  tableName_service_DNAT_ne_SNAT m s m s

theorem tableName_top_DNAT_ne_SNAT (m m2 : String) :
    tableName [m, "DNAT"] ≠ tableName [m2, "SNAT"] := by
  rw [tableName_two, tableName_two, clean_DNAT, clean_SNAT]
  exact suffix_DNAT_ne_SNAT _ _

theorem tableName_service_DNAT_ne_top_SNAT (m s m2 : String) :
    tableName [m, s, "DNAT"] ≠ tableName [m2, "SNAT"] := by
  rw [tableName_three, tableName_two, clean_DNAT, clean_SNAT]
  simp only [← String.append_assoc]
  exact suffix_DNAT_ne_SNAT _ _

theorem tableName_top_DNAT_ne_service_SNAT (m m2 s2 : String) :
    tableName [m, "DNAT"] ≠ tableName [m2, s2, "SNAT"] := by
  rw [tableName_three, tableName_two, clean_DNAT, clean_SNAT]
  simp only [← String.append_assoc]
  exact suffix_DNAT_ne_SNAT _ _

theorem tableName_service_ne_top (m s k : String) :
    tableName [m, s, k] ≠ tableName [m, k] := by
  rw [tableName_three, tableName_two]
  intro h
  have h1 := congrArg String.length h
  simp [String.length_append] at h1
  have h2 : ("_" : String).length = 1 := by decide
  omega


/-! ### Rebuilding all chains -/

theorem ensureServiceChains_other (c : Client) (s n : String)
    (entries : List (String × chainType)) (ipt : IPTables) (h : ∀ e ∈ entries, n ≠ e.1) :
    (ensureServiceChains c ipt s entries).1.chains n = ipt.chains n := by
  induction entries generalizing ipt with
  | nil => rfl
  | cons e rest ih =>
    obtain ⟨chain, cType⟩ := e
    rw [ensureServiceChains]
    have hne : n ≠ chain := h (chain, cType) (by simp)
    have ho := ensureChainWithRules_other ipt chain n (c.buildServiceTable s cType) hne
    rcases hx : ensureChainWithRules ipt chain (c.buildServiceTable s cType) with ⟨ipt1, _ | err⟩
    · rw [hx] at ho
      simp only []
      rw [ih ipt1 (fun e he => h e (by simp [he])), ho]
    · rw [hx] at ho
      exact ho

theorem ensureServiceChains_pair (c : Client) (s : String) (ipt : IPTables)
    (n1 n2 : String) (t1 t2 : chainType) (hne : n1 ≠ n2)
    (h : (ensureServiceChains c ipt s [(n1, t1), (n2, t2)]).2 = none) :
    (ensureServiceChains c ipt s [(n1, t1), (n2, t2)]).1.chains n1
        = some (c.buildServiceTable s t1) ∧
    (ensureServiceChains c ipt s [(n1, t1), (n2, t2)]).1.chains n2
        = some (c.buildServiceTable s t2) := by
  rw [ensureServiceChains] at h ⊢
  have h1 := ensureChainWithRules_ok ipt n1 (c.buildServiceTable s t1)
  rcases hx : ensureChainWithRules ipt n1 (c.buildServiceTable s t1) with ⟨ipt1, _ | err⟩
  · rw [hx] at h h1
    simp only [] at h h1 ⊢
    rw [ensureServiceChains] at h ⊢
    have h2 := ensureChainWithRules_ok ipt1 n2 (c.buildServiceTable s t2)
    have h3 := ensureChainWithRules_other ipt1 n2 n1 (c.buildServiceTable s t2) hne
    rcases hy : ensureChainWithRules ipt1 n2 (c.buildServiceTable s t2) with ⟨ipt2, _ | err⟩
    · rw [hy] at h h2 h3
      simp only [ensureServiceChains] at h h2 h3 ⊢
      exact ⟨by rw [h3]; exact h1 trivial, h2 trivial⟩
    · rw [hy] at h
      simp at h
  · rw [hx] at h
    simp at h

theorem ensureServiceChains_ok (c : Client) (s : String) (ipt : IPTables) (dnatFirst : Bool)
    (h : (ensureServiceChains c ipt s (chainEntries c s dnatFirst)).2 = none) :
    (ensureServiceChains c ipt s (chainEntries c s dnatFirst)).1.chains
        (tableName [c.managedChain, s, "DNAT"])
      = some (c.buildServiceTable s chainType.chainTypeDNAT) ∧
    (ensureServiceChains c ipt s (chainEntries c s dnatFirst)).1.chains
        (tableName [c.managedChain, s, "SNAT"])
      = some (c.buildServiceTable s chainType.chainTypeSNAT) := by
  unfold chainEntries at h ⊢
  cases dnatFirst
  · simp only [Bool.false_eq_true, if_false] at h ⊢
    exact (ensureServiceChains_pair c s ipt _ _ _ _
      (fun e => tableName_DNAT_ne_SNAT _ _ e.symm) h).symm
  · simp only [if_true] at h ⊢
    exact ensureServiceChains_pair c s ipt _ _ _ _ (tableName_DNAT_ne_SNAT _ _) h

theorem chainEntries_names (c : Client) (s : String) (dnatFirst : Bool) (n : String)
    (hd : n ≠ tableName [c.managedChain, s, "DNAT"])
    (hs : n ≠ tableName [c.managedChain, s, "SNAT"]) :
    ∀ e ∈ chainEntries c s dnatFirst, n ≠ e.1 := by
  intro e he
  unfold chainEntries at he
  cases dnatFirst <;> simp at he <;> rcases he with rfl | rfl <;> assumption

theorem ensureServices_other (c : Client) (n : String) (order : List (String × Bool))
    (ipt : IPTables) (dnat snat : List Rule)
    (h : ∀ p ∈ order, n ≠ tableName [c.managedChain, p.1, "DNAT"] ∧
      n ≠ tableName [c.managedChain, p.1, "SNAT"]) :
    (ensureServices c ipt order dnat snat).1.chains n = ipt.chains n := by
  induction order generalizing ipt dnat snat with
  | nil => rfl
  | cons p rest ih =>
    obtain ⟨s, dnatFirst⟩ := p
    rw [ensureServices]
    have hp := h (s, dnatFirst) (by simp)
    have ho := ensureServiceChains_other c s n (chainEntries c s dnatFirst) ipt
      (chainEntries_names c s dnatFirst n hp.1 hp.2)
    rcases hx : ensureServiceChains c ipt s (chainEntries c s dnatFirst) with ⟨ipt1, _ | err⟩
    · rw [hx] at ho
      simp only []
      rw [ih ipt1 _ _ (fun q hq => h q (by simp [hq])), ho]
    · rw [hx] at ho
      exact ho

theorem ensureServices_lists (c : Client) (order : List (String × Bool)) (ipt : IPTables)
    (dnat snat : List Rule) (h : (ensureServices c ipt order dnat snat).2.1 = none) :
    (ensureServices c ipt order dnat snat).2.2.1
        = dnat ++ order.map (fun p => ["-j", tableName [c.managedChain, p.1, "DNAT"]]) ∧
    (ensureServices c ipt order dnat snat).2.2.2
        = snat ++ order.map (fun p => ["-j", tableName [c.managedChain, p.1, "SNAT"]]) := by
  induction order generalizing ipt dnat snat with
  | nil => simp [ensureServices]
  | cons p rest ih =>
    obtain ⟨s, dnatFirst⟩ := p
    rw [ensureServices] at h ⊢
    rcases hx : ensureServiceChains c ipt s (chainEntries c s dnatFirst) with ⟨ipt1, _ | err⟩
    · rw [hx] at h
      simp only [] at h ⊢
      have := ih ipt1 _ _ h
      rw [this.1, this.2]
      simp
    · rw [hx] at h
      simp at h

theorem ensureServices_chain (c : Client) (s : String) (order : List (String × Bool))
    (ipt : IPTables) (dnat snat : List Rule)
    (h : (ensureServices c ipt order dnat snat).2.1 = none)
    (hs : s ∈ order.map Prod.fst)
    (huniq : ∀ s2 ∈ order.map Prod.fst,
      tableName [c.managedChain, s2, "DNAT"] = tableName [c.managedChain, s, "DNAT"] → s2 = s) :
    (ensureServices c ipt order dnat snat).1.chains (tableName [c.managedChain, s, "DNAT"])
      = some (c.buildServiceTable s chainType.chainTypeDNAT) := by
  induction order generalizing ipt dnat snat with
  | nil => simp at hs
  | cons p rest ih =>
    obtain ⟨s1, dnatFirst⟩ := p
    rw [ensureServices] at h ⊢
    have hk := ensureServiceChains_ok c s1 ipt dnatFirst
    rcases hx : ensureServiceChains c ipt s1 (chainEntries c s1 dnatFirst) with ⟨ipt1, _ | err⟩
    · rw [hx] at h hk
      simp only [] at h hk ⊢
      by_cases hin : s ∈ rest.map Prod.fst
      · exact ih ipt1 _ _ h hin (fun s2 h2 => huniq s2 (by simp at h2 ⊢; exact Or.inr h2))
      · have hs1 : s = s1 := by
          simp only [List.map_cons, List.mem_cons] at hs
          rcases hs with hs | hs
          · exact hs
          · exact absurd hs hin
        subst hs1
        rw [ensureServices_other c _ rest ipt1 _ _ ?_]
        · exact (hk trivial).1
        · intro q hq
          refine ⟨?_, tableName_service_DNAT_ne_SNAT _ _ _ _⟩
          intro he
          have : q.1 = s :=
            huniq q.1 (List.mem_cons_of_mem _ (List.mem_map_of_mem Prod.fst hq)) he.symm
          exact hin (by rw [← this]; exact List.mem_map_of_mem _ hq)
    · rw [hx] at h
      simp at h


theorem EnsureManagedChains_top (c : Client) (ipt : IPTables) (order : List (String × Bool))
    (hok : (c.EnsureManagedChains ipt order).2 = none) :
    (c.EnsureManagedChains ipt order).1.chains (tableName [c.managedChain, "DNAT"])
      = some (order.map (fun p => ["-j", tableName [c.managedChain, p.1, "DNAT"]])
          ++ [["-j", "RETURN"]]) ∧
    (c.EnsureManagedChains ipt order).1.chains (tableName [c.managedChain, "SNAT"])
      = some (order.map (fun p => ["-j", tableName [c.managedChain, p.1, "SNAT"]])
          ++ [["-j", "RETURN"]]) := by
  unfold Client.EnsureManagedChains at hok ⊢
  have hl := ensureServices_lists c order ipt [] []
  rcases hx : ensureServices c ipt order [] [] with ⟨ipt1, _ | err, dnat0, snat0⟩
  · rw [hx] at hok hl
    simp only [List.nil_append] at hok hl ⊢
    obtain ⟨hd, hs⟩ := hl trivial
    subst hd hs
    have h1 := ensureChainWithRules_ok ipt1 (tableName [c.managedChain, "DNAT"])
      (order.map (fun p => ["-j", tableName [c.managedChain, p.1, "DNAT"]]) ++ [["-j", "RETURN"]])
    rcases hy : ensureChainWithRules ipt1 (tableName [c.managedChain, "DNAT"])
      (order.map (fun p => ["-j", tableName [c.managedChain, p.1, "DNAT"]]) ++ [["-j", "RETURN"]])
      with ⟨ipt2, _ | err⟩
    · rw [hy] at hok h1
      simp only [] at hok h1 ⊢
      have h2 := ensureChainWithRules_ok ipt2 (tableName [c.managedChain, "SNAT"])
        (order.map (fun p => ["-j", tableName [c.managedChain, p.1, "SNAT"]])
          ++ [["-j", "RETURN"]])
      have h3 := ensureChainWithRules_other ipt2 (tableName [c.managedChain, "SNAT"])
        (tableName [c.managedChain, "DNAT"])
        (order.map (fun p => ["-j", tableName [c.managedChain, p.1, "SNAT"]])
          ++ [["-j", "RETURN"]]) (tableName_top_DNAT_ne_SNAT _ _)
      rcases hz : ensureChainWithRules ipt2 (tableName [c.managedChain, "SNAT"])
        (order.map (fun p => ["-j", tableName [c.managedChain, p.1, "SNAT"]])
          ++ [["-j", "RETURN"]]) with ⟨ipt3, _ | err⟩
      · rw [hz] at hok h2 h3
        simp only [] at h2 h3 ⊢
        exact ⟨by rw [h3]; exact h1 trivial, h2 trivial⟩
      · rw [hz] at hok
        simp at hok
    · rw [hy] at hok
      simp at hok
  · rw [hx] at hok
    simp at hok

theorem EnsureManagedChains_service_chain (c : Client) (ipt : IPTables)
    (order : List (String × Bool)) (s : String)
    (hok : (c.EnsureManagedChains ipt order).2 = none)
    (hs : s ∈ order.map Prod.fst)
    (huniq : ∀ s2 ∈ order.map Prod.fst,
      tableName [c.managedChain, s2, "DNAT"] = tableName [c.managedChain, s, "DNAT"] → s2 = s) :
    (c.EnsureManagedChains ipt order).1.chains (tableName [c.managedChain, s, "DNAT"])
      = some (c.buildServiceTable s chainType.chainTypeDNAT) := by
  unfold Client.EnsureManagedChains at hok ⊢
  have hl := ensureServices_chain c s order ipt [] []
  rcases hx : ensureServices c ipt order [] [] with ⟨ipt1, _ | err, dnat0, snat0⟩
  · rw [hx] at hok hl
    simp only [] at hok hl ⊢
    have h1 := ensureChainWithRules_other ipt1 (tableName [c.managedChain, "DNAT"])
      (tableName [c.managedChain, s, "DNAT"]) (dnat0 ++ [["-j", "RETURN"]])
      (tableName_service_ne_top _ _ _)
    rcases hy : ensureChainWithRules ipt1 (tableName [c.managedChain, "DNAT"])
      (dnat0 ++ [["-j", "RETURN"]]) with ⟨ipt2, _ | err⟩
    · rw [hy] at hok h1
      simp only [] at hok h1 ⊢
      have h2 := ensureChainWithRules_other ipt2 (tableName [c.managedChain, "SNAT"])
        (tableName [c.managedChain, s, "DNAT"]) (snat0 ++ [["-j", "RETURN"]])
        (tableName_service_DNAT_ne_top_SNAT _ _ _)
      rcases hz : ensureChainWithRules ipt2 (tableName [c.managedChain, "SNAT"])
        (snat0 ++ [["-j", "RETURN"]]) with ⟨ipt3, _ | err⟩
      · rw [hz] at h2
        simp only [] at h2 ⊢
        rw [h2, h1]
        exact hl trivial hs huniq
      · rw [hz] at hok
        simp at hok
    · rw [hy] at hok
      simp at hok
  · rw [hx] at hok
    simp at hok

/-! ### Rounding to binary64 -/

theorem log2_quotient_bounds (n d : ℕ) (hn0 : n ≠ 0) (hd0 : d ≠ 0) :
    (2 : ℚ) ^ ((Nat.log2 n : ℤ) - (Nat.log2 d : ℤ) - 1) ≤ (n : ℚ) / (d : ℚ) ∧
    (n : ℚ) / (d : ℚ) < (2 : ℚ) ^ ((Nat.log2 n : ℤ) - (Nat.log2 d : ℤ) + 1) := by
  have hdpos : (0 : ℚ) < (d : ℚ) := by exact_mod_cast Nat.pos_of_ne_zero hd0
  have hn1 : ((2 : ℚ) ^ (Nat.log2 n : ℕ)) ≤ (n : ℚ) := by
    exact_mod_cast Nat.log2_self_le hn0
  have hn2 : (n : ℚ) < (2 : ℚ) ^ (Nat.log2 n + 1 : ℕ) := by
    exact_mod_cast (Nat.lt_log2_self (n := n))
  have hd1 : ((2 : ℚ) ^ (Nat.log2 d : ℕ)) ≤ (d : ℚ) := by
    exact_mod_cast Nat.log2_self_le hd0
  have hd2 : (d : ℚ) < (2 : ℚ) ^ (Nat.log2 d + 1 : ℕ) := by
    exact_mod_cast (Nat.lt_log2_self (n := d))
  have h2pos : ∀ k : ℕ, (0 : ℚ) < (2 : ℚ) ^ k := fun k => by positivity
  constructor
  · have e : (2 : ℚ) ^ ((Nat.log2 n : ℤ) - (Nat.log2 d : ℤ) - 1)
        = (2 : ℚ) ^ (Nat.log2 n : ℕ) / (2 : ℚ) ^ (Nat.log2 d + 1 : ℕ) := by
      rw [show ((Nat.log2 n : ℤ) - (Nat.log2 d : ℤ) - 1)
          = ((Nat.log2 n : ℕ) : ℤ) - ((Nat.log2 d + 1 : ℕ) : ℤ) by push_cast; ring]
      rw [zpow_sub₀ (by norm_num : (2 : ℚ) ≠ 0), zpow_natCast, zpow_natCast]
    rw [e, le_div_iff₀ hdpos, div_mul_eq_mul_div, div_le_iff₀ (h2pos _)]
    calc (2 : ℚ) ^ (Nat.log2 n : ℕ) * (d : ℚ)
        ≤ (n : ℚ) * (d : ℚ) := mul_le_mul_of_nonneg_right hn1 hdpos.le
      _ ≤ (n : ℚ) * (2 : ℚ) ^ (Nat.log2 d + 1 : ℕ) :=
          mul_le_mul_of_nonneg_left hd2.le (by positivity)
  · have e : (2 : ℚ) ^ ((Nat.log2 n : ℤ) - (Nat.log2 d : ℤ) + 1)
        = (2 : ℚ) ^ (Nat.log2 n + 1 : ℕ) / (2 : ℚ) ^ (Nat.log2 d : ℕ) := by
      rw [show ((Nat.log2 n : ℤ) - (Nat.log2 d : ℤ) + 1)
          = ((Nat.log2 n + 1 : ℕ) : ℤ) - ((Nat.log2 d : ℕ) : ℤ) by push_cast; ring]
      rw [zpow_sub₀ (by norm_num : (2 : ℚ) ≠ 0), zpow_natCast, zpow_natCast]
    rw [e, div_lt_iff₀ hdpos, div_mul_eq_mul_div, lt_div_iff₀ (h2pos _)]
    calc (n : ℚ) * (2 : ℚ) ^ (Nat.log2 d : ℕ)
        ≤ (n : ℚ) * (d : ℚ) := mul_le_mul_of_nonneg_left hd1 (by positivity)
      _ < (2 : ℚ) ^ (Nat.log2 n + 1 : ℕ) * (d : ℚ) := mul_lt_mul_of_pos_right hn2 hdpos

theorem rat_eq_natAbs_div_den (q : ℚ) (hq : 0 ≤ q) :
    ((q.num.natAbs : ℕ) : ℚ) / (q.den : ℚ) = q := by
  have hnum : 0 ≤ q.num := Rat.num_nonneg.2 hq
  have h2 : ((q.num.natAbs : ℕ) : ℚ) = (q.num : ℚ) := by
    rw [Nat.cast_natAbs, abs_of_nonneg hnum]
  rw [h2]
  exact Rat.num_div_den q

theorem Float64.log2Fuel_eq (fuel n : ℕ) (h : n ≤ fuel) :
    Float64.log2Fuel fuel n = Nat.log2 n := by
  induction fuel generalizing n with
  | zero =>
    have : n = 0 := by omega
    subst this
    simp [Float64.log2Fuel, Nat.log2_zero]
  | succ f ih =>
    rw [Float64.log2Fuel, Nat.log2]
    by_cases h2 : 2 ≤ n
    · have hle : n / 2 ≤ f := by omega
      simp [h2, ih (n / 2) hle]
    · simp [h2]

theorem Float64.natLog2_eq (n : ℕ) : Float64.natLog2 n = Nat.log2 n :=
  Float64.log2Fuel_eq n n (le_refl n)

theorem Float64.ilog2_spec (q : ℚ) (hq : 0 < q) :
    (2 : ℚ) ^ Float64.ilog2 q ≤ q ∧ q < (2 : ℚ) ^ (Float64.ilog2 q + 1) := by
  have hnum : 0 < q.num := Rat.num_pos.2 hq
  have hn0 : q.num.natAbs ≠ 0 := by
    intro h
    have := Int.natAbs_eq_zero.1 h
    omega
  have hb := log2_quotient_bounds q.num.natAbs q.den hn0 q.den_nz
  rw [rat_eq_natAbs_div_den q hq.le] at hb
  unfold Float64.ilog2
  simp only [Float64.natLog2_eq]
  by_cases h : (2 : ℚ) ^ ((Nat.log2 q.num.natAbs : ℤ) - (Nat.log2 q.den : ℤ)) ≤ q
  · rw [if_pos h]
    exact ⟨h, hb.2⟩
  · rw [if_neg h]
    refine ⟨hb.1, ?_⟩
    rw [sub_add_cancel]
    exact lt_of_not_ge h

theorem Float64.roundHalfEven_natCast (n : ℕ) : Float64.roundHalfEven (n : ℚ) = n := by
  simp [Float64.roundHalfEven, Nat.mod_one]

theorem Float64.roundHalfEven_bounds (q : ℚ) (hq : 0 ≤ q) :
    q - 1 / 2 ≤ (Float64.roundHalfEven q : ℚ) ∧ (Float64.roundHalfEven q : ℚ) ≤ q + 1 / 2 := by
  have hd0 : 0 < q.den := q.den_pos
  have hdq : (0 : ℚ) < (q.den : ℚ) := by exact_mod_cast hd0
  have hsplit := Nat.div_add_mod q.num.natAbs q.den
  have hr : q.num.natAbs % q.den < q.den := Nat.mod_lt _ hd0
  have hqd : q * (q.den : ℚ) = ((q.num.natAbs : ℕ) : ℚ) := by
    have := rat_eq_natAbs_div_den q hq
    rw [eq_comm, ← div_eq_iff hdq.ne']
    exact this
  -- bounds on the natural numbers, multiplied by `2 * den`
  have key : 2 * q.num.natAbs ≤ 2 * (q.den * Float64.roundHalfEven q) + q.den ∧
      2 * (q.den * Float64.roundHalfEven q) ≤ 2 * q.num.natAbs + q.den := by
    unfold Float64.roundHalfEven
    simp only []
    split_ifs with h1 h2 h3
    · constructor <;> omega
    · rw [Nat.mul_add, Nat.mul_one]
      constructor <;> omega
    · constructor <;> omega
    · rw [Nat.mul_add, Nat.mul_one]
      constructor <;> omega
  have k1 : (2 : ℚ) * ((q.num.natAbs : ℕ) : ℚ)
      ≤ 2 * ((q.den : ℚ) * (Float64.roundHalfEven q : ℚ)) + (q.den : ℚ) := by
    exact_mod_cast key.1
  have k2 : (2 : ℚ) * ((q.den : ℚ) * (Float64.roundHalfEven q : ℚ))
      ≤ 2 * ((q.num.natAbs : ℕ) : ℚ) + (q.den : ℚ) := by
    exact_mod_cast key.2
  rw [← hqd] at k1 k2
  constructor
  · by_contra hlt
    push_neg at hlt
    have := mul_lt_mul_of_pos_left hlt hdq
    nlinarith
  · by_contra hlt
    push_neg at hlt
    have := mul_lt_mul_of_pos_left hlt hdq
    nlinarith

theorem Float64.roundHalfEven_le_nat (q : ℚ) (hq : 0 ≤ q) (N : ℕ) (h : q ≤ N) :
    Float64.roundHalfEven q ≤ N := by
  have hb := (Float64.roundHalfEven_bounds q hq).2
  have h1 : (Float64.roundHalfEven q : ℚ) < (N : ℚ) + 1 := by linarith
  have h2 : Float64.roundHalfEven q < N + 1 := by exact_mod_cast h1
  omega

theorem Float64.roundHalfEven_ge_nat (q : ℚ) (hq : 0 ≤ q) (N : ℕ) (h : (N : ℚ) ≤ q) :
    N ≤ Float64.roundHalfEven q := by
  have hb := (Float64.roundHalfEven_bounds q hq).1
  have h1 : (N : ℚ) < (Float64.roundHalfEven q : ℚ) + 1 := by linarith
  have h2 : N < Float64.roundHalfEven q + 1 := by exact_mod_cast h1
  omega

theorem Float64.roundMag_nonneg (q : ℚ) : 0 ≤ Float64.roundMag q := by
  unfold Float64.roundMag
  split_ifs
  · exact le_refl _
  · positivity

theorem Float64.roundMag_natCast (n : ℕ) (hn : n < 2 ^ 53) : Float64.roundMag (n : ℚ) = n := by
  unfold Float64.roundMag
  by_cases h0 : (n : ℚ) = 0
  · rw [if_pos h0, h0]
  · rw [if_neg h0]
    have hpos : (0 : ℚ) < (n : ℚ) := lt_of_le_of_ne (Nat.cast_nonneg n) (Ne.symm h0)
    have he := (Float64.ilog2_spec (n : ℚ) hpos).1
    have hlt : (2 : ℚ) ^ Float64.ilog2 (n : ℚ) < (2 : ℚ) ^ (53 : ℤ) := by
      refine lt_of_le_of_lt he ?_
      rw [zpow_ofNat]
      exact_mod_cast hn
    have he53 : Float64.ilog2 (n : ℚ) < 53 :=
      (zpow_lt_zpow_iff_right₀ (by norm_num : (1 : ℚ) < 2)).1 hlt
    simp only []
    obtain ⟨k, hk⟩ : ∃ k : ℕ, max (Float64.ilog2 (n : ℚ) - 52) (-1074) = -(k : ℤ) := by
      refine ⟨(-(max (Float64.ilog2 (n : ℚ) - 52) (-1074))).toNat, ?_⟩
      rw [Int.toNat_of_nonneg]
      · ring
      · have : max (Float64.ilog2 (n : ℚ) - 52) (-1074) ≤ 0 := max_le (by omega) (by norm_num)
        omega
    rw [hk, zpow_neg, zpow_natCast, div_inv_eq_mul]
    have hcast : (n : ℚ) * (2 : ℚ) ^ k = ((n * 2 ^ k : ℕ) : ℚ) := by push_cast; ring
    rw [hcast, Float64.roundHalfEven_natCast]
    push_cast
    have h2 : ((2 : ℚ) ^ k) ≠ 0 := by positivity
    field_simp

theorem Float64.ofInt_small (n : ℤ) (hn : n.natAbs < 2 ^ 53) :
    Float64.ofInt n = Float64.fin (decide (n < 0)) (n.natAbs : ℚ) := by
  have hbig : ¬ (2 : ℚ) ^ (1024 : ℕ) ≤ ((n.natAbs : ℕ) : ℚ) := by
    push_neg
    have h1 : ((n.natAbs : ℕ) : ℚ) < (2 : ℚ) ^ (53 : ℕ) := by exact_mod_cast hn
    have h2 : (2 : ℚ) ^ (53 : ℕ) ≤ (2 : ℚ) ^ (1024 : ℕ) :=
      pow_le_pow_right₀ (by norm_num) (by norm_num)
    exact lt_of_lt_of_le h1 h2
  unfold Float64.ofInt Float64.ofMag
  by_cases h : n < 0
  · have e : ((-n : ℤ) : ℚ) = ((n.natAbs : ℕ) : ℚ) := by
      rw [Nat.cast_natAbs, abs_of_neg h]
    simp only [h, if_true, e, Float64.roundMag_natCast _ hn, if_neg hbig, decide_True]
  · have e : (n : ℚ) = ((n.natAbs : ℕ) : ℚ) := by
      rw [Nat.cast_natAbs, abs_of_nonneg (not_lt.1 h)]
    rw [if_neg h]
    simp only [h, decide_False]
    rw [e, Float64.roundMag_natCast _ hn, if_neg hbig]

theorem Float64.ofMag_natCast (neg : Bool) (n : ℕ) (hn : n < 2 ^ 53) :
    Float64.ofMag neg (n : ℚ) = Float64.fin neg (n : ℚ) := by
  have hbig : ¬ (2 : ℚ) ^ (1024 : ℕ) ≤ ((n : ℕ) : ℚ) := by
    push_neg
    have h1 : ((n : ℕ) : ℚ) < (2 : ℚ) ^ (53 : ℕ) := by exact_mod_cast hn
    have h2 : (2 : ℚ) ^ (53 : ℕ) ≤ (2 : ℚ) ^ (1024 : ℕ) :=
      pow_le_pow_right₀ (by norm_num) (by norm_num)
    exact lt_of_lt_of_le h1 h2
  unfold Float64.ofMag
  simp only [Float64.roundMag_natCast _ hn, if_neg hbig]

theorem Float64.ofSigned_intCast (z : ℤ) (hz : z.natAbs < 2 ^ 53) :
    Float64.ofSigned (z : ℚ) = Float64.fin (decide (z < 0)) (z.natAbs : ℚ) := by
  unfold Float64.ofSigned
  by_cases h : z < 0
  · have hq : (z : ℚ) < 0 := by exact_mod_cast h
    have e : (-(z : ℚ)) = ((z.natAbs : ℕ) : ℚ) := by
      rw [Nat.cast_natAbs, abs_of_neg h]; push_cast; ring
    rw [if_pos hq, e, Float64.ofMag_natCast _ _ hz]
    simp [h]
  · have hq : ¬ (z : ℚ) < 0 := by exact_mod_cast h
    have e : (z : ℚ) = ((z.natAbs : ℕ) : ℚ) := by
      rw [Nat.cast_natAbs, abs_of_nonneg (not_lt.1 h)]
    rw [if_neg hq]
    conv_lhs => rw [e]
    rw [Float64.ofMag_natCast _ _ hz]
    simp [h]

theorem Float64.signed_natAbs (z : ℤ) :
    Float64.signed (decide (z < 0)) ((z.natAbs : ℕ) : ℚ) = (z : ℚ) := by
  unfold Float64.signed
  by_cases h : z < 0
  · simp only [h, decide_True, if_true]
    rw [Nat.cast_natAbs, abs_of_neg h]; push_cast; ring
  · simp only [h, decide_False, Bool.false_eq_true, if_false]
    rw [Nat.cast_natAbs, abs_of_nonneg (not_lt.1 h)]

theorem Float64.signed_not_natAbs (z : ℤ) :
    Float64.signed (!decide (z < 0)) ((z.natAbs : ℕ) : ℚ) = ((-z : ℤ) : ℚ) := by
  unfold Float64.signed
  by_cases h : z < 0
  · simp only [h, decide_True, Bool.not_true, Bool.false_eq_true, if_false]
    rw [Nat.cast_natAbs, abs_of_neg h]
  · simp only [h, decide_False, Bool.not_false, if_true]
    rw [Nat.cast_natAbs, abs_of_nonneg (not_lt.1 h)]; push_cast; ring

theorem Float64.add_ofInt (x y : ℤ) (hx : x.natAbs < 2 ^ 53) (hy : y.natAbs < 2 ^ 53)
    (hxy : (x + y).natAbs < 2 ^ 53) :
    (Float64.ofInt x).add (Float64.ofInt y) = Float64.ofInt (x + y) := by
  rw [Float64.ofInt_small x hx, Float64.ofInt_small y hy, Float64.ofInt_small _ hxy]
  unfold Float64.add
  simp only [Float64.signed_natAbs]
  have hsum : ((x : ℚ) + (y : ℚ)) = ((x + y : ℤ) : ℚ) := by push_cast; ring
  rw [hsum]
  by_cases h0 : x + y = 0
  · have hq : ((x + y : ℤ) : ℚ) = 0 := by exact_mod_cast h0
    rw [if_pos hq, h0]
    have hs : (decide (x < 0) && decide (y < 0)) = false := by
      rw [Bool.and_eq_false_iff]
      by_cases hx0 : x < 0
      · right; simp; omega
      · left; simp [hx0]
    rw [hs]
    simp
  · have hq : ¬ ((x + y : ℤ) : ℚ) = 0 := by exact_mod_cast h0
    rw [if_neg hq, Float64.ofSigned_intCast _ hxy]

theorem Float64.sub_ofInt (x y : ℤ) (hx : x.natAbs < 2 ^ 53) (hy : y.natAbs < 2 ^ 53)
    (hxy : (x - y).natAbs < 2 ^ 53) :
    (Float64.ofInt x).sub (Float64.ofInt y) = Float64.ofInt (x - y) := by
  rw [Float64.ofInt_small x hx, Float64.ofInt_small y hy, Float64.ofInt_small _ hxy]
  unfold Float64.sub Float64.neg Float64.add
  simp only [Float64.signed_natAbs, Float64.signed_not_natAbs]
  have hsum : ((x : ℚ) + ((-y : ℤ) : ℚ)) = ((x - y : ℤ) : ℚ) := by push_cast; ring
  rw [hsum]
  by_cases h0 : x - y = 0
  · have hq : ((x - y : ℤ) : ℚ) = 0 := by exact_mod_cast h0
    rw [if_pos hq, h0]
    have hs : (decide (x < 0) && !decide (y < 0)) = false := by
      rw [Bool.and_eq_false_iff]
      by_cases hx0 : x < 0
      · right; simp; omega
      · left; simp [hx0]
    rw [hs]
    simp
  · have hq : ¬ ((x - y : ℤ) : ℚ) = 0 := by exact_mod_cast h0
    rw [if_neg hq, Float64.ofSigned_intCast _ hxy]

theorem Float64.roundMag_error (q : ℚ) (hq : (2 : ℚ) ^ (-1022 : ℤ) ≤ q) :
    |Float64.roundMag q - q| ≤ q / 2 ^ (53 : ℕ) := by
  have hpos : 0 < q := lt_of_lt_of_le (by positivity) hq
  obtain ⟨he1, he2⟩ := Float64.ilog2_spec q hpos
  have hlt : (2 : ℚ) ^ (-1022 : ℤ) < (2 : ℚ) ^ (Float64.ilog2 q + 1) := lt_of_le_of_lt hq he2
  have he : (-1022 : ℤ) < Float64.ilog2 q + 1 :=
    (zpow_lt_zpow_iff_right₀ (by norm_num : (1 : ℚ) < 2)).1 hlt
  have hmax : max (Float64.ilog2 q - 52) (-1074) = Float64.ilog2 q - 52 :=
    max_eq_left (by omega)
  unfold Float64.roundMag
  rw [if_neg hpos.ne']
  simp only [hmax]
  have hP : (0 : ℚ) < (2 : ℚ) ^ (Float64.ilog2 q - 52) := by positivity
  have hx : 0 ≤ q / (2 : ℚ) ^ (Float64.ilog2 q - 52) := by positivity
  obtain ⟨hb1, hb2⟩ := Float64.roundHalfEven_bounds _ hx
  have hPle : (2 : ℚ) ^ (Float64.ilog2 q - 52) ≤ q / 2 ^ (52 : ℕ) := by
    rw [zpow_sub₀ (by norm_num : (2 : ℚ) ≠ 0)]
    have : (2 : ℚ) ^ (52 : ℤ) = (2 : ℚ) ^ (52 : ℕ) := by norm_num
    rw [this]
    exact div_le_div_of_nonneg_right he1 (by positivity)
  have hq' : q / (2 : ℚ) ^ (Float64.ilog2 q - 52) * (2 : ℚ) ^ (Float64.ilog2 q - 52) = q :=
    div_mul_cancel₀ _ hP.ne'
  have h53 : q / 2 ^ (53 : ℕ) = q / 2 ^ (52 : ℕ) / 2 := by
    rw [div_div]; norm_num
  rw [abs_le, h53]
  constructor
  · have := mul_le_mul_of_nonneg_right hb1 hP.le
    rw [sub_mul, hq'] at this
    linarith
  · have := mul_le_mul_of_nonneg_right hb2 hP.le
    rw [add_mul, hq'] at this
    linarith

theorem Float64.roundMag_le_one (q : ℚ) (hq0 : 0 ≤ q) (hq1 : q ≤ 1) :
    Float64.roundMag q ≤ 1 := by
  unfold Float64.roundMag
  by_cases h0 : q = 0
  · rw [if_pos h0]; norm_num
  · rw [if_neg h0]
    have hpos : 0 < q := lt_of_le_of_ne hq0 (Ne.symm h0)
    have he1 := (Float64.ilog2_spec q hpos).1
    have hle : (2 : ℚ) ^ Float64.ilog2 q ≤ (2 : ℚ) ^ (0 : ℤ) := by
      rw [zpow_zero]; exact le_trans he1 hq1
    have he : Float64.ilog2 q ≤ 0 :=
      (zpow_le_zpow_iff_right₀ (by norm_num : (1 : ℚ) < 2)).1 hle
    simp only []
    obtain ⟨k, hk⟩ : ∃ k : ℕ, max (Float64.ilog2 q - 52) (-1074) = -(k : ℤ) := by
      refine ⟨(-(max (Float64.ilog2 q - 52) (-1074))).toNat, ?_⟩
      rw [Int.toNat_of_nonneg]
      · ring
      · have : max (Float64.ilog2 q - 52) (-1074) ≤ 0 := max_le (by omega) (by norm_num)
        omega
    rw [hk, zpow_neg, zpow_natCast, div_inv_eq_mul]
    have h2k : (0 : ℚ) < (2 : ℚ) ^ k := by positivity
    have hx : q * (2 : ℚ) ^ k ≤ ((2 ^ k : ℕ) : ℚ) := by
      push_cast
      calc q * (2 : ℚ) ^ k ≤ 1 * (2 : ℚ) ^ k := mul_le_mul_of_nonneg_right hq1 h2k.le
        _ = (2 : ℚ) ^ k := one_mul _
    have hr := Float64.roundHalfEven_le_nat (q * (2 : ℚ) ^ k) (by positivity) (2 ^ k) hx
    have hr' : (Float64.roundHalfEven (q * (2 : ℚ) ^ k) : ℚ) ≤ (2 : ℚ) ^ k := by
      exact_mod_cast hr
    rw [← div_eq_mul_inv, div_le_one h2k]
    exact hr'

theorem Float64.div_ofInt (w W : ℤ) (hw : w.natAbs < 2 ^ 53) (hW : W.natAbs < 2 ^ 53)
    (hW0 : W ≠ 0) :
    (Float64.ofInt w).div (Float64.ofInt W)
      = Float64.fin (xor (decide (w < 0)) (decide (W < 0)))
          (Float64.roundMag ((w.natAbs : ℚ) / (W.natAbs : ℚ))) := by
  rw [Float64.ofInt_small w hw, Float64.ofInt_small W hW]
  have hb0 : ((W.natAbs : ℕ) : ℚ) ≠ 0 := by
    have : W.natAbs ≠ 0 := fun h => hW0 (Int.natAbs_eq_zero.1 h)
    exact_mod_cast this
  have hbpos : (0 : ℚ) < ((W.natAbs : ℕ) : ℚ) := lt_of_le_of_ne (Nat.cast_nonneg _) (Ne.symm hb0)
  unfold Float64.div Float64.ofMag
  simp only [if_neg hb0]
  have hfin : ¬ (2 : ℚ) ^ (1024 : ℕ)
      ≤ Float64.roundMag (((w.natAbs : ℕ) : ℚ) / ((W.natAbs : ℕ) : ℚ)) := by
    push_neg
    by_cases hw0 : w.natAbs = 0
    · rw [hw0]
      simp [Float64.roundMag]
    · have ha1 : (1 : ℚ) ≤ ((w.natAbs : ℕ) : ℚ) := by
        exact_mod_cast Nat.one_le_iff_ne_zero.2 hw0
      have ha2 : ((w.natAbs : ℕ) : ℚ) ≤ (2 : ℚ) ^ (53 : ℕ) := by exact_mod_cast hw.le
      have hb1 : (1 : ℚ) ≤ ((W.natAbs : ℕ) : ℚ) := by
        exact_mod_cast Nat.one_le_iff_ne_zero.2 (fun h => hW0 (Int.natAbs_eq_zero.1 h))
      have hb2 : ((W.natAbs : ℕ) : ℚ) ≤ (2 : ℚ) ^ (53 : ℕ) := by exact_mod_cast hW.le
      have hqlo : (2 : ℚ) ^ (-1022 : ℤ) ≤ ((w.natAbs : ℕ) : ℚ) / ((W.natAbs : ℕ) : ℚ) := by
        rw [le_div_iff₀ hbpos]
        calc (2 : ℚ) ^ (-1022 : ℤ) * ((W.natAbs : ℕ) : ℚ)
            ≤ (2 : ℚ) ^ (-1022 : ℤ) * (2 : ℚ) ^ (53 : ℕ) :=
              mul_le_mul_of_nonneg_left hb2 (by positivity)
          _ ≤ 1 := by norm_num
          _ ≤ ((w.natAbs : ℕ) : ℚ) := ha1
      have hqhi : ((w.natAbs : ℕ) : ℚ) / ((W.natAbs : ℕ) : ℚ) ≤ (2 : ℚ) ^ (53 : ℕ) := by
        rw [div_le_iff₀ hbpos]
        calc ((w.natAbs : ℕ) : ℚ) ≤ (2 : ℚ) ^ (53 : ℕ) := ha2
          _ = (2 : ℚ) ^ (53 : ℕ) * 1 := (mul_one _).symm
          _ ≤ (2 : ℚ) ^ (53 : ℕ) * ((W.natAbs : ℕ) : ℚ) :=
              mul_le_mul_of_nonneg_left hb1 (by positivity)
      have herr := (abs_le.1 (Float64.roundMag_error _ hqlo)).2
      have hqpos : (0 : ℚ) ≤ ((w.natAbs : ℕ) : ℚ) / ((W.natAbs : ℕ) : ℚ) := by positivity
      have h1 : ((w.natAbs : ℕ) : ℚ) / ((W.natAbs : ℕ) : ℚ) / 2 ^ (53 : ℕ)
          ≤ ((w.natAbs : ℕ) : ℚ) / ((W.natAbs : ℕ) : ℚ) :=
        div_le_self hqpos (by norm_num)
      have h2 : (2 : ℚ) ^ (53 : ℕ) + (2 : ℚ) ^ (53 : ℕ) < (2 : ℚ) ^ (1024 : ℕ) := by norm_num
      linarith
  rw [if_neg hfin]

/-! ### Rule compilation -/

theorem natAbs_sum_le (ws : List ℤ) : ws.sum.natAbs ≤ (ws.map Int.natAbs).sum := by
  induction ws with
  | nil => simp
  | cons w rest ih =>
    simp only [List.sum_cons, List.map_cons]
    exact le_trans (Int.natAbs_add_le _ _) (Nat.add_le_add_left ih _)

theorem sumWeights_ofInt (ts : List NATTarget) (ws : List ℤ) (a : ℤ)
    (hw : ts.map (fun t => t.Weight) = ws.map Float64.ofInt)
    (hbound : a.natAbs + (ws.map Int.natAbs).sum < 2 ^ 53) :
    sumWeights ts (Float64.ofInt a) = Float64.ofInt (a + ws.sum) := by
  induction ts generalizing ws a with
  | nil =>
    cases ws with
    | nil => simp [sumWeights]
    | cons w rest => simp at hw
  | cons nt rest ih =>
    cases ws with
    | nil => simp at hw
    | cons w ws1 =>
      simp only [List.map_cons, List.cons.injEq] at hw
      simp only [List.map_cons, List.sum_cons] at hbound
      have hs := natAbs_sum_le ws1
      have hadd := Int.natAbs_add_le a w
      rw [sumWeights, hw.1, Float64.add_ofInt a w (by omega) (by omega) (by omega)]
      rw [ih ws1 (a + w) hw.2 (by omega)]
      simp only [List.sum_cons]
      congr 1
      ring

theorem appendRules_DNAT (ts : List NATTarget) (ws : List ℤ) (rules : List Rule)
    (hw : ts.map (fun t => t.Weight) = ws.map Float64.ofInt)
    (hbound : (ws.map Int.natAbs).sum < 2 ^ 53) :
    appendRules chainType.chainTypeDNAT ts (Float64.ofInt ws.sum) rules
      = rules ++ dnatRules ts ws := by
  induction ts generalizing ws rules with
  | nil =>
    cases ws with
    | nil => simp [appendRules, dnatRules]
    | cons w rest => simp at hw
  | cons nt rest ih =>
    cases ws with
    | nil => simp at hw
    | cons w ws1 =>
      simp only [List.map_cons, List.cons.injEq] at hw
      simp only [List.map_cons, List.sum_cons] at hbound
      have hs := natAbs_sum_le ws1
      have hadd := Int.natAbs_add_le w ws1.sum
      have hsub : w + ws1.sum - w = ws1.sum := by ring
      rw [appendRules, hw.1, List.sum_cons,
        Float64.sub_ofInt (w + ws1.sum) w (by omega) (by omega) (by rw [hsub]; omega),
        hsub, ih ws1 _ hw.2 (by omega)]
      simp [dnatRules, targetRule, dnatRule, residualProbability, hw.1]

theorem buildServiceTable_DNAT_eq (c : Client) (service : String) (ws : List ℤ)
    (hw : (c.get service).map (fun t => t.Weight) = ws.map Float64.ofInt)
    (hbound : (ws.map Int.natAbs).sum < 2 ^ 53) :
    c.buildServiceTable service chainType.chainTypeDNAT
      = dnatRules (c.get service) ws ++ [["-j", "RETURN"]] := by
  unfold Client.buildServiceTable
  have h0 : Float64.zero = Float64.ofInt 0 := by
    rw [Float64.ofInt_small 0 (by norm_num)]
    simp [Float64.zero]
  simp only []
  rw [h0, sumWeights_ofInt _ ws 0 hw (by simpa using hbound), zero_add,
    appendRules_DNAT _ ws [] hw hbound]
  simp

theorem dnatRules_length (ts : List NATTarget) (ws : List ℤ) (h : ts.length = ws.length) :
    (dnatRules ts ws).length = ts.length := by
  induction ts generalizing ws with
  | nil => cases ws <;> simp [dnatRules]
  | cons t rest ih =>
    cases ws with
    | nil => simp at h
    | cons w ws1 =>
      simp only [List.length_cons, Nat.add_right_cancel_iff] at h
      simp [dnatRules, ih ws1 h]

theorem dnatRules_getElem (ts : List NATTarget) (ws : List ℤ) (i : ℕ) (t : NATTarget) (w : ℤ)
    (ht : ts[i]? = some t) (hw : ws[i]? = some w) :
    (dnatRules ts ws)[i]? = some (dnatRule t (residualProbability w (ws.drop i).sum)) := by
  induction ts generalizing ws i with
  | nil => simp at ht
  | cons t1 rest ih =>
    cases ws with
    | nil => simp at hw
    | cons w1 ws1 =>
      cases i with
      | zero =>
        simp only [List.getElem?_cons_zero, Option.some.injEq] at ht hw
        subst ht hw
        simp [dnatRules]
      | succ j =>
        simp only [List.getElem?_cons_succ] at ht hw
        simp only [dnatRules, List.getElem?_cons_succ, List.drop_succ_cons]
        exact ih ws1 j ht hw

theorem FormatFloat_fin (neg : Bool) (mag : ℚ) :
    FormatFloat (Float64.fin neg mag) probPrecision
      = if neg then "-" ++ decimalFixed 3 (Float64.roundHalfEven (mag * 1000))
        else decimalFixed 3 (Float64.roundHalfEven (mag * 1000)) := by
  have h : ((10 : ℚ) ^ (3 : ℕ)) = 1000 := by norm_num
  simp [FormatFloat, probPrecision, decimalFixed, h]

theorem residualProbability_decimal (w W : ℤ) (hw : w.natAbs < 2 ^ 53) (hW : W.natAbs < 2 ^ 53)
    (hWpos : 0 < W) :
    residualProbability w W
      = (if w < 0
          then "-" ++ decimalFixed 3
            (Float64.roundHalfEven (Float64.roundMag ((w.natAbs : ℚ) / (W.natAbs : ℚ)) * 1000))
          else decimalFixed 3
            (Float64.roundHalfEven (Float64.roundMag ((w.natAbs : ℚ) / (W.natAbs : ℚ)) * 1000))) := by
  unfold residualProbability
  rw [Float64.div_ofInt w W hw hW hWpos.ne', FormatFloat_fin]
  have hW' : ¬ W < 0 := not_lt.2 hWpos.le
  by_cases h : w < 0 <;> simp [h, hW']

theorem thousandths_error (q : ℚ) (hq : q = 0 ∨ (2 : ℚ) ^ (-1022 : ℤ) ≤ q) :
    |(Float64.roundHalfEven (Float64.roundMag q * 1000) : ℚ) / 1000 - q|
      ≤ 1 / 2000 + q / 2 ^ (53 : ℕ) := by
  have hr0 := Float64.roundMag_nonneg q
  obtain ⟨hb1, hb2⟩ := Float64.roundHalfEven_bounds (Float64.roundMag q * 1000) (by positivity)
  have herr : |Float64.roundMag q - q| ≤ q / 2 ^ (53 : ℕ) := by
    rcases hq with h0 | hq
    · rw [h0]; simp [Float64.roundMag]
    · exact Float64.roundMag_error q hq
  obtain ⟨he1, he2⟩ := abs_le.1 herr
  rw [abs_le]
  constructor <;> linarith

theorem ratio_small_or_zero (w W : ℤ) (hW : W.natAbs < 2 ^ 53)
    (hW0 : W ≠ 0) :
    ((w.natAbs : ℚ) / (W.natAbs : ℚ)) = 0 ∨
      (2 : ℚ) ^ (-1022 : ℤ) ≤ ((w.natAbs : ℚ) / (W.natAbs : ℚ)) := by
  by_cases hw0 : w.natAbs = 0
  · left; rw [hw0]; simp
  · right
    have ha1 : (1 : ℚ) ≤ ((w.natAbs : ℕ) : ℚ) := by
      exact_mod_cast Nat.one_le_iff_ne_zero.2 hw0
    have hb2 : ((W.natAbs : ℕ) : ℚ) ≤ (2 : ℚ) ^ (53 : ℕ) := by exact_mod_cast hW.le
    have hbpos : (0 : ℚ) < ((W.natAbs : ℕ) : ℚ) := by
      have : W.natAbs ≠ 0 := fun h => hW0 (Int.natAbs_eq_zero.1 h)
      exact_mod_cast Nat.pos_of_ne_zero this
    rw [le_div_iff₀ hbpos]
    calc (2 : ℚ) ^ (-1022 : ℤ) * ((W.natAbs : ℕ) : ℚ)
        ≤ (2 : ℚ) ^ (-1022 : ℤ) * (2 : ℚ) ^ (53 : ℕ) :=
          mul_le_mul_of_nonneg_left hb2 (by positivity)
      _ ≤ 1 := by norm_num
      _ ≤ ((w.natAbs : ℕ) : ℚ) := ha1

theorem drop_sum_natAbs_le (ws : List ℤ) (i : ℕ) :
    (ws.drop i).sum.natAbs ≤ (ws.map Int.natAbs).sum := by
  refine le_trans (natAbs_sum_le _) ?_
  exact List.Sublist.sum_le_sum ((List.drop_sublist i ws).map _) (by simp)

theorem getElem_natAbs_le (ws : List ℤ) (i : ℕ) (w : ℤ) (h : ws[i]? = some w) :
    w.natAbs ≤ (ws.map Int.natAbs).sum := by
  have hmem : w.natAbs ∈ ws.map Int.natAbs :=
    List.mem_map_of_mem _ (List.mem_iff_getElem?.2 ⟨i, h⟩)
  exact List.single_le_sum (by simp) _ hmem

/-- C1 (DNAT rule compilation with residual weights), as the code has it: let the registered
list of the service be `[t1..tn]`, `n >= 0`, with the integer weights `[w1..wn]` whose absolute
values sum to less than `2^53`, so that the binary64 sums and differences of the weights are
exact. Then `buildServiceTable(service, DNAT)` returns exactly `n+1` vectors; the i-th is the
DNAT rule of `t_i` with the probability `w_i / W_i` (binary64 division) printed with three
fractional digits, where `W_i = w_i + ... + w_n`; the last is `-j RETURN`. When `W_i` is
positive, the printed probability is an optional minus sign (for negative `w_i`) and the
decimal notation of `k / 1000` with exactly three fractional digits, for a natural number `k`
with `|k / 1000 - |w_i| / W_i| <= 1/2000 + (|w_i| / W_i) / 2^53`. -/
theorem buildServiceTable_DNAT_residual (c : Client) (service : String) (ws : List ℤ)
    (hw : (c.get service).map (fun t => t.Weight) = ws.map Float64.ofInt)
    (hbound : (ws.map Int.natAbs).sum < 2 ^ 53) :
    c.buildServiceTable service chainType.chainTypeDNAT
      = dnatRules (c.get service) ws ++ [["-j", "RETURN"]] ∧
    (c.buildServiceTable service chainType.chainTypeDNAT).length = (c.get service).length + 1 ∧
    (c.buildServiceTable service chainType.chainTypeDNAT)[(c.get service).length]?
      = some ["-j", "RETURN"] ∧
    (∀ i t w, (c.get service)[i]? = some t → ws[i]? = some w →
      (c.buildServiceTable service chainType.chainTypeDNAT)[i]?
        = some (dnatRule t (residualProbability w (ws.drop i).sum))) ∧
    (∀ i w, ws[i]? = some w → 0 < (ws.drop i).sum →
      ∃ k : ℕ,
        residualProbability w (ws.drop i).sum
          = (if w < 0 then "-" ++ decimalFixed 3 k else decimalFixed 3 k) ∧
        |(k : ℚ) / 1000 - (w.natAbs : ℚ) / ((ws.drop i).sum.natAbs : ℚ)|
          ≤ 1 / 2000 + (w.natAbs : ℚ) / ((ws.drop i).sum.natAbs : ℚ) / 2 ^ (53 : ℕ)) := by
  have heq := buildServiceTable_DNAT_eq c service ws hw hbound
  have hlen : (c.get service).length = ws.length := by
    have := congrArg List.length hw
    simpa using this
  have hdl := dnatRules_length (c.get service) ws hlen
  refine ⟨heq, ?_, ?_, ?_, ?_⟩
  · rw [heq, List.length_append, hdl]; rfl
  · rw [heq, List.getElem?_append_right (by rw [hdl]), hdl]
    simp
  · intro i t w ht hwi
    have hi : i < (dnatRules (c.get service) ws).length := by
      rw [hdl]
      exact (List.getElem?_eq_some_iff.1 ht).1
    rw [heq, List.getElem?_append_left hi]
    exact dnatRules_getElem _ _ i t w ht hwi
  · intro i w hwi hpos
    have h1 : w.natAbs < 2 ^ 53 := lt_of_le_of_lt (getElem_natAbs_le ws i w hwi) hbound
    have h2 : (ws.drop i).sum.natAbs < 2 ^ 53 := lt_of_le_of_lt (drop_sum_natAbs_le ws i) hbound
    exact ⟨_, residualProbability_decimal w _ h1 h2 hpos,
      thousandths_error _ (ratio_small_or_zero w _ h2 hpos.ne')⟩

theorem buildServiceTable_DNAT_residual_witness :
    (sampleClient [sampleNat "A" 1, sampleNat "B" 3]).buildServiceTable "web"
        chainType.chainTypeDNAT
      = [dnatRule (sampleNat "A" 1) "0.250", dnatRule (sampleNat "B" 3) "1.000",
         ["-j", "RETURN"]] ∧
    (sampleClient [sampleNat "A" 1, sampleNat "B" 1]).buildServiceTable "web"
        chainType.chainTypeDNAT
      = [dnatRule (sampleNat "A" 1) "0.500", dnatRule (sampleNat "B" 1) "1.000",
         ["-j", "RETURN"]] := by
  have h1 := (buildServiceTable_DNAT_residual
    (sampleClient [sampleNat "A" 1, sampleNat "B" 3]) "web" [1, 3] (by decide!) (by decide)).1
  have h2 := (buildServiceTable_DNAT_residual
    (sampleClient [sampleNat "A" 1, sampleNat "B" 1]) "web" [1, 1] (by decide!) (by decide)).1
  refine ⟨h1.trans (by decide!), h2.trans (by decide!)⟩

/-- C1, where the claim fails: the weights `2^53` and `1` are integers and both residual
weights, `2^53 + 1` and `1`, are positive, so the claimed second probability is `1 / 1`, printed
`1.000`. In binary64 the total `2^53 + 1` rounds to `2^53`, the weight left for the second
target is `0`, and the second rule carries the probability `+Inf`. -/
theorem buildServiceTable_DNAT_large_weights :
    (sampleClient [sampleNat "A" 9007199254740992, sampleNat "B" 1]).get "web"
      = [sampleNat "A" 9007199254740992, sampleNat "B" 1] ∧
    [sampleNat "A" 9007199254740992, sampleNat "B" 1].map (fun t => t.Weight)
      = [9007199254740992, 1].map Float64.ofInt ∧
    (∀ i, i < 2 → 0 < (([9007199254740992, 1] : List ℤ).drop i).sum) ∧
    residualProbability 1 ((([9007199254740992, 1] : List ℤ).drop 1).sum) = "1.000" ∧
    ((sampleClient [sampleNat "A" 9007199254740992, sampleNat "B" 1]).buildServiceTable "web"
        chainType.chainTypeDNAT)[1]? = some (dnatRule (sampleNat "B" 1) "+Inf") ∧
    ((sampleClient [sampleNat "A" 9007199254740992, sampleNat "B" 1]).buildServiceTable "web"
        chainType.chainTypeDNAT)[1]? ≠ some (dnatRule (sampleNat "B" 1) "1.000") := by
  decide!

/-! ### The probabilities of a DNAT chain -/

theorem probabilityOf_dnatRule (t : NATTarget) (P : String) :
    probabilityOf (dnatRule t P) = some P := by
  simp [probabilityOf, dnatRule]

theorem thousandths_le (q : ℚ) (hq0 : 0 ≤ q) (hq1 : q ≤ 1) :
    Float64.roundHalfEven (Float64.roundMag q * 1000) ≤ 1000 := by
  apply Float64.roundHalfEven_le_nat _ (mul_nonneg (Float64.roundMag_nonneg q) (by norm_num))
  have := Float64.roundMag_le_one q hq0 hq1
  push_cast
  linarith

theorem thousandths_one : Float64.roundHalfEven (Float64.roundMag 1 * 1000) = 1000 := by
  have h : Float64.roundMag (1 : ℚ) = 1 := by
    have := Float64.roundMag_natCast 1 (by norm_num)
    simpa using this
  rw [h]
  have : ((1 : ℚ) * 1000) = ((1000 : ℕ) : ℚ) := by norm_num
  rw [this, Float64.roundHalfEven_natCast]

theorem dnatRules_probabilities (ts : List NATTarget) (ws : List ℤ)
    (hlen : ts.length = ws.length)
    (hnonneg : ∀ w ∈ ws, 0 ≤ w)
    (hbound : ws.sum < 2 ^ 53)
    (hres : ∀ i, i < ws.length → 0 < (ws.drop i).sum) :
    ∃ ks : List ℕ, ks.length = ws.length ∧
      emittedProbabilities (dnatRules ts ws) = ks.map (decimalFixed 3) ∧
      (∀ k ∈ ks, k ≤ 1000) ∧
      (∀ (i : ℕ) (k : ℕ) (w : ℤ), ks[i]? = some k → ws[i]? = some w →
        |(k : ℚ) / 1000 - (w : ℚ) / ((ws.drop i).sum : ℚ)| ≤ 1 / 2000 + 1 / 2 ^ (53 : ℕ)) ∧
      (ws ≠ [] → sequentialTotal (ks.map fun k : ℕ => (k : ℚ) / 1000) = 1) := by
  induction ts generalizing ws with
  | nil =>
    cases ws with
    | nil => exact ⟨[], rfl, rfl, by simp, by simp, by simp⟩
    | cons w ws1 => simp at hlen
  | cons t rest ih =>
    cases ws with
    | nil => simp at hlen
    | cons w ws1 =>
      simp only [List.length_cons, Nat.add_right_cancel_iff] at hlen
      have hw0 : 0 ≤ w := hnonneg w (by simp)
      have hnn1 : ∀ x ∈ ws1, 0 ≤ x := fun x hx => hnonneg x (by simp [hx])
      have hs1 : 0 ≤ ws1.sum := List.sum_nonneg hnn1
      have hWpos : 0 < (w :: ws1).sum := by simpa using hres 0 (by simp)
      rw [List.sum_cons] at hWpos hbound
      obtain ⟨ks1, hk1, hk2, hk3, hk4, hk5⟩ := ih ws1 hlen hnn1 (by omega)
        (fun i hi => by simpa using hres (i + 1) (by simpa using hi))
      have hwb : w.natAbs < 2 ^ 53 := by omega
      have hWb : (w + ws1.sum).natAbs < 2 ^ 53 := by omega
      have hcw : ((w.natAbs : ℕ) : ℚ) = (w : ℚ) := by
        rw [Nat.cast_natAbs, abs_of_nonneg hw0]
      have hcW : (((w + ws1.sum).natAbs : ℕ) : ℚ) = ((w + ws1.sum : ℤ) : ℚ) := by
        rw [Nat.cast_natAbs, abs_of_nonneg hWpos.le]
      have hWq : (0 : ℚ) < ((w + ws1.sum : ℤ) : ℚ) := by exact_mod_cast hWpos
      have hq0 : (0 : ℚ) ≤ (w : ℚ) / ((w + ws1.sum : ℤ) : ℚ) :=
        div_nonneg (by exact_mod_cast hw0) hWq.le
      have hq1 : (w : ℚ) / ((w + ws1.sum : ℤ) : ℚ) ≤ 1 := by
        rw [div_le_one hWq]
        exact_mod_cast (by omega : w ≤ w + ws1.sum)
      have hP := residualProbability_decimal w (w + ws1.sum) hwb hWb hWpos
      rw [if_neg (not_lt.2 hw0), hcw, hcW] at hP
      refine ⟨Float64.roundHalfEven
        (Float64.roundMag ((w : ℚ) / ((w + ws1.sum : ℤ) : ℚ)) * 1000) :: ks1, ?_, ?_, ?_, ?_, ?_⟩
      · simp [hk1]
      · simp only [dnatRules, emittedProbabilities, List.filterMap_cons,
          probabilityOf_dnatRule, List.sum_cons, List.map_cons, hP]
        rw [← hk2]
        rfl
      · intro k hk
        simp only [List.mem_cons] at hk
        rcases hk with rfl | hk
        · exact thousandths_le _ hq0 hq1
        · exact hk3 k hk
      · intro i k x hki hxi
        cases i with
        | zero =>
          simp only [List.getElem?_cons_zero, Option.some.injEq] at hki hxi
          subst hki hxi
          simp only [List.drop_zero, List.sum_cons]
          have herr := thousandths_error ((w : ℚ) / ((w + ws1.sum : ℤ) : ℚ))
            (by
              have := ratio_small_or_zero w (w + ws1.sum) hWb hWpos.ne'
              rwa [hcw, hcW] at this)
          have hle : (w : ℚ) / ((w + ws1.sum : ℤ) : ℚ) / 2 ^ (53 : ℕ) ≤ 1 / 2 ^ (53 : ℕ) :=
            div_le_div_of_nonneg_right hq1 (by positivity)
          push_cast at herr hle ⊢
          linarith
        | succ j =>
          simp only [List.getElem?_cons_succ] at hki hxi
          simpa using hk4 j k x hki hxi
      · intro _
        simp only [List.map_cons, sequentialTotal]
        by_cases hne : ws1 = []
        · subst hne
          have hks1 : ks1 = [] := List.length_eq_zero.1 (by simpa using hk1)
          subst hks1
          have hq : (w : ℚ) / ((w + ([] : List ℤ).sum : ℤ) : ℚ) = 1 := by
            simp only [List.sum_nil, add_zero]
            have : (w : ℚ) ≠ 0 := by
              have : w ≠ 0 := by simpa using hWpos.ne'
              exact_mod_cast this
            exact div_self this
          rw [hq, thousandths_one]
          simp [sequentialTotal]
        · rw [hk5 hne]
          ring

/-- C2 (probability sum, P1), as the code has it: let the registered targets of the service
have non-negative integer weights `[w1..wn]`, `n >= 1`, with a total below `2^53` and with every
residual weight `W_i = w_i + ... + w_n` positive (that is, the last weight is positive). Then
the `--probability` values of the DNAT chain are the decimal notations, with exactly three
fractional digits, of numbers `p_i = k_i / 1000` with `0 <= k_i <= 1000` and
`|p_i - w_i / W_i| <= 1/2000 + 2^-53`, and `p₁ + (1-p₁)p₂ + (1-p₁)(1-p₂)p₃ + …` is exactly 1. -/
theorem DNAT_probabilities_total_one (c : Client) (service : String) (ws : List ℤ)
    (hw : (c.get service).map (fun t => t.Weight) = ws.map Float64.ofInt)
    (hnonneg : ∀ w ∈ ws, 0 ≤ w)
    (hbound : ws.sum < 2 ^ 53)
    (hne : ws ≠ [])
    (hres : ∀ i, i < ws.length → 0 < (ws.drop i).sum) :
    ∃ ks : List ℕ, ks.length = ws.length ∧
      emittedProbabilities (c.buildServiceTable service chainType.chainTypeDNAT)
        = ks.map (decimalFixed 3) ∧
      (∀ k ∈ ks, k ≤ 1000) ∧
      (∀ (i : ℕ) (k : ℕ) (w : ℤ), ks[i]? = some k → ws[i]? = some w →
        |(k : ℚ) / 1000 - (w : ℚ) / ((ws.drop i).sum : ℚ)| ≤ 1 / 2000 + 1 / 2 ^ (53 : ℕ)) ∧
      sequentialTotal (ks.map fun k : ℕ => (k : ℚ) / 1000) = 1 := by
  have hlen : (c.get service).length = ws.length := by
    have := congrArg List.length hw
    simpa using this
  have habs : (ws.map Int.natAbs).sum = ws.sum.natAbs := by
    clear hw hbound hne hres hlen
    induction ws with
    | nil => simp
    | cons w ws1 ih =>
      have hw0 : 0 ≤ w := hnonneg w (by simp)
      have hnn1 : ∀ x ∈ ws1, 0 ≤ x := fun x hx => hnonneg x (by simp [hx])
      have hs1 : 0 ≤ ws1.sum := List.sum_nonneg hnn1
      simp only [List.map_cons, List.sum_cons, ih hnn1]
      omega
  have hs0 : 0 ≤ ws.sum := List.sum_nonneg hnonneg
  have hbound2 : (ws.map Int.natAbs).sum < 2 ^ 53 := by
    rw [habs]; omega
  obtain ⟨ks, h1, h2, h3, h4, h5⟩ :=
    dnatRules_probabilities (c.get service) ws hlen hnonneg hbound hres
  refine ⟨ks, h1, ?_, h3, h4, h5 hne⟩
  rw [buildServiceTable_DNAT_eq c service ws hw hbound2]
  simp only [emittedProbabilities, List.filterMap_append]
  rw [show List.filterMap probabilityOf [["-j", "RETURN"]] = [] from rfl, List.append_nil]
  exact h2

theorem DNAT_probabilities_total_one_witness :
    ∃ ks : List ℕ, ks.length = 2 ∧
      emittedProbabilities ((sampleClient [sampleNat "A" 1, sampleNat "B" 3]).buildServiceTable
        "web" chainType.chainTypeDNAT) = ks.map (decimalFixed 3) ∧
      (∀ k ∈ ks, k ≤ 1000) ∧
      sequentialTotal (ks.map fun k : ℕ => (k : ℚ) / 1000) = 1 := by
  obtain ⟨ks, h1, h2, h3, _, h5⟩ := DNAT_probabilities_total_one
    (sampleClient [sampleNat "A" 1, sampleNat "B" 3]) "web" [1, 3]
    (by decide!) (by decide) (by decide) (by decide) (by decide)
  exact ⟨ks, h1, h2, h3, h5⟩

theorem decimalFixed_ne_NaN (prec k : ℕ) : decimalFixed prec k ≠ "NaN" := by
  intro h
  have h1 : '.' ∈ (decimalFixed prec k).data := by
    simp [decimalFixed, String.data_append]
  rw [h] at h1
  simp at h1

/-- C2, where the claim fails: the weights `1` and `0` are non-negative and their total is
`1 > 0`, but the weight left for the second target is `0`, so its probability is `0 / 0`: the
chain carries the `--probability` values `1.000` and `NaN`, and `NaN` is not the decimal
notation of a number. -/
theorem DNAT_probability_NaN_for_zero_last_weight :
    [sampleNat "A" 1, sampleNat "B" 0].map (fun t => t.Weight) = [1, 0].map Float64.ofInt ∧
    (∀ w ∈ ([1, 0] : List ℤ), 0 ≤ w) ∧ 0 < ([1, 0] : List ℤ).sum ∧
    emittedProbabilities ((sampleClient [sampleNat "A" 1, sampleNat "B" 0]).buildServiceTable
      "web" chainType.chainTypeDNAT) = ["1.000", "NaN"] ∧
    ¬ ∃ ks : List ℕ,
      emittedProbabilities ((sampleClient [sampleNat "A" 1, sampleNat "B" 0]).buildServiceTable
        "web" chainType.chainTypeDNAT) = ks.map (decimalFixed 3) := by
  have hprob : emittedProbabilities
      ((sampleClient [sampleNat "A" 1, sampleNat "B" 0]).buildServiceTable
        "web" chainType.chainTypeDNAT) = ["1.000", "NaN"] := by decide!
  refine ⟨by decide!, by decide, by decide, hprob, ?_⟩
  rintro ⟨ks, hks⟩
  rw [hprob] at hks
  have hmem : "NaN" ∈ ks.map (decimalFixed 3) := by
    rw [← hks]; simp
  obtain ⟨k, _, hk⟩ := List.mem_map.1 hmem
  exact decimalFixed_ne_NaN 3 k hk

/-! ### One chain -/

theorem IPTables.nextCall_quiet (ipt : IPTables) (h : ∀ f ∈ ipt.failures, f = false) :
    ipt.nextCall.1 = false ∧ ∀ f ∈ ipt.nextCall.2.failures, f = false := by
  unfold IPTables.nextCall
  cases hf : ipt.failures with
  | nil => exact ⟨rfl, by simp [hf]⟩
  | cons f rest =>
    rw [hf] at h
    exact ⟨h f (by simp), fun g hg => h g (by simp [hg])⟩

theorem IPTables.setChain_failures (ipt : IPTables) (chain : String) (rules : List Rule) :
    (ipt.setChain chain rules).failures = ipt.failures := rfl

theorem IPTables.ChainExists_quiet (ipt : IPTables) (chain : String)
    (h : ∀ f ∈ ipt.failures, f = false) :
    (ipt.ChainExists chain).2 = Except.ok (ipt.chains chain).isSome ∧
    ∀ f ∈ (ipt.ChainExists chain).1.failures, f = false := by
  have hq := ipt.nextCall_quiet h
  have hc := ipt.nextCall_chains
  unfold IPTables.ChainExists
  rcases hn : ipt.nextCall with ⟨b, ipt1⟩
  rw [hn] at hq hc
  simp only [] at hq hc
  obtain ⟨hb, hf⟩ := hq
  subst hb
  simp only []
  exact ⟨by rw [hc], hf⟩

theorem IPTables.NewChain_quiet (ipt : IPTables) (chain : String)
    (h : ∀ f ∈ ipt.failures, f = false) (hno : ipt.chains chain = none) :
    (ipt.NewChain chain).2 = none ∧ ∀ f ∈ (ipt.NewChain chain).1.failures, f = false := by
  have hq := ipt.nextCall_quiet h
  have hc := ipt.nextCall_chains
  unfold IPTables.NewChain
  rcases hn : ipt.nextCall with ⟨b, ipt1⟩
  rw [hn] at hq hc
  simp only [] at hq hc
  obtain ⟨hb, hf⟩ := hq
  subst hb
  have h1 : ipt1.chains chain = none := by rw [hc]; exact hno
  simp only [h1]
  exact ⟨trivial, hf⟩

theorem IPTables.ClearChain_quiet (ipt : IPTables) (chain : String) (rs : List Rule)
    (h : ∀ f ∈ ipt.failures, f = false) (hyes : ipt.chains chain = some rs) :
    (ipt.ClearChain chain).2 = none ∧ ∀ f ∈ (ipt.ClearChain chain).1.failures, f = false := by
  have hq := ipt.nextCall_quiet h
  have hc := ipt.nextCall_chains
  unfold IPTables.ClearChain
  rcases hn : ipt.nextCall with ⟨b, ipt1⟩
  rw [hn] at hq hc
  simp only [] at hq hc
  obtain ⟨hb, hf⟩ := hq
  subst hb
  have h1 : ipt1.chains chain = some rs := by rw [hc]; exact hyes
  simp only [h1]
  exact ⟨trivial, hf⟩

theorem IPTables.Append_quiet (ipt : IPTables) (chain : String) (rule : Rule) (rs : List Rule)
    (h : ∀ f ∈ ipt.failures, f = false) (hyes : ipt.chains chain = some rs) :
    (ipt.Append chain rule).2 = none ∧ ∀ f ∈ (ipt.Append chain rule).1.failures, f = false := by
  have hq := ipt.nextCall_quiet h
  have hc := ipt.nextCall_chains
  unfold IPTables.Append
  rcases hn : ipt.nextCall with ⟨b, ipt1⟩
  rw [hn] at hq hc
  simp only [] at hq hc
  obtain ⟨hb, hf⟩ := hq
  subst hb
  have h1 : ipt1.chains chain = some rs := by rw [hc]; exact hyes
  simp only [h1]
  exact ⟨trivial, hf⟩

theorem appendAll_quiet (chain : String) (rules : List Rule) (ipt : IPTables) (rs : List Rule)
    (h : ∀ f ∈ ipt.failures, f = false) (hyes : ipt.chains chain = some rs) :
    (appendAll ipt chain rules).2 = none ∧
    ∀ f ∈ (appendAll ipt chain rules).1.failures, f = false := by
  induction rules generalizing ipt rs with
  | nil => exact ⟨rfl, h⟩
  | cons rule rest ih =>
    rw [appendAll]
    have hq := IPTables.Append_quiet ipt chain rule rs h hyes
    have hk := IPTables.Append_ok ipt chain rule rs hyes
    rcases ha : ipt.Append chain rule with ⟨ipt1, _ | err⟩
    · rw [ha] at hq hk
      simp only [] at hq hk ⊢
      exact ih ipt1 (rs ++ [rule]) hq.2 (hk trivial)
    · rw [ha] at hq
      simp at hq

theorem ensureChainWithRules_quiet (ipt : IPTables) (chain : String) (rules : List Rule)
    (h : ∀ f ∈ ipt.failures, f = false) :
    (ensureChainWithRules ipt chain rules).2 = none ∧
    ∀ f ∈ (ensureChainWithRules ipt chain rules).1.failures, f = false := by
  have hq := IPTables.ChainExists_quiet ipt chain h
  have hc := ipt.ChainExists_chains chain
  unfold ensureChainWithRules
  rcases he : ipt.ChainExists chain with ⟨ipt1, err | b⟩
  · rw [he] at hq
    simp at hq
  · rw [he] at hq hc
    simp only [Except.ok.injEq] at hq hc
    obtain ⟨hb, hf⟩ := hq
    simp only []
    cases hx : ipt.chains chain with
    | none =>
      rw [hx] at hb
      simp only [Option.isSome_none] at hb
      subst hb
      simp only [Bool.false_eq_true, if_false]
      have h1 : ipt1.chains chain = none := by rw [hc]; exact hx
      have hn := IPTables.NewChain_quiet ipt1 chain hf h1
      have hk := IPTables.NewChain_ok ipt1 chain
      rcases hy : ipt1.NewChain chain with ⟨ipt2, _ | err⟩
      · rw [hy] at hn hk
        simp only [] at hn hk ⊢
        exact appendAll_quiet chain rules ipt2 [] hn.2 (hk trivial)
      · rw [hy] at hn
        simp at hn
    | some rs =>
      rw [hx] at hb
      simp only [Option.isSome_some] at hb
      subst hb
      simp only [if_true]
      have h1 : ipt1.chains chain = some rs := by rw [hc]; exact hx
      have hn := IPTables.ClearChain_quiet ipt1 chain rs hf h1
      have hk := IPTables.ClearChain_ok ipt1 chain
      rcases hy : ipt1.ClearChain chain with ⟨ipt2, _ | err⟩
      · rw [hy] at hn hk
        simp only [] at hn hk ⊢
        exact appendAll_quiet chain rules ipt2 [] hn.2 (hk trivial)
      · rw [hy] at hn
        simp at hn

/-- C11 (`ensureChainWithRules`): for every backend state, chain name and rule list, if none of
the backend calls fails (the function returns no error) then afterwards the chain exists and
holds exactly `rules` in the given order, whether the chain existed before, with any contents,
or not; the contents of every other chain are unchanged in any case; and when the backend
refuses no call, the function does return without error. -/
theorem ensureChainWithRules_installs_rules (ipt : IPTables) (chain : String)
    (rules : List Rule) :
    ((ensureChainWithRules ipt chain rules).2 = none →
      (ensureChainWithRules ipt chain rules).1.chains chain = some rules) ∧
    (∀ n, n ≠ chain → (ensureChainWithRules ipt chain rules).1.chains n = ipt.chains n) ∧
    ((∀ f ∈ ipt.failures, f = false) → (ensureChainWithRules ipt chain rules).2 = none) :=
  ⟨ensureChainWithRules_ok ipt chain rules,
   fun n hn => ensureChainWithRules_other ipt chain n rules hn,
   fun h => (ensureChainWithRules_quiet ipt chain rules h).1⟩

theorem ensureChainWithRules_installs_rules_witness :
    usedBackend.chains "M_WEB_DNAT" = some [["-j", "ACCEPT"], ["-j", "RETURN"]] ∧
    (ensureChainWithRules usedBackend "M_WEB_DNAT" [["-j", "A"], ["-j", "B"]]).1.chains
      "M_WEB_DNAT" = some [["-j", "A"], ["-j", "B"]] ∧
    (ensureChainWithRules usedBackend "M_WEB_DNAT" [["-j", "A"], ["-j", "B"]]).1.chains "OTHER"
      = some [["-j", "DROP"]] ∧
    emptyBackend.chains "M_WEB_DNAT" = none ∧
    (ensureChainWithRules emptyBackend "M_WEB_DNAT" [["-j", "A"], ["-j", "B"]]).1.chains
      "M_WEB_DNAT" = some [["-j", "A"], ["-j", "B"]] :=
  ⟨by decide,
   (ensureChainWithRules_installs_rules usedBackend "M_WEB_DNAT" [["-j", "A"], ["-j", "B"]]).1
     (by decide),
   ((ensureChainWithRules_installs_rules usedBackend "M_WEB_DNAT"
      [["-j", "A"], ["-j", "B"]]).2.1 "OTHER" (by decide)).trans (by decide),
   by decide,
   (ensureChainWithRules_installs_rules emptyBackend "M_WEB_DNAT" [["-j", "A"], ["-j", "B"]]).1
     (by decide)⟩

/-! ### SNAT rules and rule counts -/

theorem appendRules_append (cType : chainType) (ts : List NATTarget) (weightLeft : Float64)
    (rules : List Rule) :
    appendRules cType ts weightLeft rules = rules ++ appendRules cType ts weightLeft [] := by
  induction ts generalizing weightLeft rules with
  | nil => simp [appendRules]
  | cons nt rest ih =>
    rw [appendRules, ih, appendRules,
      ih (weightLeft.sub nt.Weight) ([] ++ [targetRule cType nt weightLeft])]
    simp

theorem appendRules_length (cType : chainType) (ts : List NATTarget) (weightLeft : Float64) :
    (appendRules cType ts weightLeft []).length = ts.length := by
  induction ts generalizing weightLeft with
  | nil => rfl
  | cons nt rest ih =>
    rw [appendRules, appendRules_append, List.length_append, ih]
    simp [Nat.add_comm]

theorem appendRules_SNAT (ts : List NATTarget) (weightLeft : Float64) :
    appendRules chainType.chainTypeSNAT ts weightLeft [] = ts.map snatRule := by
  induction ts generalizing weightLeft with
  | nil => rfl
  | cons nt rest ih =>
    rw [appendRules, appendRules_append, ih]
    rfl

theorem appendRules_DNAT_getElem (ts : List NATTarget) (weightLeft : Float64) (i : ℕ)
    (t : NATTarget) (ht : ts[i]? = some t) :
    ∃ P, (appendRules chainType.chainTypeDNAT ts weightLeft [])[i]? = some (dnatRule t P) := by
  induction ts generalizing weightLeft i with
  | nil => simp at ht
  | cons nt rest ih =>
    rw [appendRules, appendRules_append]
    cases i with
    | zero =>
      simp only [List.getElem?_cons_zero, Option.some.injEq] at ht
      subst ht
      exact ⟨FormatFloat (nt.Weight.div weightLeft) probPrecision, by
        simp [targetRule, dnatRule]⟩
    | succ j =>
      simp only [List.getElem?_cons_succ] at ht
      obtain ⟨P, hP⟩ := ih (weightLeft.sub nt.Weight) j ht
      exact ⟨P, by simpa using hP⟩

/-- C12 (SNAT rule compilation and rule count, P6): for every client and service with the
registered list `[t1..tn]`, `n >= 0`, `buildServiceTable(service, SNAT)` returns exactly `n+1`
vectors, the i-th being `-p t_i.Proto -d t_i.Addr --dport t_i.Port -j SNAT --to-source
t_i.LocalAddr` and the last `-j RETURN`; the DNAT vector of the same state has `n+1` entries
too, its i-th entry is the DNAT rule of the same target `t_i` and its last is `-j RETURN`. -/
theorem buildServiceTable_SNAT_per_target (c : Client) (service : String) :
    c.buildServiceTable service chainType.chainTypeSNAT
      = (c.get service).map snatRule ++ [["-j", "RETURN"]] ∧
    (c.buildServiceTable service chainType.chainTypeSNAT).length = (c.get service).length + 1 ∧
    (c.buildServiceTable service chainType.chainTypeSNAT)[(c.get service).length]?
      = some ["-j", "RETURN"] ∧
    (c.buildServiceTable service chainType.chainTypeDNAT).length = (c.get service).length + 1 ∧
    (c.buildServiceTable service chainType.chainTypeDNAT)[(c.get service).length]?
      = some ["-j", "RETURN"] ∧
    (∀ (i : ℕ) (t : NATTarget), (c.get service)[i]? = some t →
      (c.buildServiceTable service chainType.chainTypeSNAT)[i]? = some (snatRule t) ∧
      ∃ P, (c.buildServiceTable service chainType.chainTypeDNAT)[i]? = some (dnatRule t P)) := by
  have hs : c.buildServiceTable service chainType.chainTypeSNAT
      = (c.get service).map snatRule ++ [["-j", "RETURN"]] := by
    unfold Client.buildServiceTable
    simp only [appendRules_SNAT]
  have hdl := appendRules_length chainType.chainTypeDNAT (c.get service)
    (sumWeights (c.get service) Float64.zero)
  have hd : c.buildServiceTable service chainType.chainTypeDNAT
      = appendRules chainType.chainTypeDNAT (c.get service)
          (sumWeights (c.get service) Float64.zero) [] ++ [["-j", "RETURN"]] := rfl
  refine ⟨hs, ?_, ?_, ?_, ?_, ?_⟩
  · rw [hs]; simp
  · rw [hs, List.getElem?_append_right (by simp)]
    simp
  · rw [hd, List.length_append, hdl]; rfl
  · rw [hd, List.getElem?_append_right (by rw [hdl]), hdl]
    simp
  · intro i t ht
    have hi : i < (c.get service).length := (List.getElem?_eq_some_iff.1 ht).1
    constructor
    · rw [hs, List.getElem?_append_left (by simpa using hi)]
      simp [ht]
    · obtain ⟨P, hP⟩ := appendRules_DNAT_getElem (c.get service)
        (sumWeights (c.get service) Float64.zero) i t ht
      exact ⟨P, by rw [hd, List.getElem?_append_left (by rw [hdl]; exact hi)]; exact hP⟩

theorem buildServiceTable_SNAT_per_target_witness :
    ((sampleClient [sampleNat "A" 1, sampleNat "B" 3]).buildServiceTable "web"
        chainType.chainTypeSNAT)[1]?
      = some ["-p", "tcp", "-d", "B", "--dport", "8080", "-j", "SNAT", "--to-source", ""] ∧
    ∃ P, ((sampleClient [sampleNat "A" 1, sampleNat "B" 3]).buildServiceTable "web"
        chainType.chainTypeDNAT)[1]? = some (dnatRule (sampleNat "B" 3) P) :=
  (buildServiceTable_SNAT_per_target (sampleClient [sampleNat "A" 1, sampleNat "B" 3])
    "web").2.2.2.2.2 1 (sampleNat "B" 3) (by decide!)

/-! ### Zero total weight -/

theorem Float64.add_zeros (s t : Bool) :
    (Float64.fin s 0).add (Float64.fin t 0) = Float64.fin (s && t) 0 := by
  simp [Float64.add, Float64.signed]

theorem sumWeights_zeros (ts : List NATTarget) (s : Bool)
    (hz : ∀ t ∈ ts, ∃ s2, t.Weight = Float64.fin s2 0) :
    ∃ s3, sumWeights ts (Float64.fin s 0) = Float64.fin s3 0 := by
  induction ts generalizing s with
  | nil => exact ⟨s, rfl⟩
  | cons nt rest ih =>
    obtain ⟨s2, h2⟩ := hz nt (by simp)
    rw [sumWeights, h2, Float64.add_zeros]
    exact ih _ (fun t ht => hz t (by simp [ht]))

theorem appendRules_zeros (ts : List NATTarget) (s : Bool)
    (hz : ∀ t ∈ ts, ∃ s2, t.Weight = Float64.fin s2 0) :
    appendRules chainType.chainTypeDNAT ts (Float64.fin s 0) []
      = ts.map fun t => dnatRule t "NaN" := by
  induction ts generalizing s with
  | nil => rfl
  | cons nt rest ih =>
    obtain ⟨s2, h2⟩ := hz nt (by simp)
    have hsub : (Float64.fin s 0).sub nt.Weight = Float64.fin (s && !s2) 0 := by
      rw [h2]
      simp [Float64.sub, Float64.neg, Float64.add_zeros]
    have hdiv : nt.Weight.div (Float64.fin s 0) = Float64.nan := by
      rw [h2]
      simp [Float64.div]
    rw [appendRules, appendRules_append, hsub, ih _ (fun t ht => hz t (by simp [ht]))]
    simp [targetRule, dnatRule, hdiv, FormatFloat]

/-- C13 (zero total weight), as the code has it: for every service whose registered targets
`[t1..tn]` all have weight zero, `buildServiceTable(service, DNAT)` does not skip the DNAT
rules: it returns `n+1` vectors, for each target its DNAT rule with the probability `0 / 0`
printed as `NaN`, followed by `-j RETURN`; so for `n >= 1` the result is not the single vector
`-j RETURN`. -/
theorem buildServiceTable_DNAT_zero_weights (c : Client) (service : String)
    (hz : ∀ t ∈ c.get service, ∃ s, t.Weight = Float64.fin s 0) :
    c.buildServiceTable service chainType.chainTypeDNAT
      = (c.get service).map (fun t => dnatRule t "NaN") ++ [["-j", "RETURN"]] ∧
    (c.buildServiceTable service chainType.chainTypeDNAT).length = (c.get service).length + 1 ∧
    emittedProbabilities (c.buildServiceTable service chainType.chainTypeDNAT)
      = List.replicate (c.get service).length "NaN" ∧
    (c.get service ≠ [] →
      c.buildServiceTable service chainType.chainTypeDNAT ≠ [["-j", "RETURN"]]) := by
  have heq : c.buildServiceTable service chainType.chainTypeDNAT
      = (c.get service).map (fun t => dnatRule t "NaN") ++ [["-j", "RETURN"]] := by
    unfold Client.buildServiceTable
    obtain ⟨s3, h3⟩ := sumWeights_zeros (c.get service) false hz
    have h0 : Float64.zero = Float64.fin false 0 := rfl
    simp only [h0, h3, appendRules_zeros (c.get service) s3 hz]
  refine ⟨heq, ?_, ?_, ?_⟩
  · rw [heq]; simp
  · rw [heq]
    simp only [emittedProbabilities, List.filterMap_append, List.filterMap_map]
    rw [show List.filterMap probabilityOf [["-j", "RETURN"]] = [] from rfl, List.append_nil]
    generalize c.get service = ts
    induction ts with
    | nil => rfl
    | cons t rest ih =>
      simp only [List.filterMap_cons, Function.comp, probabilityOf_dnatRule, ih,
        List.length_cons, List.replicate_succ]
  · intro hne h
    rw [heq] at h
    have hl := congrArg List.length h
    simp at hl
    exact hne hl

theorem buildServiceTable_DNAT_zero_weights_witness :
    (sampleClient [sampleNat "A" 0]).buildServiceTable "web" chainType.chainTypeDNAT
      = [dnatRule (sampleNat "A" 0) "NaN", ["-j", "RETURN"]] ∧
    (sampleClient [sampleNat "A" 0]).buildServiceTable "web" chainType.chainTypeDNAT
      ≠ [["-j", "RETURN"]] :=
  have h := buildServiceTable_DNAT_zero_weights (sampleClient [sampleNat "A" 0]) "web"
    (by
      intro t ht
      have : t = sampleNat "A" 0 := by simpa [sampleClient, Client.get_set_same] using ht
      subst this
      exact ⟨false, by decide!⟩)
  ⟨h.1.trans (by simp [sampleClient, Client.get_set_same]),
   h.2.2.2 (by simp [sampleClient, Client.get_set_same])⟩

/-- C13, where the claim fails: the two registered targets of the service have the weight `0`,
so the total weight is `0`; `buildServiceTable` returns three vectors, the DNAT rules of both
targets with `--probability NaN` and then `-j RETURN`, not the single vector `-j RETURN`. -/
theorem buildServiceTable_DNAT_emits_NaN_rules :
    [sampleNat "A" 0, sampleNat "B" 0].map (fun t => t.Weight)
      = [Float64.ofInt 0, Float64.ofInt 0] ∧
    Float64.ofInt 0 = Float64.zero ∧
    sumWeights [sampleNat "A" 0, sampleNat "B" 0] Float64.zero = Float64.zero ∧
    (sampleClient [sampleNat "A" 0, sampleNat "B" 0]).buildServiceTable "web"
        chainType.chainTypeDNAT
      = [dnatRule (sampleNat "A" 0) "NaN", dnatRule (sampleNat "B" 0) "NaN",
         ["-j", "RETURN"]] ∧
    (sampleClient [sampleNat "A" 0, sampleNat "B" 0]).buildServiceTable "web"
        chainType.chainTypeDNAT ≠ [["-j", "RETURN"]] := by
  decide!

/-! ### Rebuilding all chains on a backend that refuses no call -/

theorem ensureServiceChains_quiet (c : Client) (s : String)
    (entries : List (String × chainType)) (ipt : IPTables)
    (h : ∀ f ∈ ipt.failures, f = false) :
    (ensureServiceChains c ipt s entries).2 = none ∧
    ∀ f ∈ (ensureServiceChains c ipt s entries).1.failures, f = false := by
  induction entries generalizing ipt with
  | nil => exact ⟨rfl, h⟩
  | cons e rest ih =>
    obtain ⟨chain, cType⟩ := e
    rw [ensureServiceChains]
    have hq := ensureChainWithRules_quiet ipt chain (c.buildServiceTable s cType) h
    rcases hx : ensureChainWithRules ipt chain (c.buildServiceTable s cType) with ⟨ipt1, _ | err⟩
    · rw [hx] at hq
      exact ih ipt1 hq.2
    · rw [hx] at hq
      simp at hq

theorem ensureServices_quiet (c : Client) (order : List (String × Bool)) (ipt : IPTables)
    (dnat snat : List Rule) (h : ∀ f ∈ ipt.failures, f = false) :
    (ensureServices c ipt order dnat snat).2.1 = none ∧
    ∀ f ∈ (ensureServices c ipt order dnat snat).1.failures, f = false := by
  induction order generalizing ipt dnat snat with
  | nil => exact ⟨rfl, h⟩
  | cons p rest ih =>
    obtain ⟨s, dnatFirst⟩ := p
    rw [ensureServices]
    have hq := ensureServiceChains_quiet c s (chainEntries c s dnatFirst) ipt h
    rcases hx : ensureServiceChains c ipt s (chainEntries c s dnatFirst) with ⟨ipt1, _ | err⟩
    · rw [hx] at hq
      exact ih ipt1 _ _ hq.2
    · rw [hx] at hq
      simp at hq

theorem EnsureManagedChains_quiet (c : Client) (ipt : IPTables) (order : List (String × Bool))
    (h : ∀ f ∈ ipt.failures, f = false) :
    (c.EnsureManagedChains ipt order).2 = none := by
  unfold Client.EnsureManagedChains
  have hq := ensureServices_quiet c order ipt [] [] h
  rcases hx : ensureServices c ipt order [] [] with ⟨ipt1, _ | err, dnat0, snat0⟩
  · rw [hx] at hq
    simp only []
    have h1 := ensureChainWithRules_quiet ipt1 (tableName [c.managedChain, "DNAT"])
      (dnat0 ++ [["-j", "RETURN"]]) hq.2
    rcases hy : ensureChainWithRules ipt1 (tableName [c.managedChain, "DNAT"])
      (dnat0 ++ [["-j", "RETURN"]]) with ⟨ipt2, _ | err⟩
    · rw [hy] at h1
      simp only []
      have h2 := ensureChainWithRules_quiet ipt2 (tableName [c.managedChain, "SNAT"])
        (snat0 ++ [["-j", "RETURN"]]) h1.2
      rcases hz : ensureChainWithRules ipt2 (tableName [c.managedChain, "SNAT"])
        (snat0 ++ [["-j", "RETURN"]]) with ⟨ipt3, _ | err⟩
      · rfl
      · rw [hz] at h2
        simp at h2
    · rw [hy] at h1
      simp at h1
  · rw [hx] at hq
    simp at hq

/-- C9 (top-level completeness, P7): let `S` be the key set of the service map and let
`EnsureManagedChains` visit the keys in any order that `range` can produce. On a backend that
refuses no call, `EnsureManagedChains` returns no error; and whenever it returns no error (no
backend call has failed), `M_DNAT` afterwards holds exactly one rule
`-j tableName(M, s, "DNAT")` for each `s` in `S` followed by `-j RETURN`, `M_SNAT` holds one rule
`-j tableName(M, s, "SNAT")` for each `s` in `S` in the same service order followed by
`-j RETURN`, and each of the two chains has exactly `|S| + 1` rules, whatever the two chains
held before. -/
theorem EnsureManagedChains_top_level_complete (c : Client) (ipt : IPTables)
    (order : List (String × Bool)) (S : Finset String)
    (hS : ∀ s, s ∈ S ↔ (c.services s).isSome = true)
    (horder : c.rangeOrder order) :
    ((∀ f ∈ ipt.failures, f = false) → (c.EnsureManagedChains ipt order).2 = none) ∧
    ((c.EnsureManagedChains ipt order).2 = none →
      (c.EnsureManagedChains ipt order).1.chains (tableName [c.managedChain, "DNAT"])
        = some ((order.map Prod.fst).map (fun s => ["-j", tableName [c.managedChain, s, "DNAT"]])
            ++ [["-j", "RETURN"]]) ∧
      (c.EnsureManagedChains ipt order).1.chains (tableName [c.managedChain, "SNAT"])
        = some ((order.map Prod.fst).map (fun s => ["-j", tableName [c.managedChain, s, "SNAT"]])
            ++ [["-j", "RETURN"]]) ∧
      (∀ rules, (c.EnsureManagedChains ipt order).1.chains (tableName [c.managedChain, "DNAT"])
        = some rules → rules.length = S.card + 1) ∧
      (∀ rules, (c.EnsureManagedChains ipt order).1.chains (tableName [c.managedChain, "SNAT"])
        = some rules → rules.length = S.card + 1)) ∧
    (order.map Prod.fst).Nodup ∧ (order.map Prod.fst).toFinset = S := by
  have hset : (order.map Prod.fst).toFinset = S := by
    ext s
    rw [List.mem_toFinset, horder.2 s, hS s]
  have hcard : S.card = order.length := by
    rw [← hset, List.toFinset_card_of_nodup horder.1, List.length_map]
  refine ⟨EnsureManagedChains_quiet c ipt order, ?_, horder.1, hset⟩
  intro hok
  obtain ⟨hd, hs⟩ := EnsureManagedChains_top c ipt order hok
  refine ⟨?_, ?_, ?_, ?_⟩
  · rw [hd, List.map_map]; rfl
  · rw [hs, List.map_map]; rfl
  · intro rules hr
    rw [hd] at hr
    cases hr
    simp [hcard]
  · intro rules hr
    rw [hs] at hr
    cases hr
    simp [hcard]

theorem EnsureManagedChains_top_level_complete_witness :
    (((New "M").set "web" [sampleNatA]).set "api" []).rangeOrder [("api", false), ("web", true)] ∧
    staleBackend.chains "M_DNAT"
      = some [["-j", "M_WEB_DNAT"], ["-j", "M_OLD_DNAT"], ["-j", "RETURN"]] ∧
    ((((New "M").set "web" [sampleNatA]).set "api" []).EnsureManagedChains staleBackend
        [("api", false), ("web", true)]).2 = none ∧
    ((((New "M").set "web" [sampleNatA]).set "api" []).EnsureManagedChains staleBackend
        [("api", false), ("web", true)]).1.chains "M_DNAT"
      = some [["-j", "M_API_DNAT"], ["-j", "M_WEB_DNAT"], ["-j", "RETURN"]] ∧
    ((((New "M").set "web" [sampleNatA]).set "api" []).EnsureManagedChains staleBackend
        [("api", false), ("web", true)]).1.chains "M_SNAT"
      = some [["-j", "M_API_SNAT"], ["-j", "M_WEB_SNAT"], ["-j", "RETURN"]] := by
  have horder : (((New "M").set "web" [sampleNatA]).set "api" []).rangeOrder
      [("api", false), ("web", true)] := by
    refine ⟨by decide, ?_⟩
    intro s
    by_cases h1 : s = "api"
    · subst h1; simp [Client.set]
    · by_cases h2 : s = "web"
      · subst h2; simp [Client.set]
      · simp [Client.set, New, h1, h2]
  have hS : ∀ s, s ∈ ({"api", "web"} : Finset String) ↔
      ((((New "M").set "web" [sampleNatA]).set "api" []).services s).isSome = true := by
    intro s
    rw [← horder.2 s]
    simp
  have h := EnsureManagedChains_top_level_complete
    (((New "M").set "web" [sampleNatA]).set "api" []) staleBackend
    [("api", false), ("web", true)] {"api", "web"} hS horder
  have hok := h.1 (by decide)
  exact ⟨horder, by decide, hok, (h.2.1 hok).1, (h.2.1 hok).2.1⟩

/-! ### All targets down -/

theorem buildServiceTable_nil (c : Client) (service : String) (cType : chainType)
    (h : c.get service = []) : c.buildServiceTable service cType = [["-j", "RETURN"]] := by
  simp [Client.buildServiceTable, h, appendRules]

theorem probesFrom_getElem? (checks : ℕ → Bool) (i : ℕ) (targets : List Target) (k : ℕ) :
    (probesFrom checks i targets)[k]? = (targets[k]?).map fun t => (t, checks (i + k)) := by
  induction targets generalizing i k with
  | nil => simp [probesFrom]
  | cons t rest ih =>
    cases k with
    | zero => simp [probesFrom]
    | succ k =>
      simp only [probesFrom, List.getElem?_cons_succ]
      rw [ih]
      have : i + 1 + k = i + (k + 1) := by omega
      rw [this]

theorem probesFrom_length (checks : ℕ → Bool) (i : ℕ) (targets : List Target) :
    (probesFrom checks i targets).length = targets.length := by
  induction targets generalizing i with
  | nil => rfl
  | cons t rest ih => simp [probesFrom, ih]

theorem probesFrom_all_fail (checks : ℕ → Bool) (targets : List Target)
    (hfail : ∀ i, i < targets.length → checks i = false) :
    ∀ p ∈ probesFrom checks 0 targets, p.1 ∈ targets ∧ p.2 = false := by
  intro p hp
  obtain ⟨k, hk⟩ := List.mem_iff_getElem?.1 hp
  rw [probesFrom_getElem?] at hk
  cases ht : targets[k]? with
  | none => simp [ht] at hk
  | some t =>
    simp only [ht, Option.map_some', Option.some.injEq] at hk
    subst hk
    have hlt : k < targets.length := by
      by_contra hge
      rw [List.getElem?_eq_none (by omega)] at ht
      cases ht
    exact ⟨List.mem_iff_getElem?.2 ⟨k, ht⟩, by simpa using hfail k hlt⟩

theorem runSchedule_append (m : Monitor) (probes : List (Target × Bool)) (ts : TickState)
    (a b : List ℕ) :
    m.runSchedule probes ts (a ++ b) = m.runSchedule probes (m.runSchedule probes ts a) b := by
  induction a generalizing ts with
  | nil => rfl
  | cons i rest ih =>
    simp only [List.cons_append, Monitor.runSchedule]
    exact ih _

/-- While no goroutine has seen or produced the value `true`, a step of a goroutine whose check
failed and whose target is not registered leaves the chain manager and `changed` as they are. -/
theorem stepGoroutine_no_change (m : Monitor) (probes : List (Target × Bool)) (c0 : Client)
    (hp : ∀ p ∈ probes, p.2 = false ∧ m.natTarget p.1 ∉ c0.get m.svc.Name)
    (ts : TickState) (i : ℕ)
    (h : ts.shared.client = c0 ∧ ts.shared.changed = false ∧
      ∀ pc ∈ ts.pcs, pc ≠ ProbePC.loaded true ∧ pc ≠ ProbePC.evaluated true) :
    (m.stepGoroutine probes ts i).shared.client = c0 ∧
    (m.stepGoroutine probes ts i).shared.changed = false ∧
    ∀ pc ∈ (m.stepGoroutine probes ts i).pcs,
      pc ≠ ProbePC.loaded true ∧ pc ≠ ProbePC.evaluated true := by
  obtain ⟨hc, hch, hpcs⟩ := h
  unfold Monitor.stepGoroutine
  cases hpi : probes[i]? with
  | none => exact ⟨hc, hch, hpcs⟩
  | some p =>
    obtain ⟨t, ok⟩ := p
    cases hpc : ts.pcs[i]? with
    | none => exact ⟨hc, hch, hpcs⟩
    | some pc =>
      have hmem := hp (t, ok) (List.mem_iff_getElem?.2 ⟨i, hpi⟩)
      have hok : ok = false := hmem.1
      subst hok
      have hnot : m.natTarget t ∉ ts.shared.client.get m.svc.Name := by rw [hc]; exact hmem.2
      have hpc0 := hpcs pc (List.mem_iff_getElem?.2 ⟨i, hpc⟩)
      have hset : ∀ (v : ProbePC), v ≠ ProbePC.loaded true ∧ v ≠ ProbePC.evaluated true →
          ∀ q ∈ ts.pcs.set i v, q ≠ ProbePC.loaded true ∧ q ≠ ProbePC.evaluated true := by
        intro v hv q hq
        rcases List.mem_or_eq_of_mem_set hq with hq | hq
        · exact hpcs q hq
        · rw [hq]; exact hv
      cases pc with
      | start =>
        simp only [Monitor.probeStep]
        exact ⟨hc, hch, hset _ (by simp [hch])⟩
      | loaded c =>
        have hcf : c = false := by
          cases c
          · rfl
          · exact absurd rfl hpc0.1
        subst hcf
        simp only [Monitor.probeStep, Bool.false_eq_true, if_false, Client.unregister_eq,
          if_neg hnot]
        exact ⟨hc, hch, hset _ (by simp)⟩
      | evaluated v =>
        have hvf : v = false := by
          cases v
          · rfl
          · exact absurd rfl hpc0.2
        subst hvf
        simp only [Monitor.probeStep]
        exact ⟨hc, trivial, hset _ (by simp)⟩
      | stored =>
        simp only [Monitor.probeStep]
        exact ⟨hc, hch, hset _ (by simp)⟩
      | listLoaded l =>
        simp only [Monitor.probeStep, Bool.false_eq_true, if_false]
        exact ⟨hc, hch, hset _ (by simp)⟩
      | done =>
        simp only [Monitor.probeStep]
        exact ⟨hc, hch, hset _ (by simp)⟩

theorem runSchedule_no_change (m : Monitor) (probes : List (Target × Bool)) (c0 : Client)
    (hp : ∀ p ∈ probes, p.2 = false ∧ m.natTarget p.1 ∉ c0.get m.svc.Name)
    (sched : List ℕ) (ts : TickState)
    (h : ts.shared.client = c0 ∧ ts.shared.changed = false ∧
      ∀ pc ∈ ts.pcs, pc ≠ ProbePC.loaded true ∧ pc ≠ ProbePC.evaluated true) :
    (m.runSchedule probes ts sched).shared.client = c0 ∧
    (m.runSchedule probes ts sched).shared.changed = false := by
  induction sched generalizing ts with
  | nil => exact ⟨h.1, h.2.1⟩
  | cons i rest ih =>
    rw [Monitor.runSchedule]
    exact ih _ (stepGoroutine_no_change m probes c0 hp ts i h)

theorem runGoroutines_no_change (m : Monitor) (probes : List (Target × Bool)) (c0 : Client)
    (hp : ∀ p ∈ probes, p.2 = false ∧ m.natTarget p.1 ∉ c0.get m.svc.Name)
    (sched : List ℕ) :
    (m.runGoroutines probes
      { client := c0, changed := false, down := [], up := [], calls := [] } sched).client = c0 ∧
    (m.runGoroutines probes
      { client := c0, changed := false, down := [], up := [], calls := [] } sched).changed
      = false := by
  unfold Monitor.runGoroutines
  apply runSchedule_no_change m probes c0 hp
  refine ⟨rfl, rfl, ?_⟩
  intro pc hpc
  simp only [List.mem_map] at hpc
  obtain ⟨_, _, rfl⟩ := hpc
  simp

theorem set_eq_of_getElem? {α : Type} (l : List α) (i : ℕ) (a : α) (h : l[i]? = some a) :
    l.set i a = l := by
  induction l generalizing i with
  | nil => rfl
  | cons b rest ih =>
    cases i with
    | zero =>
      simp only [List.getElem?_cons_zero, Option.some.injEq] at h
      simp [h]
    | succ k =>
      simp only [List.getElem?_cons_succ] at h
      simp [ih k h]

theorem getElem?_set_same {α : Type} (l : List α) (i : ℕ) (a b : α) (h : l[i]? = some a) :
    (l.set i b)[i]? = some b := by
  induction l generalizing i with
  | nil => simp at h
  | cons c rest ih =>
    cases i with
    | zero => simp
    | succ k =>
      simp only [List.getElem?_cons_succ] at h
      simpa using ih k h

/-- A goroutine that has returned takes no further step. -/
theorem stepGoroutine_done (m : Monitor) (probes : List (Target × Bool)) (ts : TickState)
    (i : ℕ) (h : ts.pcs[i]? = some ProbePC.done) : m.stepGoroutine probes ts i = ts := by
  unfold Monitor.stepGoroutine
  cases hpi : probes[i]? with
  | none => rfl
  | some p =>
    obtain ⟨t, ok⟩ := p
    simp only [h, Monitor.probeStep, set_eq_of_getElem? ts.pcs i ProbePC.done h]

theorem runSchedule_block_done (m : Monitor) (probes : List (Target × Bool)) (ts : TickState)
    (i : ℕ) (h : ts.pcs[i]? = some ProbePC.done) :
    m.runSchedule probes ts (List.replicate 5 i) = ts := by
  simp [List.replicate, Monitor.runSchedule, stepGoroutine_done m probes ts i h]

theorem runSchedule_block_none (m : Monitor) (probes : List (Target × Bool)) (ts : TickState)
    (i : ℕ) (h : probes[i]? = none ∨ ts.pcs[i]? = none) :
    m.runSchedule probes ts (List.replicate 5 i) = ts := by
  have hstep : m.stepGoroutine probes ts i = ts := by
    unfold Monitor.stepGoroutine
    rcases h with h | h
    · simp [h]
    · cases hpi : probes[i]? with
      | none => rfl
      | some p => simp [h]
  simp [List.replicate, Monitor.runSchedule, hstep]

theorem stepGoroutine_eq (m : Monitor) (probes : List (Target × Bool)) (shared : ProbeState)
    (pcs : List ProbePC) (i : ℕ) (t : Target) (ok : Bool) (pc : ProbePC)
    (hpi : probes[i]? = some (t, ok)) (h : pcs[i]? = some pc) :
    m.stepGoroutine probes { shared := shared, pcs := pcs } i =
      { shared := (m.probeStep shared t ok pc).1, pcs := pcs.set i (m.probeStep shared t ok pc).2 } := by
  simp only [Monitor.stepGoroutine, hpi, h]

theorem runSchedule_five (m : Monitor) (probes : List (Target × Bool)) (ts : TickState) (i : ℕ) :
    m.runSchedule probes ts (List.replicate 5 i) =
      m.stepGoroutine probes (m.stepGoroutine probes (m.stepGoroutine probes
        (m.stepGoroutine probes (m.stepGoroutine probes ts i) i) i) i) i := by
  simp only [List.replicate, Monitor.runSchedule]

/-- The five steps of a goroutine whose check failed, taken without interruption from `start`:
if `changed` is set the chain manager is not called, otherwise `changed` takes the value
returned by `UnregisterServiceTarget`; the target is appended to `down`. -/
theorem runSchedule_block_start (m : Monitor) (probes : List (Target × Bool)) (ts : TickState)
    (i : ℕ) (t : Target) (hpi : probes[i]? = some (t, false))
    (h : ts.pcs[i]? = some ProbePC.start) :
    m.runSchedule probes ts (List.replicate 5 i) =
      { shared :=
          if ts.shared.changed then
            { ts.shared with changed := true, down := ts.shared.down ++ [t.String] }
          else
            { client := (ts.shared.client.UnregisterServiceTarget m.svc.Name (m.natTarget t)).1
              changed := (ts.shared.client.UnregisterServiceTarget m.svc.Name (m.natTarget t)).2
              down := ts.shared.down ++ [t.String]
              up := ts.shared.up
              calls := ts.shared.calls ++
                [(ts.shared.client.UnregisterServiceTarget m.svc.Name (m.natTarget t)).2] }
        pcs := ts.pcs.set i ProbePC.done } := by
  obtain ⟨shared, pcs⟩ := ts
  simp only [] at h ⊢
  have hs : ∀ (l : List ProbePC) (a b : ProbePC), l[i]? = some a → (l.set i b)[i]? = some b :=
    fun l a b hl => getElem?_set_same l i a b hl
  rw [runSchedule_five]
  rw [stepGoroutine_eq m probes _ _ i t false _ hpi h]
  simp only [Monitor.probeStep]
  rw [stepGoroutine_eq m probes _ _ i t false _ hpi (hs _ _ _ h)]
  cases hch : shared.changed with
  | true =>
    simp only [Monitor.probeStep, if_true, List.set_set]
    rw [stepGoroutine_eq m probes _ _ i t false _ hpi (hs _ _ _ h)]
    simp only [Monitor.probeStep, List.set_set]
    rw [stepGoroutine_eq m probes _ _ i t false _ hpi (hs _ _ _ h)]
    simp only [Monitor.probeStep, List.set_set, Bool.false_eq_true, if_false]
    rw [stepGoroutine_eq m probes _ _ i t false _ hpi (hs _ _ _ h)]
    simp only [Monitor.probeStep, List.set_set, Bool.false_eq_true, if_false]
  | false =>
    simp only [Monitor.probeStep, Bool.false_eq_true, if_false, List.set_set]
    rw [stepGoroutine_eq m probes _ _ i t false _ hpi (hs _ _ _ h)]
    simp only [Monitor.probeStep, List.set_set]
    rw [stepGoroutine_eq m probes _ _ i t false _ hpi (hs _ _ _ h)]
    simp only [Monitor.probeStep, List.set_set, Bool.false_eq_true, if_false]
    rw [stepGoroutine_eq m probes _ _ i t false _ hpi (hs _ _ _ h)]
    simp only [Monitor.probeStep, List.set_set, Bool.false_eq_true, if_false]

/-- Once the registered target has been unregistered and `changed` is set, an uninterrupted
goroutine whose check failed leaves both as they are. -/
theorem runSchedule_block_after_change (m : Monitor) (probes : List (Target × Bool))
    (c1 : Client) (hfail : ∀ p ∈ probes, p.2 = false) (ts : TickState) (i : ℕ)
    (h : ts.shared.changed = true ∧ ts.shared.client = c1 ∧ ts.shared.up = [] ∧
      ts.shared.down ≠ [] ∧ ∀ pc ∈ ts.pcs, pc = ProbePC.start ∨ pc = ProbePC.done) :
    (m.runSchedule probes ts (List.replicate 5 i)).shared.changed = true ∧
    (m.runSchedule probes ts (List.replicate 5 i)).shared.client = c1 ∧
    (m.runSchedule probes ts (List.replicate 5 i)).shared.up = [] ∧
    (m.runSchedule probes ts (List.replicate 5 i)).shared.down ≠ [] ∧
    ∀ pc ∈ (m.runSchedule probes ts (List.replicate 5 i)).pcs,
      pc = ProbePC.start ∨ pc = ProbePC.done := by
  obtain ⟨hch, hc, hup, hdown, hpcs⟩ := h
  cases hpi : probes[i]? with
  | none =>
    rw [runSchedule_block_none m probes ts i (Or.inl hpi)]
    exact ⟨hch, hc, hup, hdown, hpcs⟩
  | some p =>
    obtain ⟨t, ok⟩ := p
    have hok : ok = false := hfail (t, ok) (List.mem_iff_getElem?.2 ⟨i, hpi⟩)
    subst hok
    cases hpc : ts.pcs[i]? with
    | none =>
      rw [runSchedule_block_none m probes ts i (Or.inr hpc)]
      exact ⟨hch, hc, hup, hdown, hpcs⟩
    | some pc =>
      rcases hpcs pc (List.mem_iff_getElem?.2 ⟨i, hpc⟩) with hs | hd
      · subst hs
        rw [runSchedule_block_start m probes ts i t hpi hpc]
        simp only [hch, if_true]
        refine ⟨trivial, hc, hup, by simp, ?_⟩
        intro q hq
        rcases List.mem_or_eq_of_mem_set hq with hq | hq
        · exact hpcs q hq
        · exact Or.inr hq
      · subst hd
        rw [runSchedule_block_done m probes ts i hpc]
        exact ⟨hch, hc, hup, hdown, hpcs⟩

theorem runSchedule_blocks_after_change (m : Monitor) (probes : List (Target × Bool))
    (c1 : Client) (hfail : ∀ p ∈ probes, p.2 = false) (idx : List ℕ) (ts : TickState)
    (h : ts.shared.changed = true ∧ ts.shared.client = c1 ∧ ts.shared.up = [] ∧
      ts.shared.down ≠ [] ∧ ∀ pc ∈ ts.pcs, pc = ProbePC.start ∨ pc = ProbePC.done) :
    (m.runSchedule probes ts (blockSchedule idx)).shared.changed = true ∧
    (m.runSchedule probes ts (blockSchedule idx)).shared.client = c1 ∧
    (m.runSchedule probes ts (blockSchedule idx)).shared.up = [] ∧
    (m.runSchedule probes ts (blockSchedule idx)).shared.down ≠ [] := by
  induction idx generalizing ts with
  | nil => exact ⟨h.1, h.2.1, h.2.2.1, h.2.2.2.1⟩
  | cons i rest ih =>
    rw [blockSchedule, runSchedule_append]
    exact ih _ (runSchedule_block_after_change m probes c1 hfail ts i h)

/-- While the only registered target `x` is still registered and `changed` is unset, every
goroutine for `x` standing at `start`: an uninterrupted goroutine whose check failed either
unregisters `x` and sets `changed`, or it is not a goroutine for `x` and changes neither. -/
theorem runSchedule_block_before_change (m : Monitor) (probes : List (Target × Bool))
    (c0 : Client) (x : NATTarget) (hget : c0.get m.svc.Name = [x])
    (hfail : ∀ p ∈ probes, p.2 = false) (ts : TickState) (i : ℕ)
    (h : ts.shared.changed = false ∧ ts.shared.client = c0 ∧ ts.shared.up = [] ∧
      (∀ pc ∈ ts.pcs, pc = ProbePC.start ∨ pc = ProbePC.done) ∧
      ∀ (j : ℕ) (t : Target), probes[j]? = some (t, false) → m.natTarget t = x →
        ts.pcs[j]? = some ProbePC.start) :
    ((m.runSchedule probes ts (List.replicate 5 i)).shared.changed = true ∧
      (m.runSchedule probes ts (List.replicate 5 i)).shared.client = c0.set m.svc.Name [] ∧
      (m.runSchedule probes ts (List.replicate 5 i)).shared.up = [] ∧
      (m.runSchedule probes ts (List.replicate 5 i)).shared.down ≠ [] ∧
      ∀ pc ∈ (m.runSchedule probes ts (List.replicate 5 i)).pcs,
        pc = ProbePC.start ∨ pc = ProbePC.done) ∨
    (((m.runSchedule probes ts (List.replicate 5 i)).shared.changed = false ∧
      (m.runSchedule probes ts (List.replicate 5 i)).shared.client = c0 ∧
      (m.runSchedule probes ts (List.replicate 5 i)).shared.up = [] ∧
      (∀ pc ∈ (m.runSchedule probes ts (List.replicate 5 i)).pcs,
        pc = ProbePC.start ∨ pc = ProbePC.done) ∧
      ∀ (j : ℕ) (t : Target), probes[j]? = some (t, false) → m.natTarget t = x →
        (m.runSchedule probes ts (List.replicate 5 i)).pcs[j]? = some ProbePC.start) ∧
      ∀ (t : Target), probes[i]? = some (t, false) → m.natTarget t ≠ x) := by
  obtain ⟨hch, hc, hup, hpcs, hx⟩ := h
  cases hpi : probes[i]? with
  | none =>
    rw [runSchedule_block_none m probes ts i (Or.inl hpi)]
    exact Or.inr ⟨⟨hch, hc, hup, hpcs, hx⟩, fun t ht => by cases ht⟩
  | some p =>
    obtain ⟨t, ok⟩ := p
    have hok : ok = false := hfail (t, ok) (List.mem_iff_getElem?.2 ⟨i, hpi⟩)
    subst hok
    cases hpc : ts.pcs[i]? with
    | none =>
      rw [runSchedule_block_none m probes ts i (Or.inr hpc)]
      refine Or.inr ⟨⟨hch, hc, hup, hpcs, hx⟩, ?_⟩
      intro t2 ht2 hxt
      have := hx i t2 (by rw [hpi, ht2]) hxt
      rw [hpc] at this
      cases this
    | some pc =>
      rcases hpcs pc (List.mem_iff_getElem?.2 ⟨i, hpc⟩) with hs | hd
      · subst hs
        rw [runSchedule_block_start m probes ts i t hpi hpc]
        have hset : ∀ q ∈ ts.pcs.set i ProbePC.done, q = ProbePC.start ∨ q = ProbePC.done := by
          intro q hq
          rcases List.mem_or_eq_of_mem_set hq with hq | hq
          · exact hpcs q hq
          · exact Or.inr hq
        simp only [hch, Bool.false_eq_true, if_false, Client.unregister_eq, hc, hget,
          List.mem_singleton]
        by_cases hxt : m.natTarget t = x
        · left
          rw [if_pos hxt]
          refine ⟨rfl, ?_, hup, by simp, hset⟩
          simp [hxt]
        · right
          rw [if_neg hxt]
          refine ⟨⟨rfl, rfl, hup, hset, ?_⟩, ?_⟩
          · intro j t2 hj hxt2
            have hji : j ≠ i := by
              intro hji
              subst hji
              rw [hpi] at hj
              simp only [Option.some.injEq, Prod.mk.injEq, and_true] at hj
              subst hj
              exact hxt hxt2
            rw [List.getElem?_set_ne (Ne.symm hji)]
            exact hx j t2 hj hxt2
          · intro t2 ht2
            simp only [Option.some.injEq, Prod.mk.injEq, and_true] at ht2
            subst ht2
            exact hxt
      · subst hd
        rw [runSchedule_block_done m probes ts i hpc]
        refine Or.inr ⟨⟨hch, hc, hup, hpcs, hx⟩, ?_⟩
        intro t2 ht2 hxt
        have := hx i t2 (by rw [hpi, ht2]) hxt
        rw [hpc] at this
        cases this

theorem runSchedule_blocks_before_change (m : Monitor) (probes : List (Target × Bool))
    (c0 : Client) (x : NATTarget) (hget : c0.get m.svc.Name = [x])
    (hfail : ∀ p ∈ probes, p.2 = false) (idx : List ℕ) (ts : TickState)
    (h : ts.shared.changed = false ∧ ts.shared.client = c0 ∧ ts.shared.up = [] ∧
      (∀ pc ∈ ts.pcs, pc = ProbePC.start ∨ pc = ProbePC.done) ∧
      ∀ (j : ℕ) (t : Target), probes[j]? = some (t, false) → m.natTarget t = x →
        ts.pcs[j]? = some ProbePC.start) :
    ((m.runSchedule probes ts (blockSchedule idx)).shared.changed = true ∧
      (m.runSchedule probes ts (blockSchedule idx)).shared.client = c0.set m.svc.Name [] ∧
      (m.runSchedule probes ts (blockSchedule idx)).shared.up = [] ∧
      (m.runSchedule probes ts (blockSchedule idx)).shared.down ≠ []) ∨
    ∀ i ∈ idx, ∀ (t : Target), probes[i]? = some (t, false) → m.natTarget t ≠ x := by
  induction idx generalizing ts with
  | nil => exact Or.inr (fun i hi => by cases hi)
  | cons i rest ih =>
    rw [blockSchedule, runSchedule_append]
    rcases runSchedule_block_before_change m probes c0 x hget hfail ts i h with h2 | ⟨h1, hi⟩
    · exact Or.inl (runSchedule_blocks_after_change m probes _ hfail rest _ h2)
    · rcases ih _ h1 with h3 | h3
      · exact Or.inl h3
      · right
        intro j hj
        simp only [List.mem_cons] at hj
        rcases hj with rfl | hj
        · exact hi
        · exact h3 j hj

theorem blockSchedule_append (a b : List ℕ) :
    blockSchedule (a ++ b) = blockSchedule a ++ blockSchedule b := by
  induction a with
  | nil => rfl
  | cons i rest ih => simp [blockSchedule, ih]

theorem sequentialSchedule_eq (n : ℕ) : sequentialSchedule n = blockSchedule (List.range n) := by
  induction n with
  | zero => rfl
  | succ k ih =>
    rw [sequentialSchedule, ih, List.range_succ, blockSchedule_append]
    simp [blockSchedule]

/-- All checks fail, the only registered target derives from a configured target, and the
goroutines run one after the other: the target is unregistered and `changed` is set when they
have all returned. -/
theorem runGoroutines_blocks_last_target_down (m : Monitor) (probes : List (Target × Bool))
    (c0 : Client) (t0 : Target) (i0 : ℕ) (hget : c0.get m.svc.Name = [m.natTarget t0])
    (hfail : ∀ p ∈ probes, p.2 = false) (hi0 : probes[i0]? = some (t0, false))
    (idx : List ℕ) :
    (m.runGoroutines probes
      { client := c0, changed := false, down := [], up := [], calls := [] }
      (blockSchedule idx)).changed = true ∧
    (m.runGoroutines probes
      { client := c0, changed := false, down := [], up := [], calls := [] }
      (blockSchedule idx)).client = c0.set m.svc.Name [] ∧
    (m.runGoroutines probes
      { client := c0, changed := false, down := [], up := [], calls := [] }
      (blockSchedule idx)).up = [] ∧
    (m.runGoroutines probes
      { client := c0, changed := false, down := [], up := [], calls := [] }
      (blockSchedule idx)).down ≠ [] := by
  have hlt : i0 < probes.length := by
    by_contra hge
    rw [List.getElem?_eq_none (by omega)] at hi0
    cases hi0
  unfold Monitor.runGoroutines
  rw [sequentialSchedule_eq, ← blockSchedule_append]
  rcases runSchedule_blocks_before_change m probes c0 (m.natTarget t0) hget hfail
    (idx ++ List.range probes.length)
    { shared := { client := c0, changed := false, down := [], up := [], calls := [] },
      pcs := probes.map fun _ => ProbePC.start }
    ⟨rfl, rfl, rfl, by
      intro pc hpc
      simp only [List.mem_map] at hpc
      obtain ⟨_, _, rfl⟩ := hpc
      exact Or.inl rfl, by
      intro j t hj _
      rw [List.getElem?_map, hj]
      rfl⟩ with h | h
  · exact h
  · exact absurd rfl (h i0 (by simp [hlt]) t0 hi0)

/-- A service with one configured target has one probe goroutine, and whatever the schedule,
this goroutine takes its five steps: if its check failed and its target is the only registered
one, the target is unregistered and `changed` is set when it has returned. -/
theorem runGoroutines_single_last_target_down (m : Monitor) (c0 : Client) (t0 : Target)
    (hget : c0.get m.svc.Name = [m.natTarget t0]) (sched : List ℕ) :
    (m.runGoroutines [(t0, false)]
      { client := c0, changed := false, down := [], up := [], calls := [] } sched).changed
      = true ∧
    (m.runGoroutines [(t0, false)]
      { client := c0, changed := false, down := [], up := [], calls := [] } sched).client
      = c0.set m.svc.Name [] ∧
    (m.runGoroutines [(t0, false)]
      { client := c0, changed := false, down := [], up := [], calls := [] } sched).up = [] ∧
    (m.runGoroutines [(t0, false)]
      { client := c0, changed := false, down := [], up := [], calls := [] } sched).down ≠ [] := by
  have hiter : ∀ (s : List ℕ) (ts : TickState),
      ∃ k, m.runSchedule [(t0, false)] ts s
        = (fun u => m.stepGoroutine [(t0, false)] u 0)^[k] ts := by
    intro s
    induction s with
    | nil => exact fun ts => ⟨0, rfl⟩
    | cons i rest ih =>
      intro ts
      rw [Monitor.runSchedule]
      cases i with
      | zero =>
        obtain ⟨k, hk⟩ := ih (m.stepGoroutine [(t0, false)] ts 0)
        exact ⟨k + 1, by rw [hk, Function.iterate_succ_apply]⟩
      | succ j =>
        have : m.stepGoroutine [(t0, false)] ts (j + 1) = ts := by
          simp [Monitor.stepGoroutine]
        rw [this]
        exact ih ts
  have hfive : ∀ ts : TickState, m.runSchedule [(t0, false)] ts (List.replicate 5 0)
      = (fun u => m.stepGoroutine [(t0, false)] u 0)^[5] ts := by
    intro ts
    rw [runSchedule_five]
    rfl
  have hfinal : m.runSchedule [(t0, false)]
      { shared := { client := c0, changed := false, down := [], up := [], calls := [] },
        pcs := [ProbePC.start] } (List.replicate 5 0)
      = { shared := { client := c0.set m.svc.Name [], changed := true, down := [t0.String],
                      up := [], calls := [true] },
          pcs := [ProbePC.done] } := by
    rw [runSchedule_block_start m [(t0, false)]
      { shared := { client := c0, changed := false, down := [], up := [], calls := [] },
        pcs := [ProbePC.start] } 0 t0 rfl rfl]
    simp [Client.unregister_eq, hget]
  have hfix : m.stepGoroutine [(t0, false)]
      { shared := { client := c0.set m.svc.Name [], changed := true, down := [t0.String],
                    up := [], calls := [true] },
        pcs := [ProbePC.done] } 0
      = { shared := { client := c0.set m.svc.Name [], changed := true, down := [t0.String],
                      up := [], calls := [true] },
          pcs := [ProbePC.done] } := stepGoroutine_done m _ _ 0 rfl
  have hrun : m.runSchedule [(t0, false)]
      { shared := { client := c0, changed := false, down := [], up := [], calls := [] },
        pcs := [ProbePC.start] } (sched ++ sequentialSchedule 1)
      = { shared := { client := c0.set m.svc.Name [], changed := true, down := [t0.String],
                      up := [], calls := [true] },
          pcs := [ProbePC.done] } := by
    have hseq : sequentialSchedule 1 = List.replicate 5 0 := rfl
    rw [hseq, runSchedule_append]
    obtain ⟨k, hk⟩ := hiter sched
      { shared := { client := c0, changed := false, down := [], up := [], calls := [] },
        pcs := [ProbePC.start] }
    rw [hk, hfive, ← Function.iterate_add_apply, Nat.add_comm, Function.iterate_add_apply,
      ← hfive, hfinal]
    exact Function.iterate_fixed hfix k
  unfold Monitor.runGoroutines
  simp only [List.map_cons, List.map_nil, List.length_singleton]
  rw [hrun]
  simp

/-- C8 (all targets down, S6), as the code has it. Let the probes of all configured targets
fail in a tick.
(1) Let the service have exactly one registered target before the tick, the one derived from
one of its configured targets, let no other known service have the same DNAT chain name, and
let the probe goroutines run one after the other, in any order (the single goroutine of a
service with one configured target does so under every schedule). Then after the tick the
service has no registered target, `EnsureManagedChains` has been invoked once and the status
log is at error level; on a backend that refuses no call the tick returns no error; and
whenever the tick returns no error, the chain `M_<svc>_DNAT` exists and holds only the rule
`-j RETURN`, whatever it held before.
(2) Let none of the configured targets be registered before the tick, as on every tick since
startup if all probes have failed so far. Then under every schedule of the goroutines the tick
does not invoke `EnsureManagedChains`, returns no error and leaves the chain manager and the
backend as they were: the chain `M_<svc>_DNAT` exists afterwards only if it existed before, and
with the rules it had. -/
theorem updateRoutingTargets_all_targets_down (m : Monitor) (st : MonitorState)
    (checks : ℕ → Bool) (sched : List ℕ) (order : List (String × Bool))
    (hfail : ∀ i, i < m.svc.Targets.length → checks i = false) :
    (∀ t0 : Target, t0 ∈ m.svc.Targets →
      st.client.services m.svc.Name = some [m.natTarget t0] →
      st.client.rangeOrder order →
      (∀ s ∈ order.map Prod.fst,
        tableName [st.client.managedChain, s, "DNAT"]
          = tableName [st.client.managedChain, m.svc.Name, "DNAT"] → s = m.svc.Name) →
      (m.svc.Targets.length = 1 ∨ ∃ idx, sched = blockSchedule idx) →
      (m.updateRoutingTargets st checks sched order).state.client.services m.svc.Name = some [] ∧
      (m.updateRoutingTargets st checks sched order).ensureCalls = 1 ∧
      (m.updateRoutingTargets st checks sched order).level = LogLevel.error ∧
      ((∀ f ∈ st.ipt.failures, f = false) →
        (m.updateRoutingTargets st checks sched order).err = none) ∧
      ((m.updateRoutingTargets st checks sched order).err = none →
        (m.updateRoutingTargets st checks sched order).state.ipt.chains
          (tableName [st.client.managedChain, m.svc.Name, "DNAT"]) = some [["-j", "RETURN"]])) ∧
    ((∀ t ∈ m.svc.Targets, m.natTarget t ∉ st.client.get m.svc.Name) →
      (m.updateRoutingTargets st checks sched order).state = st ∧
      (m.updateRoutingTargets st checks sched order).err = none ∧
      (m.updateRoutingTargets st checks sched order).ensureCalls = 0) := by
  have hp := probesFrom_all_fail checks m.svc.Targets hfail
  constructor
  · intro t0 ht0 hreg horder huniq hsched
    have hget : st.client.get m.svc.Name = [m.natTarget t0] := by
      simp [Client.get, hreg]
    have hrun : (m.runGoroutines (probesFrom checks 0 m.svc.Targets)
          { client := st.client, changed := false, down := [], up := [], calls := [] }
          sched).changed = true ∧
        (m.runGoroutines (probesFrom checks 0 m.svc.Targets)
          { client := st.client, changed := false, down := [], up := [], calls := [] }
          sched).client = st.client.set m.svc.Name [] ∧
        (m.runGoroutines (probesFrom checks 0 m.svc.Targets)
          { client := st.client, changed := false, down := [], up := [], calls := [] }
          sched).up = [] ∧
        (m.runGoroutines (probesFrom checks 0 m.svc.Targets)
          { client := st.client, changed := false, down := [], up := [], calls := [] }
          sched).down ≠ [] := by
      rcases hsched with hone | ⟨idx, hidx⟩
      · have htargets : m.svc.Targets = [t0] := by
          rcases hT : m.svc.Targets with _ | ⟨a, _ | ⟨b, rest⟩⟩
          · rw [hT] at hone; simp at hone
          · rw [hT] at ht0
            simp only [List.mem_singleton] at ht0
            rw [ht0]
          · rw [hT] at hone; simp at hone
        have h0 : checks 0 = false := hfail 0 (by rw [htargets]; simp)
        rw [htargets]
        simp only [probesFrom, h0]
        exact runGoroutines_single_last_target_down m st.client t0 hget sched
      · obtain ⟨i0, hi0⟩ := List.mem_iff_getElem?.1 ht0
        have hlt : i0 < m.svc.Targets.length := by
          by_contra hge
          rw [List.getElem?_eq_none (by omega)] at hi0
          cases hi0
        have hpi : (probesFrom checks 0 m.svc.Targets)[i0]? = some (t0, false) := by
          rw [probesFrom_getElem?, hi0, Nat.zero_add, Option.map_some', hfail i0 hlt]
        rw [hidx]
        exact runGoroutines_blocks_last_target_down m _ st.client t0 i0 hget
          (fun p hpm => (hp p hpm).2) hpi idx
    have hs : m.svc.Name ∈ order.map Prod.fst := by
      rw [horder.2, hreg]; rfl
    unfold Monitor.updateRoutingTargets
    simp only []
    generalize m.runGoroutines (probesFrom checks 0 m.svc.Targets)
      { client := st.client, changed := false, down := [], up := [], calls := [] } sched = ps
      at hrun ⊢
    obtain ⟨hchanged, hclient, hup, hdown⟩ := hrun
    have hlevel : statusLevel ps.up ps.down = LogLevel.error := by
      unfold statusLevel
      have hlen : ps.down.length ≠ 0 := fun h0 => hdown (List.length_eq_zero.1 h0)
      rw [hup]
      simp only [List.length_nil, Nat.zero_add]
      rw [if_neg (by omega), if_neg (by omega)]
    simp only [hchanged, Bool.not_true, Bool.false_eq_true, if_false]
    have hsvc := EnsureManagedChains_service_chain ps.client st.ipt order m.svc.Name
    have hquiet := EnsureManagedChains_quiet ps.client st.ipt order
    have hmc : ps.client.managedChain = st.client.managedChain := by rw [hclient]; rfl
    rw [hmc] at hsvc
    rcases hE : ps.client.EnsureManagedChains st.ipt order with ⟨ipt1, _ | err⟩
    · rw [hE] at hsvc
      simp only [] at hsvc ⊢
      refine ⟨?_, trivial, hlevel, fun _ => trivial, fun _ => ?_⟩
      · rw [hclient]
        simp [Client.set]
      · rw [hsvc trivial hs huniq, buildServiceTable_nil]
        rw [hclient, Client.get_set_same]
    · rw [hE] at hquiet
      simp only []
      refine ⟨?_, trivial, hlevel, fun hq => ?_, fun herr => ?_⟩
      · rw [hclient]
        simp [Client.set]
      · exact absurd (hquiet hq) (by simp)
      · simp at herr
  · intro hnone
    have hrun := runGoroutines_no_change m (probesFrom checks 0 m.svc.Targets) st.client
      (fun p hpm => ⟨(hp p hpm).2, hnone p.1 (hp p hpm).1⟩) sched
    unfold Monitor.updateRoutingTargets
    simp only [hrun.1, hrun.2, Bool.not_false, if_true]
    exact ⟨trivial, trivial, trivial⟩

theorem updateRoutingTargets_all_targets_down_witness :
    (usedBackend.chains "M_WEB_DNAT" = some [["-j", "ACCEPT"], ["-j", "RETURN"]] ∧
      (singleMonitor.updateRoutingTargets
        { client := (New "M").set "web" [sampleNatA], ipt := usedBackend }
        (fun _ => false) [0, 7, 0] [("web", true)]).err = none ∧
      (singleMonitor.updateRoutingTargets
        { client := (New "M").set "web" [sampleNatA], ipt := usedBackend }
        (fun _ => false) [0, 7, 0] [("web", true)]).state.ipt.chains "M_WEB_DNAT"
        = some [["-j", "RETURN"]]) ∧
    (((sampleMonitor "tcp").updateRoutingTargets
        { client := (New "M").set "web" [sampleNatA], ipt := usedBackend }
        (fun _ => false) (blockSchedule [1, 0]) [("web", true)]).ensureCalls = 1 ∧
      ((sampleMonitor "tcp").updateRoutingTargets
        { client := (New "M").set "web" [sampleNatA], ipt := usedBackend }
        (fun _ => false) (blockSchedule [1, 0]) [("web", true)]).state.ipt.chains "M_WEB_DNAT"
        = some [["-j", "RETURN"]]) ∧
    (((sampleMonitor "tcp").updateRoutingTargets { client := New "M", ipt := usedBackend }
        (fun _ => false) [1, 0, 0, 0, 1, 1] []).ensureCalls = 0 ∧
      ((sampleMonitor "tcp").updateRoutingTargets { client := New "M", ipt := usedBackend }
        (fun _ => false) [1, 0, 0, 0, 1, 1] []).state.ipt.chains "M_WEB_DNAT"
        = some [["-j", "ACCEPT"], ["-j", "RETURN"]]) := by
  have horder : ((New "M").set "web" [sampleNatA]).rangeOrder [("web", true)] := by
    refine ⟨by decide, ?_⟩
    intro s
    by_cases h : s = "web"
    · subst h; simp [Client.set]
    · simp [Client.set, New, h]
  have h1 := (updateRoutingTargets_all_targets_down singleMonitor
    { client := (New "M").set "web" [sampleNatA], ipt := usedBackend }
    (fun _ => false) [0, 7, 0] [("web", true)] (fun _ _ => rfl)).1 sampleTargetA
    (by decide) (by simp [Client.set, sampleNatA, sampleMonitor, sampleService, singleMonitor,
      Monitor.natTarget, Service.Protocol])
    horder (by intro s hs _; simpa using hs) (Or.inl rfl)
  have h2 := (updateRoutingTargets_all_targets_down (sampleMonitor "tcp")
    { client := (New "M").set "web" [sampleNatA], ipt := usedBackend }
    (fun _ => false) (blockSchedule [1, 0]) [("web", true)] (fun _ _ => rfl)).1 sampleTargetA
    (by decide) (by simp [Client.set, sampleNatA, sampleMonitor, sampleService])
    horder (by intro s hs _; simpa using hs) (Or.inr ⟨[1, 0], rfl⟩)
  have h3 := (updateRoutingTargets_all_targets_down (sampleMonitor "tcp")
    { client := New "M", ipt := usedBackend }
    (fun _ => false) [1, 0, 0, 0, 1, 1] [] (fun _ _ => rfl)).2
    (by intro t _; simp [Client.get, New])
  have hq : ∀ f ∈ usedBackend.failures, f = false := by decide
  refine ⟨⟨by decide, h1.2.2.2.1 hq, h1.2.2.2.2 (h1.2.2.2.1 hq)⟩,
    ⟨h2.2.1, h2.2.2.2.2 (h2.2.2.2.1 hq)⟩, ⟨h3.2.2, ?_⟩⟩
  rw [h3.1]
  decide

/-- C8, where the claim fails: after the start of `main` on a backend without chains, a tick
of the sample service in which the probes of both targets fail returns no error and logs at
error level, but makes no change: the chain `M_WEB_DNAT` does not exist afterwards. -/
theorem all_down_since_startup_has_no_service_chain :
    (mainStart "M" false emptyBackend).2 = none ∧
    (sampleMonitor "tcp").svc.Targets = [sampleTargetA, sampleTargetB] ∧
    ((sampleMonitor "tcp").updateRoutingTargets (mainStart "M" false emptyBackend).1
        (fun _ => false) [0, 0, 0, 0, 0, 1, 1, 1, 1, 1] []).err = none ∧
    ((sampleMonitor "tcp").updateRoutingTargets (mainStart "M" false emptyBackend).1
        (fun _ => false) [0, 0, 0, 0, 0, 1, 1, 1, 1, 1] []).calls = [false, false] ∧
    ((sampleMonitor "tcp").updateRoutingTargets (mainStart "M" false emptyBackend).1
        (fun _ => false) [0, 0, 0, 0, 0, 1, 1, 1, 1, 1] []).level = LogLevel.error ∧
    tableName ["M", "web", "DNAT"] = "M_WEB_DNAT" ∧
    ((sampleMonitor "tcp").updateRoutingTargets (mainStart "M" false emptyBackend).1
        (fun _ => false) [0, 0, 0, 0, 0, 1, 1, 1, 1, 1] []).state.ipt.chains "M_WEB_DNAT"
      = none ∧
    ((sampleMonitor "tcp").updateRoutingTargets (mainStart "M" false emptyBackend).1
        (fun _ => false) [0, 0, 0, 0, 0, 1, 1, 1, 1, 1] []).state.ipt.chains "M_WEB_DNAT"
      ≠ some [["-j", "RETURN"]] := by
  decide!

end IptLoadbalancer
